import Mathlib

/-!
Verification development for the rlifesrc search engine
(`src/lib/src/search.rs`, `cells.rs`, `clause.rs`, `config.rs`, `save.rs`).

The engine's `World` type, `set_cell`, `clear_cell`, `get_unknown`, the
world builder and the rule implementations live in files that are not part
of the source tree we were given (`world.rs`, `rules/*`); those parts are
modelled from the specification and marked as such in their doc comments.
Everything else is translated directly from the Rust sources.
-/

set_option maxRecDepth 4000

/-- Possible states of a known cell (`cells.rs`, `enum State`).
During the search a cell state is `Option State`, `none` = unknown. -/
inductive State where
  | alive
  | dead
deriving DecidableEq, Repr

/-- Flips the state (`cells.rs`, `impl Not for State`). -/
def State.not : State → State
  | .alive => .dead
  | .dead => .alive

/-- Reasons for setting a cell (`clause.rs`, `enum SetReason`).
`search.rs` (`proceed`, line 70) uses a two-argument `Sym(cell, sym)`
variant, so the source and the partner are both recorded here. -/
inductive SetReason where
  /-- Assumed when nothing can be deduced; the number is the position in
  the `search_list` of the world. -/
  | assume (i : Nat)
  /-- Deduced during the initialization. -/
  | init
  /-- Deduced from the rule when consistifying another cell. -/
  | rule (c : Nat)
  /-- Deduced from symmetry (source cell, partner cell). -/
  | sym (src tgt : Nat)
  /-- Deduced from a learnt clause. -/
  | clause (cs : List Nat)
  /-- Deduced from conflicts. -/
  | conflict
deriving DecidableEq, Repr

/-- Reasons for a conflict (`clause.rs`, `enum ConflReason`, together with
the `Conflict` and `Succeed` variants matched in `search.rs`, line 128). -/
inductive ConflReason where
  | rule (c : Nat)
  | sym (c s : Nat)
  | cellCount
  | conflict
  | succeed
deriving DecidableEq, Repr

/-- Whether a conflict reason carries premises: `analyze` (`search.rs`,
lines 127-129) sends `Conflict`, `CellCount` and `Succeed` straight to
`backup` and enters the analysis loop for every other reason. -/
def ConflReason.hasPremises : ConflReason → Bool
  | .rule _ => true
  | .sym _ _ => true
  | _ => false

/-- How to choose a state for an unknown cell (`config.rs`, `enum NewState`). -/
inductive NewState where
  | choose (s : State)
  | random
deriving DecidableEq, Repr

/-- Search status (`search.rs`, `enum Status`). -/
inductive Status where
  | found
  | none
  | searching
  | paused
deriving DecidableEq, Repr

/-- A target of a consistification deduction, relative to the cell being
consistified: the cell itself, its successor, or one of the 8 neighbors. -/
inductive CTarget where
  | self
  | succ
  | nbhd (i : Nat)
deriving DecidableEq, Repr

/-- Modelled from the spec: the rule strategy (§4.1), whose implementations
(`rules/*.rs`) are missing from the source tree.  Descriptors are plain
naturals.  `descSelf`, `descPred` and `descNbhd i` say how the descriptor
of the changed cell, of its predecessor and of its `i`-th neighbor change
when the cell's state goes from `old` to `new`; they can only produce a
new descriptor, so a rule can never touch states, reasons or the stack.
`plan` is `consistify`'s decision given the descriptor and state of a
cell: `none` is a conflict (`ConflReason::Rule`), otherwise a list of
forced states, emitted through `set_cell` with a `Rule` reason. -/
structure EmbRule where
  newDesc : State → State → Nat
  descSelf : Nat → Option State → Option State → Nat
  descPred : Nat → Option State → Option State → Nat
  descNbhd : Nat → Nat → Option State → Option State → Nat
  plan : Nat → Option State → Option (List (CTarget × State))

/-- A cell of the space-time grid (`cells.rs`, `struct LifeCell`), with
cell-to-cell references replaced by arena indices (spec §9: links are
indices into an arena). -/
structure LifeCell where
  background : State
  state : Option State := none
  desc : Nat := 0
  reason : Option SetReason := none
  level : Option Nat := none
  pred : Option Nat := none
  succ : Option Nat := none
  nbhd : List (Option Nat) := List.replicate 8 none
  sym : List Nat := []
  gen : Nat := 0
  coord : Int × Int × Int := (0, 0, 0)
  isFront : Bool := false
  isGen0 : Bool := false
deriving DecidableEq, Repr

/-- The world (spec §3: the arena of cells, the propagation stack, the
counters, the cursors and the decision level; `world.rs` is missing from
the source tree, so the layout is modelled from the spec and from the
fields used by `search.rs` and `save.rs`). -/
structure World where
  rule : EmbRule
  cells : List LifeCell
  setStack : List Nat := []
  checkIndex : Nat := 0
  searchIndex : Nat := 0
  searchList : List Nat := []
  level : Nat := 0
  conflicts : Nat := 0
  cellCount : List Nat := []
  frontCellCount : Nat := 0
  maxCellCount : Option Nat := none
  nonEmptyFront : Bool := false
  newState : NewState := .choose .alive
  reduceMax : Bool := false
  width : Nat := 0
  height : Nat := 0
  period : Nat := 1

/-- The state of the `i`-th cell of the arena. -/
def stateOf (w : World) (i : Nat) : Option State :=
  (w.cells[i]?).bind fun cd => cd.state

/-- The reason recorded on the `i`-th cell of the arena. -/
def reasonOf (w : World) (i : Nat) : Option SetReason :=
  (w.cells[i]?).bind fun cd => cd.reason

/-- The decision level recorded on the `i`-th cell of the arena. -/
def levelOf (w : World) (i : Nat) : Option Nat :=
  (w.cells[i]?).bind fun cd => cd.level

/-- Applies `f` to the `i`-th cell of the arena. -/
def World.updCell (w : World) (i : Nat) (f : LifeCell → LifeCell) : World :=
  { w with cells :=
      match w.cells[i]? with
      | some cd => w.cells.set i (f cd)
      | none => w.cells }

/-- Applies `f` to the descriptor of the `i`-th cell of the arena. -/
def World.setDescOf (w : World) (i : Nat) (f : Nat → Nat) : World :=
  w.updCell i fun cd => { cd with desc := f cd.desc }

/-- Increments entry `i` of a count vector. -/
def incNth (l : List Nat) (i : Nat) : List Nat :=
  match l[i]? with
  | some v => l.set i (v + 1)
  | none => l

/-- Decrements entry `i` of a count vector. -/
def decNth (l : List Nat) (i : Nat) : List Nat :=
  match l[i]? with
  | some v => l.set i (v - 1)
  | none => l

/-- Modelled from the spec (§4.1, `update_desc`): when the state of cell
`ci` (whose pre-change record is `cd`) goes from `old` to `new`, the
rule's update hook rewrites the descriptors of the cell itself, of its
predecessor and of each of its eight neighbors. -/
def World.updateDescAll (w : World) (ci : Nat) (cd : LifeCell)
    (old new : Option State) : World :=
  let w1 := w.setDescOf ci (fun d => w.rule.descSelf d old new)
  let w2 :=
    match cd.pred with
    | some p => w1.setDescOf p (fun d => w.rule.descPred d old new)
    | none => w1
  cd.nbhd.enum.foldl
    (fun wa (pr : Nat × Option Nat) =>
      match pr.2 with
      | some n => wa.setDescOf n (fun d => w.rule.descNbhd pr.1 d old new)
      | none => wa)
    w2

/-- Whether every front cell of the world has a known state. -/
def World.frontAllKnown (w : World) : Bool :=
  w.cells.all fun cd => !cd.isFront || cd.state.isSome

/-- The decision level recorded by `set_cell`: an `Assume` reason opens
a new level (spec §4.4 and glossary). -/
def levelFor (lvl : Nat) : SetReason → Nat
  | .assume _ => lvl + 1
  | _ => lvl

/-- The decision level after erasing a reason: closing an `Assume`
recovers the previous level (spec §4.5 and glossary). -/
def unbumpLevel (lvl : Nat) : Option SetReason → Nat
  | some (.assume _) => lvl - 1
  | _ => lvl

/-- The conflict reported by `set_cell` on a state mismatch (spec §4.2:
`Rule(cell)`, or `Sym` when the reason is symmetric). -/
def mismatchConfl (ci : Nat) : SetReason → ConflReason
  | .sym a b => .sym a b
  | _ => .rule ci

/-- Whether the generation-0 count exceeds the configured cap
(spec §4.2). -/
def World.overCapB (w : World) : Bool :=
  match w.maxCellCount with
  | some m => decide (m < w.cellCount.headD 0)
  | none => false

/-- The mutation performed by `set_cell` on an unknown cell `ci` with
pre-change record `cd` (spec §4.2): record state, reason and level, grow
the decision level on an `Assume` reason, update descriptors through
the rule hook, push onto `set_stack`, and update the counters. -/
def World.setCellPush (w : World) (ci : Nat) (cd : LifeCell) (s : State)
    (r : SetReason) : World :=
  (({ w with
      level := levelFor w.level r,
      setStack := w.setStack ++ [ci],
      cellCount :=
        if s = State.alive then incNth w.cellCount cd.gen
        else w.cellCount,
      frontCellCount :=
        if cd.isFront && s = State.alive then w.frontCellCount + 1
        else w.frontCellCount } : World).updCell ci (fun c =>
          { c with state := some s, reason := some r,
                   level := some (levelFor w.level r) })).updateDescAll
    ci cd none (some s)

/-- Modelled from the spec (§4.2, `set_cell`; `world.rs` is missing):
if the cell already holds an equal state, nothing happens; a different
known state is a conflict; otherwise the push above is performed
(the decision level grows on an `Assume` reason — glossary: the decision
level is the number of `Assume` reasons on the stack; the increment
lives here because `decide` in `search.rs` does not perform it), and
then the cell-count cap and the non-empty-front condition are checked,
yielding `ConflReason::CellCount`.  A conflicting check leaves the
assignment in place, exactly so that backtracking can undo it. -/
def World.setCell (w : World) (ci : Nat) (s : State) (r : SetReason) :
    World × Option ConflReason :=
  match w.cells[ci]? with
  | none => (w, some (ConflReason.rule ci))
  | some cd =>
    match cd.state with
    | some old =>
      if old = s then (w, none)
      else (w, some (mismatchConfl ci r))
    | none =>
      let w3 := w.setCellPush ci cd s r
      if w3.overCapB then (w3, some ConflReason.cellCount)
      else if w3.nonEmptyFront && w3.frontCellCount = 0 && w3.frontAllKnown then
        (w3, some ConflReason.cellCount)
      else (w3, none)

/-- The mutation performed by `clear_cell` on a known cell `ci` with
record `cd` and state `s` (spec §4.2): roll back the counters, reset
descriptors through the rule hook, shrink the decision level when the
erased reason was an `Assume` (the converse of the increment in
`setCellPush`), and erase state, reason and level. -/
def World.clearCellGo (w : World) (ci : Nat) (cd : LifeCell) (s : State) :
    World :=
  (({ w with
      level := unbumpLevel w.level cd.reason,
      cellCount :=
        if s = State.alive then decNth w.cellCount cd.gen
        else w.cellCount,
      frontCellCount :=
        if cd.isFront && s = State.alive then w.frontCellCount - 1
        else w.frontCellCount } : World).updateDescAll ci cd
    (some s) none).updCell ci fun c =>
      { c with state := none, reason := none, level := none }

/-- Modelled from the spec (§4.2, `clear_cell`; `world.rs` is missing):
clears a cell with a known state, a no-op otherwise. -/
def World.clearCell (w : World) (ci : Nat) : World :=
  match w.cells[ci]? with
  | none => w
  | some cd =>
    match cd.state with
    | none => w
    | some s => w.clearCellGo ci cd s

/-- Backtracks to the last time when an unknown cell is assumed
(`search.rs`, `cancel`, lines 86-105): pops from `set_stack`, clearing
cells whose reason is not `Assume`; on an `Assume(i)` cell it resets the
cursors, reads the state, clears the cell and returns it with the state.
`none` models a panic (the `unreachable!()` arm, or an `unwrap` of a
missing state); `some (w, none)` is the exhausted stack.  Fueled; the
fuel only needs to exceed the stack length. -/
def World.cancel : Nat → World → Option (World × Option (Nat × State))
  | 0, _ => none
  | fuel + 1, w =>
    match w.setStack.getLast? with
    | none => some ({ w with checkIndex := 0, searchIndex := 0 }, none)
    | some ci =>
      let w0 := { w with setStack := w.setStack.dropLast }
      match reasonOf w0 ci with
      | some (.assume i) =>
        match stateOf w0 ci with
        | some s =>
          let w1 :=
            ({ w0 with checkIndex := w0.setStack.length,
                       searchIndex := i + 1 }).clearCell ci
          some (w1, some (ci, s))
        | none => none
      | none => none
      | some _ => World.cancel fuel (w0.clearCell ci)

/-- Backtracks and switches the last assumed cell to the other state
(`search.rs`, `backup`, lines 111-118): repeats `cancel`, retrying
`set_cell(cell, !state, Conflict)`; `true` on the first success, `false`
when the backtracking runs past the first set cell. -/
def World.backup : Nat → World → Option (World × Bool)
  | 0, _ => none
  | fuel + 1, w =>
    match World.cancel (fuel + 1) w with
    | none => none
    | some (w1, none) => some (w1, false)
    | some (w1, some (ci, s)) =>
      let p := w1.setCell ci s.not .conflict
      if p.2.isNone then some (p.1, true)
      else World.backup fuel p.1

/-- Premise expansion of a conflict reason (`clause.rs`,
`ConflReason::cells`, lines 101-128, which is the in-tree form of the
`to_lits` called at `search.rs` line 130; only the cells of the literals
are ever read there).  For a `Rule` conflict the premises are read off
the descriptor bits of the conflicting cell: the cell itself when the
self bits are set, its successor when the successor bits are set, and
each neighbor whose count bits are set. -/
def toLitsConfl (w : World) : ConflReason → List Nat
  | .rule c =>
    match w.cells[c]? with
    | none => []
    | some cd =>
      let l0 := if cd.desc &&& 0b11 ≠ 0 then [c] else []
      let l1 :=
        if cd.desc &&& (0b11 <<< 2) ≠ 0 then
          match cd.succ with
          | some s => l0 ++ [s]
          | none => l0
        else l0
      (List.range 8).foldl
        (fun acc i =>
          if cd.desc &&& (0x0101 <<< i <<< 4) ≠ 0 then
            match cd.nbhd[i]? with
            | some (some n) => acc ++ [n]
            | _ => acc
          else acc)
        l1
  | .sym c s => [c, s]
  | _ => []

/-- Premise expansion of a set reason (`clause.rs`, `SetReason::cells`,
lines 54-86, the in-tree form of the `to_lits` called at `search.rs`
line 179), excluding the cell under analysis `excl` in the `Rule` case. -/
def toLitsSet (w : World) (excl : Option Nat) : SetReason → List Nat
  | .rule c0 =>
    match w.cells[c0]? with
    | none => []
    | some cd =>
      let keep : Nat → Bool := fun n =>
        match excl with
        | some e => n ≠ e
        | none => true
      let l0 := if cd.desc &&& 0b11 ≠ 0 && keep c0 then [c0] else []
      let l1 :=
        if cd.desc &&& (0b11 <<< 2) ≠ 0 then
          match cd.succ with
          | some s => if keep s then l0 ++ [s] else l0
          | none => l0
        else l0
      (List.range 8).foldl
        (fun acc i =>
          if cd.desc &&& (0x0101 <<< i <<< 4) ≠ 0 then
            match cd.nbhd[i]? with
            | some (some n) => if keep n then acc ++ [n] else acc
            | _ => acc
          else acc)
        l1
  | .sym src _ => [src]
  | .clause cs => cs
  | _ => []

/-- The scan at the top of the analysis loop (`search.rs`, lines
135-145): every literal cell not yet seen is appended to `seen`; a cell
at the current decision level bumps `counter`, a positive lower level
bumps `maxLevel`. -/
def scanLits (w : World) :
    List Nat → List Nat → Nat → Nat → List Nat × Nat × Nat
  | [], seen, maxLevel, counter => (seen, maxLevel, counter)
  | c :: rest, seen, maxLevel, counter =>
    if c ∈ seen then scanLits w rest seen maxLevel counter
    else
      let seen' := seen ++ [c]
      match levelOf w c with
      | some l =>
        if l = w.level then scanLits w rest seen' maxLevel (counter + 1)
        else if 0 < l then scanLits w rest seen' (max maxLevel l) counter
        else scanLits w rest seen' maxLevel counter
      | none => scanLits w rest seen' maxLevel counter

/-- The backjump loop of `analyze` (`search.rs`, lines 169-171):
`while max_level < self.level { self.cancel(); }`. -/
def cancelWhile : Nat → World → Nat → Option World
  | 0, _, _ => none
  | fuel + 1, w, maxLevel =>
    if maxLevel < w.level then
      match World.cancel (fuel + 1) w with
      | none => none
      | some (w1, _) => cancelWhile fuel w1 maxLevel
    else some w

/-- The analysis loop of `analyze` (`search.rs`, lines 134-195),
transcribed clause by clause; `none` models a panic or fuel exhaustion. -/
def World.analyzeLoop :
    Nat → World → List Nat → List Nat → Nat → Nat → Option (World × Bool)
  | 0, _, _, _, _, _ => none
  | fuel + 1, w, reasonClause, seen, maxLevel, counter =>
    let sc := scanLits w reasonClause seen maxLevel counter
    let seen' := sc.1
    let maxLevel' := sc.2.1
    let counter' := sc.2.2
    match w.setStack.getLast? with
    | none => some ({ w with checkIndex := 0, searchIndex := 0 }, false)
    | some ci =>
      let w0 := { w with setStack := w.setStack.dropLast }
      match reasonOf w0 ci with
      | none => none
      | some r =>
        match r with
        | .assume i =>
          match stateOf w0 ci with
          | none => none
          | some s =>
            let w1 :=
              ({ w0 with checkIndex := w0.setStack.length,
                         searchIndex := i + 1 }).clearCell ci
            let p := w1.setCell ci s.not .conflict
            if p.2.isNone then some (p.1, true)
            else World.backup fuel p.1
        | .conflict => World.backup fuel (w0.clearCell ci)
        | .init => World.backup fuel (w0.clearCell ci)
        | _ =>
          if ci ∈ seen' then
            match stateOf w0 ci with
            | none => none
            | some s =>
              let w1 := w0.clearCell ci
              if counter' = 1 then
                match cancelWhile fuel w1 maxLevel' with
                | none => none
                | some w2 =>
                  let p := w2.setCell ci s.not .conflict
                  if p.2.isNone then some (p.1, true)
                  else World.backup fuel p.1
              else
                let rc' := toLitsSet w1 (some ci) r
                let counter'' :=
                  if levelOf w1 ci = some w1.level then counter' - 1
                  else counter'
                World.analyzeLoop fuel w1 rc' seen' maxLevel' counter''
          else
            World.analyzeLoop fuel (w0.clearCell ci) [] seen' maxLevel' counter'

/-- Conflict analysis (`search.rs`, `analyze`, lines 126-198): reasons
without premises fall back to `backup`; a `Rule` or `Sym` reason is
expanded into its literals and resolved by the analysis loop. -/
def World.analyze (fuel : Nat) (w : World) (r : ConflReason) :
    Option (World × Bool) :=
  match r with
  | .conflict => World.backup fuel w
  | .cellCount => World.backup fuel w
  | .succeed => World.backup fuel w
  | _ => World.analyzeLoop fuel w (toLitsConfl w r) [] 0 0

/-- Consistifies a cell (`search.rs`, `consistify`, delegating to the
rule; the rule side is modelled from the spec, §4.1: the plan computed
from the cell's descriptor and state is either a `Rule` conflict or a
list of forced states, each emitted through `set_cell` with a
`Rule(cell)` reason, stopping at the first conflict). -/
def World.consistify (w : World) (ci : Nat) : World × Option ConflReason :=
  match w.cells[ci]? with
  | none => (w, none)
  | some cd =>
    match w.rule.plan cd.desc cd.state with
    | none => (w, some (ConflReason.rule ci))
    | some plan =>
      plan.foldl
        (fun (acc : World × Option ConflReason) ts =>
          match acc.2 with
          | some _ => acc
          | none =>
            let tgt :=
              match ts.1 with
              | .self => some ci
              | .succ => cd.succ
              | .nbhd i => (cd.nbhd[i]?).join
            match tgt with
            | none => acc
            | some t => acc.1.setCell t ts.2 (.rule ci))
        (w, none)

/-- Consistifies a cell, its predecessor and its eight neighbors
(`search.rs`, `consistify10`, lines 44-53).  The `neigh.unwrap()` on a
missing neighbor slot is a panic, modelled by `none`; built worlds fill
every slot with the background-cell sentinel, so the panic is
unreachable there. -/
def World.consistify10 (w : World) (ci : Nat) :
    Option (World × Option ConflReason) :=
  match w.cells[ci]? with
  | none => some (w, none)
  | some cd =>
    let p1 := w.consistify ci
    match p1.2 with
    | some r => some (p1.1, some r)
    | none =>
      let p2 :=
        match cd.pred with
        | some pr => p1.1.consistify pr
        | none => (p1.1, none)
      match p2.2 with
      | some r => some (p2.1, some r)
      | none =>
        cd.nbhd.foldl
          (fun (acc : Option (World × Option ConflReason)) slot =>
            match acc with
            | none => none
            | some (wa, some r) => some (wa, some r)
            | some (wa, none) =>
              match slot with
              | none => none
              | some n => some (wa.consistify n))
          (some (p2.1, none))

/-- The symmetry pass of `proceed` (`search.rs`, lines 64-72): walks the
symmetry partners of the cell in order; a partner with a different known
state is a `Sym(cell, partner)` conflict; an unknown partner is set to
the cell's state with a `Sym` reason, propagating any conflict. -/
def World.symPass (w : World) (ci : Nat) (st : State) :
    List Nat → World × Option ConflReason
  | [] => (w, none)
  | sy :: rest =>
    match stateOf w sy with
    | some old =>
      if st ≠ old then (w, some (ConflReason.sym ci sy))
      else w.symPass ci st rest
    | none =>
      let p := w.setCell sy st (.sym ci sy)
      match p.2 with
      | some r => (p.1, some r)
      | none => p.1.symPass ci st rest

/-- Deduces all consequences by `consistify` and symmetry (`search.rs`,
`proceed`, lines 58-80): processes `set_stack` from `check_index`
upward; for each cell, the symmetry pass and then `consistify10`;
`Ok` when the cursor reaches the stack length.  `none` models fuel
exhaustion or a panic inside the loop. -/
def World.proceed : Nat → World → Option (World × Option ConflReason)
  | 0, _ => none
  | fuel + 1, w =>
    match w.setStack[w.checkIndex]? with
    | none => some (w, none)
    | some ci =>
      match stateOf w ci with
      | none => none
      | some st =>
        let symRes :=
          match w.cells[ci]? with
          | some cd => w.symPass ci st cd.sym
          | none => (w, none)
        match symRes.2 with
        | some r => some (symRes.1, some r)
        | none =>
          match symRes.1.consistify10 ci with
          | none => none
          | some (w2, some r) => some (w2, some r)
          | some (w2, none) =>
            World.proceed fuel { w2 with checkIndex := w2.checkIndex + 1 }

/-- Finds the first unknown cell of the search list at position `start`
or later, together with its position (spec §4.2, `get_unknown`;
`world.rs` is missing — modelled from the spec as a linear scan). -/
def World.getUnknown (w : World) (start : Nat) : Option (Nat × Nat) :=
  match (w.searchList.drop start).findIdx? fun ci => (stateOf w ci).isNone with
  | some rel =>
    match (w.searchList.drop start)[rel]? with
    | some ci => some (start + rel, ci)
    | none => none
  | none => none

/-- The background state of the `i`-th cell of the arena. -/
def backgroundOf (w : World) (i : Nat) : State :=
  match w.cells[i]? with
  | some cd => cd.background
  | none => .dead

/-- Makes a decision (`search.rs`, `decide`, lines 232-244): the next
unknown cell is assumed with the state chosen by `new_state`; random
choices consume the head of the oracle stream `rng`, the only place the
stream is ever read.  The first component is `none` when no unknown cell
remains, `some e` with the outcome of `set_cell` otherwise. -/
def World.decide (w : World) (rng : List State) :
    Option (Option ConflReason) × World × List State :=
  match w.getUnknown w.searchIndex with
  | none => (none, w, rng)
  | some (i, ci) =>
    let w0 := { w with searchIndex := i + 1 }
    let choice : State × List State :=
      match w0.newState with
      | .choose .dead => (backgroundOf w0 ci, rng)
      | .choose .alive => ((backgroundOf w0 ci).not, rng)
      | .random => (rng.headD .dead, rng.tail)
    let p := w0.setCell ci choice.1 (.assume i)
    (some p.2, p.1, choice.2)

/-- Modelled from the spec (§4.7, `nontrivial`; `world.rs` is missing):
the pattern is nontrivial iff some cell's committed state differs from
its background. -/
def World.nontrivial (w : World) : Bool :=
  w.cells.any fun cd => cd.state ≠ some cd.background

/-- One round of proceeding and backtracking (`search.rs`, `go`, lines
210-223): bumps the step counter, proceeds, and on a conflict charges
`conflicts` and analyzes; repeats until the propagation drains (`true`)
or the backtracking fails (`false`). -/
def World.go : Nat → World → Nat → Option (World × Bool × Nat)
  | 0, _, _ => none
  | fuel + 1, w, step =>
    let step' := step + 1
    match World.proceed (fuel + 1) w with
    | none => none
    | some (w1, none) => some (w1, true, step')
    | some (w1, some r) =>
      let w2 := { w1 with conflicts := w1.conflicts + 1 }
      match w2.analyze (fuel + 1) r with
      | none => none
      | some (w3, true) => World.go fuel w3 step'
      | some (w3, false) => some (w3, false, step')

/-- Whether the optional step bound is exceeded (`search.rs`, lines
272-276). -/
def stepLimitHit (maxStep : Option Nat) (step : Nat) : Bool :=
  match maxStep with
  | some m => decide (step > m)
  | none => false

/-- The body of the search loop (`search.rs`, `search`, lines 257-277). -/
def World.searchLoop :
    Nat → List State → World → Option Nat → Nat → Option (Status × World)
  | 0, _, _, _, _ => none
  | fuel + 1, rng, w, maxStep, step =>
    match World.go (fuel + 1) w step with
    | none => none
    | some (w1, false, _) => some (.none, w1)
    | some (w1, true, step1) =>
      match (w1.decide rng).1 with
      | some e =>
        if e.isSome then
          match World.backup (fuel + 1) (w1.decide rng).2.1 with
          | none => none
          | some (w3, false) => some (.none, w3)
          | some (w3, true) =>
            if stepLimitHit maxStep step1 then some (.searching, w3)
            else World.searchLoop fuel (w1.decide rng).2.2 w3 maxStep step1
        else
          if stepLimitHit maxStep step1 then
            some (.searching, (w1.decide rng).2.1)
          else
            World.searchLoop fuel (w1.decide rng).2.2 (w1.decide rng).2.1
              maxStep step1
      | none =>
        if (w1.decide rng).2.1.nontrivial then
          if (w1.decide rng).2.1.reduceMax then
            match (w1.decide rng).2.1.cellCount.min? with
            | none => none
            | some m =>
              if m = 0 then none
              else
                some (.found,
                  { (w1.decide rng).2.1 with maxCellCount := some (m - 1) })
          else some (.found, (w1.decide rng).2.1)
        else
          match World.backup (fuel + 1) (w1.decide rng).2.1 with
          | none => none
          | some (w3, false) => some (.none, w3)
          | some (w3, true) =>
            if stepLimitHit maxStep step1 then some (.searching, w3)
            else World.searchLoop fuel (w1.decide rng).2.2 w3 maxStep step1

/-- The search function (`search.rs`, `search`, lines 252-279): when no
unknown cell exists at index 0 and `backup` fails, `None`; otherwise the
driver loop.  When `reduce_max` is set, a `Found` result tightens
`max_cell_count` to the minimum generation count minus one; the `usize`
subtraction is modelled as a panic (`none`) when that minimum is zero,
matching the debug overflow check, and the `unwrap` of the minimum of an
empty vector is a panic as well. -/
def World.search (fuel : Nat) (rng : List State) (w : World)
    (maxStep : Option Nat) : Option (Status × World) :=
  if (w.getUnknown 0).isNone then
    match World.backup fuel w with
    | none => none
    | some (w1, false) => some (.none, w1)
    | some (w1, true) => World.searchLoop fuel rng w1 maxStep 0
  else World.searchLoop fuel rng w maxStep 0

/-- Sets the maximal cell count (`search.rs`, `set_max_cell_count`,
lines 339-348): stores the bound; when it is `Some(max)`, backs up while
the minimal generation count exceeds it, stopping when `backup` fails. -/
def World.setMaxCellCountLoop : Nat → World → Nat → Option World
  | 0, _, _ => none
  | fuel + 1, w, max =>
    match w.cellCount.min? with
    | none => none
    | some mn =>
      if mn > max then
        match World.backup (fuel + 1) w with
        | none => none
        | some (w1, false) => some w1
        | some (w1, true) => World.setMaxCellCountLoop fuel w1 max
      else some w

/-- `Search::set_max_cell_count` (`search.rs`, lines 339-348). -/
def World.setMaxCellCount (fuel : Nat) (w : World) (m : Option Nat) :
    Option World :=
  let w1 := { w with maxCellCount := m }
  match m with
  | none => some w1
  | some max => World.setMaxCellCountLoop fuel w1 max

/-- `Search::cell_count` (`search.rs`, lines 331-333):
`self.cell_count[t as usize]` — the signed generation number is cast to
`usize` with two's-complement wraparound and used to index the count
vector; an out-of-bounds index is a panic, modelled by `none`. -/
def World.cellCountAt (w : World) (t : Int) : Option Nat :=
  w.cellCount[(t % (2 ^ 64 : Int)).toNat]?

/-- The glyph of a cell state (`Search::display_gen` contract, spec
§6.2): dead `.`, alive `O`, unknown `?`. -/
def stateChar : Option State → Char
  | some .dead => '.'
  | some .alive => 'O'
  | none => '?'

/-- Finds the arena index of the cell at a coordinate (spec §6.3,
`find_cell`; `world.rs` is missing — modelled from the spec as a lookup
by coordinate). -/
def World.findCell (w : World) (c : Int × Int × Int) : Option Nat :=
  (List.range w.cells.length).find? fun i =>
    match w.cells[i]? with
    | some cd => cd.coord = c
    | none => false

/-- Modelled from the spec (§6.2, `display_gen`; `world.rs` is missing):
renders the width × height grid of generation `t`, rows separated by a
newline. -/
def World.displayGen (w : World) (t : Int) : String :=
  String.intercalate "\n" <|
    (List.range w.height).map fun y =>
      String.mk <|
        (List.range w.width).map fun x =>
          match w.findCell ((x : Int), (y : Int), t) with
          | some i => stateChar (stateOf w i)
          | none => '?'

/-- Transformations after the last generation (`config.rs`,
`enum Transform`). -/
inductive Transform where
  | id
  | rotate90
  | rotate180
  | rotate270
  | flipRow
  | flipCol
  | flipDiag
  | flipAntidiag
deriving DecidableEq, Repr

/-- Whether the transformation requires the world to be square
(`config.rs`, `Transform::square_world`, lines 119-127). -/
def Transform.squareWorld : Transform → Bool
  | .rotate90 => true
  | .rotate270 => true
  | .flipDiag => true
  | .flipAntidiag => true
  | _ => false

/-- Symmetries of the pattern (`config.rs`, `enum Symmetry`). -/
inductive Symmetry where
  | c1
  | c2
  | c4
  | d2Row
  | d2Col
  | d2Diag
  | d2Antidiag
  | d4Ortho
  | d4Diag
  | d8
deriving DecidableEq, Repr

/-- Whether the symmetry requires the world to be square (`config.rs`,
`Symmetry::square_world`, lines 236-245). -/
def Symmetry.squareWorld : Symmetry → Bool
  | .c4 => true
  | .d2Diag => true
  | .d2Antidiag => true
  | .d4Diag => true
  | .d8 => true
  | _ => false

/-- World configuration (`config.rs`, `struct Config`), with the fields
that `set_world` and the builder read. -/
structure Config where
  width : Int := 16
  height : Int := 16
  period : Int := 1
  dx : Int := 0
  dy : Int := 0
  transform : Transform := .id
  symmetry : Symmetry := .c1
  newState : NewState := .choose .alive
  maxCellCount : Option Nat := none
  nonEmptyFront : Bool := true
  ruleString : String := "B3/S23"
deriving DecidableEq, Repr

/-- Modelled from the spec (§6.1; `rules/*.rs` is missing): whether a
rule string parses in the two-state outer-totalistic grammar accepted by
`Life::parse_rule`, i.e. `B` followed by digits `0`-`8`, a slash, and
`S` followed by digits `0`-`8`. -/
def lifeParses (s : String) : Bool :=
  match s.data with
  | 'B' :: rest =>
    (rest.takeWhile (fun c => c ≠ '/')).all
        (fun c => c.isDigit && c ≤ '8') &&
      (match rest.dropWhile (fun c => c ≠ '/') with
       | '/' :: 'S' :: sd => sd.all (fun c => c.isDigit && c ≤ '8')
       | _ => false)
  | _ => false

/-- `Config::set_world` (`config.rs`, lines 443-450): tries the `Life`
parser and falls back to the non-totalistic parser, whose implementation
is missing from the source tree and is therefore taken as an abstract
argument `ntParse`; a world built by `World::new` (also missing, total
by its Rust signature) is represented by `()`. -/
def Config.setWorld (ntParse : String → Except String Unit)
    (cfg : Config) : Except String Unit :=
  if lifeParses cfg.ruleString then Except.ok ()
  else ntParse cfg.ruleString

/-- A serialized stack entry (`save.rs`, `struct SetCellSer`, lines
17-26): coordinates, state and reason of a set cell. -/
structure SetCellSer where
  coord : Int × Int × Int
  state : State
  reason : SetReason
deriving DecidableEq, Repr

/-- A serialized world (`save.rs`, `struct WorldSer`, lines 40-61),
with the configuration abstracted away: `world_with_rule` only feeds it
to `World::new`, which is missing from the source tree, so restoration
is stated against an arbitrary freshly built world. -/
structure WorldSer where
  conflicts : Nat
  setStack : List SetCellSer
  checkIndex : Nat
  searchIndex : Nat

/-- The replay loop of `WorldSer::world_with_rule` (`save.rs`, lines
67-81): each saved entry is looked up by coordinate (`SetCellError` on a
miss), compared against an already known state (`SetCellError` on a
disagreement, nothing on agreement), and otherwise set with the saved
state and reason, discarding the `set_cell` outcome as the source does. -/
def replay (w : World) : List SetCellSer → Except (Int × Int × Int) World
  | [] => Except.ok w
  | e :: rest =>
    match w.findCell e.coord with
    | none => Except.error e.coord
    | some ci =>
      match stateOf w ci with
      | some old =>
        if old = e.state then replay w rest
        else Except.error e.coord
      | none => replay (w.setCell ci e.state e.reason).1 rest

/-- `WorldSer::world_with_rule` (`save.rs`, lines 65-86): rebuilds a
fresh world (`World::new`, missing from the source tree, abstracted as
the argument `w0`), replays the saved assignments, and on success copies
the saved conflict count and cursors into the restored world. -/
def worldWithRule (w0 : World) (ser : WorldSer) :
    Except (Int × Int × Int) World :=
  (replay w0 ser.setStack).map fun w =>
    { w with conflicts := ser.conflicts,
             checkIndex := ser.checkIndex,
             searchIndex := ser.searchIndex }

/-- The serializer of the stack (`save.rs`, `SetCell::ser`, lines 28-36,
mapped over `set_stack` by `World::ser`, lines 121-129): each entry's
current state is unwrapped; `none` models the panic of that unwrap or a
dangling stack entry. -/
def serStackAux (w : World) : List Nat → Option (List SetCellSer)
  | [] => some []
  | ci :: rest =>
    match w.cells[ci]? with
    | none => none
    | some cd =>
      match cd.state, cd.reason with
      | some s, some r =>
        match serStackAux w rest with
        | some l => some (⟨cd.coord, s, r⟩ :: l)
        | none => none
      | _, _ => none

/-- The whole-world snapshot of the stack (`World::ser`). -/
def World.serStack (w : World) : Option (List SetCellSer) :=
  serStackAux w w.setStack

/-- The propagation-stack invariant (spec §8): `set_stack` contains no
duplicates, and every cell on it exists in the arena and has a known
state and a recorded reason. -/
def StackInv (w : World) : Prop :=
  w.setStack.Nodup ∧
    ∀ ci ∈ w.setStack, (stateOf w ci).isSome ∧ (reasonOf w ci).isSome

/-- One application of a public search operation, as listed by the
claim: `proceed`, `decide`, `cancel`, `backup`, `analyze` or `search`
(each with any fuel, oracle stream and arguments, whenever it returns
without a panic). -/
def OpStep (w w' : World) : Prop :=
  (∃ fuel r, World.proceed fuel w = some (w', r)) ∨
  (∃ rng o rng', w.decide rng = (o, w', rng')) ∨
  (∃ fuel r, World.cancel fuel w = some (w', r)) ∨
  (∃ fuel b, World.backup fuel w = some (w', b)) ∨
  (∃ fuel r b, w.analyze fuel r = some (w', b)) ∨
  (∃ fuel rng maxStep st, World.search fuel rng w maxStep = some (st, w'))

/-- Reachability by any sequence of the public search operations. -/
def Reachable : World → World → Prop :=
  Relation.ReflTransGen OpStep

/-- Whether an optional reason is an `Assume`. -/
def isAssumeOpt : Option SetReason → Bool
  | some (.assume _) => true
  | _ => false

/-- Built worlds fill every neighbor slot (spec §3: missing slots map to
a synthetic background cell), so every `nbhd` entry of every cell is
present. -/
def NbhdFull (w : World) : Prop :=
  ∀ cd ∈ w.cells, ∀ o ∈ cd.nbhd, o.isSome

/-- The claim-side reading of `consistify10`: consistify the cell, its
predecessor when present, and each of its eight neighbors, substituting
the background-cell sentinel when a neighbor slot is absent — the
sentinel is all-background and always consistent, so the substitution is
a no-op. -/
def World.consistify10Spec (w : World) (ci : Nat) : World × Option ConflReason :=
  match w.cells[ci]? with
  | none => (w, none)
  | some cd =>
    let p1 := w.consistify ci
    match p1.2 with
    | some r => (p1.1, some r)
    | none =>
      let p2 :=
        match cd.pred with
        | some pr => p1.1.consistify pr
        | none => (p1.1, none)
      match p2.2 with
      | some r => (p2.1, some r)
      | none =>
        cd.nbhd.foldl
          (fun (acc : World × Option ConflReason) slot =>
            match acc.2 with
            | some _ => acc
            | none =>
              match slot with
              | none => acc
              | some n => acc.1.consistify n)
          (p2.1, none)

/-- The claim-side reading of `proceed`: process the cells of
`set_stack` from `check_index` upward; for each cell the symmetry pass,
then the ten consistifications with sentinel substitution; `Ok` when
the cursor reaches the stack length, otherwise the first conflict. -/
def World.proceedSpec : Nat → World → Option (World × Option ConflReason)
  | 0, _ => none
  | fuel + 1, w =>
    match w.setStack[w.checkIndex]? with
    | none => some (w, none)
    | some ci =>
      match stateOf w ci with
      | none => none
      | some st =>
        let symRes :=
          match w.cells[ci]? with
          | some cd => w.symPass ci st cd.sym
          | none => (w, none)
        match symRes.2 with
        | some r => some (symRes.1, some r)
        | none =>
          let p := symRes.1.consistify10Spec ci
          match p.2 with
          | some r => some (p.1, some r)
          | none =>
            World.proceedSpec fuel { p.1 with checkIndex := p.1.checkIndex + 1 }

/-- A rule whose descriptors carry no information and whose consistify
never deduces anything; used for the concrete worlds below. -/
def trivRule : EmbRule :=
  { newDesc := fun _ _ => 0
    descSelf := fun d _ _ => d
    descPred := fun d _ _ => d
    descNbhd := fun _ d _ _ => d
    plan := fun _ _ => some [] }

/-- A cell assumed alive at decision level 1 (search-list position 0),
with every neighbor slot wired to cell 1. -/
def cellAssumed : LifeCell :=
  { background := .dead, state := some .alive,
    reason := some (.assume 0), level := some 1,
    nbhd := List.replicate 8 (some 1) }

/-- A cell fixed dead during initialization, with every neighbor slot
wired to cell 0. -/
def cellInitDead : LifeCell :=
  { background := .dead, state := some .dead,
    reason := some .init, level := some 0,
    nbhd := List.replicate 8 (some 0) }

/-- A two-cell world at decision level 1 whose stack holds the single
assumed cell 0; cell 1 is known dead from initialization. -/
def wAssumed : World :=
  { rule := trivRule, cells := [cellAssumed, cellInitDead],
    setStack := [0], checkIndex := 1, searchIndex := 1,
    searchList := [0, 1], level := 1, cellCount := [1],
    frontCellCount := 0, maxCellCount := none, nonEmptyFront := false,
    newState := .choose .alive, width := 2, height := 1, period := 1 }

/-- A one-cell world whose cell is its own eight neighbors (a fully
wired toroidal 1×1 world), with the cell alive on the stack and not yet
propagated. -/
def wLoop : World :=
  { rule := trivRule,
    cells := [{ background := .dead, state := some .alive,
                reason := some .init, level := some 0,
                nbhd := List.replicate 8 (some 0) }],
    setStack := [0], checkIndex := 0, searchIndex := 0,
    searchList := [0], level := 0, cellCount := [1],
    frontCellCount := 0, maxCellCount := none, nonEmptyFront := false,
    newState := .choose .dead, width := 1, height := 1, period := 1 }

/-- The always-failing stand-in for the missing non-totalistic parser. -/
def ntParseNone : String → Except String Unit :=
  fun _ => Except.error "not a rule string"

/-- A configuration whose transform requires a square world although the
world is 3 × 4, with a valid `Life` rule string. -/
def cfgBadSquare : Config :=
  { width := 3, height := 4, transform := .rotate90, ruleString := "B3/S23" }

/-- A configuration with non-positive width, height and period, with a
valid `Life` rule string. -/
def cfgBadSize : Config :=
  { width := -3, height := 0, period := 0, ruleString := "B3/S23" }

/-- The cell record of `w.updCell i f` at `i` is `f` of the old record. -/
theorem getElem?_updCell_self {w : World} {i : Nat} {cd : LifeCell}
    (f : LifeCell → LifeCell) (h : w.cells[i]? = some cd) :
    (w.updCell i f).cells[i]? = some (f cd) := by
  have hlen : i < w.cells.length := by
    rcases List.getElem?_eq_some.1 h with ⟨hl, _⟩
    exact hl
  simp [World.updCell, h, List.getElem?_set, hlen]

/-- `updCell` leaves every other cell record unchanged. -/
theorem getElem?_updCell_ne {w : World} {i : Nat} (f : LifeCell → LifeCell)
    {j : Nat} (h : j ≠ i) :
    (w.updCell i f).cells[j]? = w.cells[j]? := by
  unfold World.updCell
  cases hc : w.cells[i]? with
  | none => rfl
  | some cd => simp [List.getElem?_set_ne (Ne.symm h)]

/-- `setDescOf` changes no state. -/
theorem stateOf_setDescOf (w : World) (i : Nat) (f : Nat → Nat) (j : Nat) :
    stateOf (w.setDescOf i f) j = stateOf w j := by
  unfold stateOf World.setDescOf
  rcases eq_or_ne j i with rfl | hne
  · cases hc : w.cells[j]? with
    | none => simp [World.updCell, hc]
    | some cd => simp [getElem?_updCell_self _ hc, hc]
  · rw [getElem?_updCell_ne _ hne]

/-- `setDescOf` changes no reason. -/
theorem reasonOf_setDescOf (w : World) (i : Nat) (f : Nat → Nat) (j : Nat) :
    reasonOf (w.setDescOf i f) j = reasonOf w j := by
  unfold reasonOf World.setDescOf
  rcases eq_or_ne j i with rfl | hne
  · cases hc : w.cells[j]? with
    | none => simp [World.updCell, hc]
    | some cd => simp [getElem?_updCell_self _ hc, hc]
  · rw [getElem?_updCell_ne _ hne]

/-- `setDescOf` changes no level. -/
theorem levelOf_setDescOf (w : World) (i : Nat) (f : Nat → Nat) (j : Nat) :
    levelOf (w.setDescOf i f) j = levelOf w j := by
  unfold levelOf World.setDescOf
  rcases eq_or_ne j i with rfl | hne
  · cases hc : w.cells[j]? with
    | none => simp [World.updCell, hc]
    | some cd => simp [getElem?_updCell_self _ hc, hc]
  · rw [getElem?_updCell_ne _ hne]

/-- The neighbor lists of all cells, as seen through indices. -/
def nbhdOf (w : World) (i : Nat) : Option (List (Option Nat)) :=
  (w.cells[i]?).map fun cd => cd.nbhd

/-- `setDescOf` changes no neighbor list. -/
theorem nbhdOf_setDescOf (w : World) (i : Nat) (f : Nat → Nat) (j : Nat) :
    nbhdOf (w.setDescOf i f) j = nbhdOf w j := by
  unfold nbhdOf World.setDescOf
  rcases eq_or_ne j i with rfl | hne
  · cases hc : w.cells[j]? with
    | none => simp [World.updCell, hc]
    | some cd => simp [getElem?_updCell_self _ hc, hc]
  · rw [getElem?_updCell_ne _ hne]

/-- `updCell` only rewrites the cell array. -/
theorem updCell_shape (w : World) (i : Nat) (f : LifeCell → LifeCell) :
    ∃ cs, w.updCell i f = { w with cells := cs } := by
  unfold World.updCell
  exact ⟨_, rfl⟩

/-- `updateDescAll` only rewrites the cell array. -/
theorem updateDescAll_shape (w : World) (ci : Nat) (cd : LifeCell)
    (old new : Option State) :
    ∃ cs, w.updateDescAll ci cd old new = { w with cells := cs } := by
  have base :
      ∀ (l : List (Nat × Option Nat)) (g : Nat → Nat → Nat)
        (cs0 : List LifeCell),
        ∃ cs, List.foldl
          (fun wa (pr : Nat × Option Nat) =>
            match pr.2 with
            | some n => wa.setDescOf n (fun d => g pr.1 d)
            | none => wa) { w with cells := cs0 } l = { w with cells := cs } := by
    intro l
    induction l with
    | nil => intro g cs0; exact ⟨cs0, rfl⟩
    | cons hd tl ih =>
      intro g cs0
      cases hsnd : hd.2 with
      | none =>
        simp only [List.foldl_cons, hsnd]
        exact ih g cs0
      | some n =>
        simp only [List.foldl_cons, hsnd]
        obtain ⟨cs1, h1⟩ := updCell_shape ({ w with cells := cs0 } : World) n
          (fun c => { c with desc := g hd.1 c.desc })
        have h1' : (({ w with cells := cs0 } : World).setDescOf n
            fun d => g hd.1 d) = { w with cells := cs1 } := by
          simpa [World.setDescOf] using h1
        rw [h1']
        exact ih g cs1
  obtain ⟨csA, hA⟩ := updCell_shape w ci
    (fun c => { c with desc := w.rule.descSelf c.desc old new })
  have hA' : (w.setDescOf ci fun d => w.rule.descSelf d old new) =
      { w with cells := csA } := by
    simpa [World.setDescOf] using hA
  cases hp : cd.pred with
  | none =>
    simp only [World.updateDescAll, hp, hA']
    exact base cd.nbhd.enum (fun a d => w.rule.descNbhd a d old new) csA
  | some p =>
    obtain ⟨csB, hB⟩ := updCell_shape ({ w with cells := csA } : World) p
      (fun c => { c with desc := w.rule.descPred c.desc old new })
    have hB' : (({ w with cells := csA } : World).setDescOf p
        fun d => w.rule.descPred d old new) = { w with cells := csB } := by
      simpa [World.setDescOf] using hB
    simp only [World.updateDescAll, hp, hA', hB']
    exact base cd.nbhd.enum (fun a d => w.rule.descNbhd a d old new) csB

/-- Two worlds agree on every cell's state, reason, level and neighbor
list. -/
def ProjEq (w w' : World) : Prop :=
  ∀ j, stateOf w' j = stateOf w j ∧ reasonOf w' j = reasonOf w j ∧
    levelOf w' j = levelOf w j ∧ nbhdOf w' j = nbhdOf w j

theorem projEq_refl (w : World) : ProjEq w w := fun _ => ⟨rfl, rfl, rfl, rfl⟩

theorem projEq_trans {w1 w2 w3 : World} (h1 : ProjEq w1 w2)
    (h2 : ProjEq w2 w3) : ProjEq w1 w3 := by
  intro j
  obtain ⟨a1, b1, c1, d1⟩ := h1 j
  obtain ⟨a2, b2, c2, d2⟩ := h2 j
  exact ⟨a2.trans a1, b2.trans b1, c2.trans c1, d2.trans d1⟩

theorem projEq_setDescOf (w : World) (i : Nat) (f : Nat → Nat) :
    ProjEq w (w.setDescOf i f) := by
  intro j
  exact ⟨stateOf_setDescOf w i f j, reasonOf_setDescOf w i f j,
    levelOf_setDescOf w i f j, nbhdOf_setDescOf w i f j⟩

theorem projEq_updateDescAll (w : World) (ci : Nat) (cd : LifeCell)
    (old new : Option State) : ProjEq w (w.updateDescAll ci cd old new) := by
  have base :
      ∀ (l : List (Nat × Option Nat)) (g : Nat → Nat → Nat) (w0 : World),
        ProjEq w0 (List.foldl
          (fun wa (pr : Nat × Option Nat) =>
            match pr.2 with
            | some n => wa.setDescOf n (fun d => g pr.1 d)
            | none => wa) w0 l) := by
    intro l
    induction l with
    | nil => intro g w0; exact projEq_refl w0
    | cons hd tl ih =>
      intro g w0
      cases hsnd : hd.2 with
      | none =>
        simp only [List.foldl_cons, hsnd]
        exact ih g w0
      | some n =>
        simp only [List.foldl_cons, hsnd]
        exact projEq_trans (projEq_setDescOf w0 n (fun d => g hd.1 d))
          (ih g _)
  cases hp : cd.pred with
  | none =>
    simp only [World.updateDescAll, hp]
    exact projEq_trans (projEq_setDescOf w ci _)
      (base cd.nbhd.enum (fun a d => w.rule.descNbhd a d old new) _)
  | some p =>
    simp only [World.updateDescAll, hp]
    exact projEq_trans
      (projEq_trans (projEq_setDescOf w ci _) (projEq_setDescOf _ p _))
      (base cd.nbhd.enum (fun a d => w.rule.descNbhd a d old new) _)



/-- Per-field frame facts for `updCell`: only `cells` changes. -/
theorem updCell_frame (w : World) (i : Nat) (f : LifeCell → LifeCell) :
    (w.updCell i f).setStack = w.setStack ∧
    (w.updCell i f).checkIndex = w.checkIndex ∧
    (w.updCell i f).searchIndex = w.searchIndex ∧
    (w.updCell i f).level = w.level ∧
    (w.updCell i f).conflicts = w.conflicts ∧
    (w.updCell i f).cellCount = w.cellCount ∧
    (w.updCell i f).frontCellCount = w.frontCellCount ∧
    (w.updCell i f).maxCellCount = w.maxCellCount ∧
    (w.updCell i f).nonEmptyFront = w.nonEmptyFront ∧
    (w.updCell i f).newState = w.newState ∧
    (w.updCell i f).reduceMax = w.reduceMax ∧
    (w.updCell i f).rule = w.rule ∧
    (w.updCell i f).searchList = w.searchList ∧
    (w.updCell i f).width = w.width ∧
    (w.updCell i f).height = w.height ∧
    (w.updCell i f).period = w.period := by
  unfold World.updCell
  cases w.cells[i]? <;> exact ⟨rfl, rfl, rfl, rfl, rfl, rfl, rfl, rfl, rfl, rfl, rfl, rfl, rfl, rfl, rfl, rfl⟩

/-- Per-field frame facts for `updateDescAll`: only `cells` changes. -/
theorem updateDescAll_frame (w : World) (ci : Nat) (cd : LifeCell)
    (old new : Option State) :
    (w.updateDescAll ci cd old new).setStack = w.setStack ∧
    (w.updateDescAll ci cd old new).checkIndex = w.checkIndex ∧
    (w.updateDescAll ci cd old new).searchIndex = w.searchIndex ∧
    (w.updateDescAll ci cd old new).level = w.level ∧
    (w.updateDescAll ci cd old new).conflicts = w.conflicts ∧
    (w.updateDescAll ci cd old new).cellCount = w.cellCount ∧
    (w.updateDescAll ci cd old new).frontCellCount = w.frontCellCount ∧
    (w.updateDescAll ci cd old new).maxCellCount = w.maxCellCount ∧
    (w.updateDescAll ci cd old new).nonEmptyFront = w.nonEmptyFront ∧
    (w.updateDescAll ci cd old new).newState = w.newState ∧
    (w.updateDescAll ci cd old new).reduceMax = w.reduceMax ∧
    (w.updateDescAll ci cd old new).rule = w.rule ∧
    (w.updateDescAll ci cd old new).searchList = w.searchList ∧
    (w.updateDescAll ci cd old new).width = w.width ∧
    (w.updateDescAll ci cd old new).height = w.height ∧
    (w.updateDescAll ci cd old new).period = w.period := by
  obtain ⟨cs, h⟩ := updateDescAll_shape w ci cd old new
  rw [h]
  exact ⟨rfl, rfl, rfl, rfl, rfl, rfl, rfl, rfl, rfl, rfl, rfl, rfl, rfl, rfl, rfl, rfl⟩

/-- `updCell` leaves `setStack` unchanged. -/
theorem updCell_setStack (w : World) (i : Nat) (f : LifeCell → LifeCell) :
    (w.updCell i f).setStack = w.setStack :=
  (updCell_frame w i f).1

/-- `updateDescAll` leaves `setStack` unchanged. -/
theorem updateDescAll_setStack (w : World) (ci : Nat) (cd : LifeCell)
    (old new : Option State) :
    (w.updateDescAll ci cd old new).setStack = w.setStack :=
  (updateDescAll_frame w ci cd old new).1

/-- `updCell` leaves `checkIndex` unchanged. -/
theorem updCell_checkIndex (w : World) (i : Nat) (f : LifeCell → LifeCell) :
    (w.updCell i f).checkIndex = w.checkIndex :=
  (updCell_frame w i f).2.1

/-- `updateDescAll` leaves `checkIndex` unchanged. -/
theorem updateDescAll_checkIndex (w : World) (ci : Nat) (cd : LifeCell)
    (old new : Option State) :
    (w.updateDescAll ci cd old new).checkIndex = w.checkIndex :=
  (updateDescAll_frame w ci cd old new).2.1

/-- `updCell` leaves `searchIndex` unchanged. -/
theorem updCell_searchIndex (w : World) (i : Nat) (f : LifeCell → LifeCell) :
    (w.updCell i f).searchIndex = w.searchIndex :=
  (updCell_frame w i f).2.2.1

/-- `updateDescAll` leaves `searchIndex` unchanged. -/
theorem updateDescAll_searchIndex (w : World) (ci : Nat) (cd : LifeCell)
    (old new : Option State) :
    (w.updateDescAll ci cd old new).searchIndex = w.searchIndex :=
  (updateDescAll_frame w ci cd old new).2.2.1

/-- `updCell` leaves `level` unchanged. -/
theorem updCell_level (w : World) (i : Nat) (f : LifeCell → LifeCell) :
    (w.updCell i f).level = w.level :=
  (updCell_frame w i f).2.2.2.1

/-- `updateDescAll` leaves `level` unchanged. -/
theorem updateDescAll_level (w : World) (ci : Nat) (cd : LifeCell)
    (old new : Option State) :
    (w.updateDescAll ci cd old new).level = w.level :=
  (updateDescAll_frame w ci cd old new).2.2.2.1

/-- `updCell` leaves `conflicts` unchanged. -/
theorem updCell_conflicts (w : World) (i : Nat) (f : LifeCell → LifeCell) :
    (w.updCell i f).conflicts = w.conflicts :=
  (updCell_frame w i f).2.2.2.2.1

/-- `updateDescAll` leaves `conflicts` unchanged. -/
theorem updateDescAll_conflicts (w : World) (ci : Nat) (cd : LifeCell)
    (old new : Option State) :
    (w.updateDescAll ci cd old new).conflicts = w.conflicts :=
  (updateDescAll_frame w ci cd old new).2.2.2.2.1

/-- `updCell` leaves `cellCount` unchanged. -/
theorem updCell_cellCount (w : World) (i : Nat) (f : LifeCell → LifeCell) :
    (w.updCell i f).cellCount = w.cellCount :=
  (updCell_frame w i f).2.2.2.2.2.1

/-- `updateDescAll` leaves `cellCount` unchanged. -/
theorem updateDescAll_cellCount (w : World) (ci : Nat) (cd : LifeCell)
    (old new : Option State) :
    (w.updateDescAll ci cd old new).cellCount = w.cellCount :=
  (updateDescAll_frame w ci cd old new).2.2.2.2.2.1

/-- `updCell` leaves `frontCellCount` unchanged. -/
theorem updCell_frontCellCount (w : World) (i : Nat) (f : LifeCell → LifeCell) :
    (w.updCell i f).frontCellCount = w.frontCellCount :=
  (updCell_frame w i f).2.2.2.2.2.2.1

/-- `updateDescAll` leaves `frontCellCount` unchanged. -/
theorem updateDescAll_frontCellCount (w : World) (ci : Nat) (cd : LifeCell)
    (old new : Option State) :
    (w.updateDescAll ci cd old new).frontCellCount = w.frontCellCount :=
  (updateDescAll_frame w ci cd old new).2.2.2.2.2.2.1

/-- `updCell` leaves `maxCellCount` unchanged. -/
theorem updCell_maxCellCount (w : World) (i : Nat) (f : LifeCell → LifeCell) :
    (w.updCell i f).maxCellCount = w.maxCellCount :=
  (updCell_frame w i f).2.2.2.2.2.2.2.1

/-- `updateDescAll` leaves `maxCellCount` unchanged. -/
theorem updateDescAll_maxCellCount (w : World) (ci : Nat) (cd : LifeCell)
    (old new : Option State) :
    (w.updateDescAll ci cd old new).maxCellCount = w.maxCellCount :=
  (updateDescAll_frame w ci cd old new).2.2.2.2.2.2.2.1

/-- `updCell` leaves `nonEmptyFront` unchanged. -/
theorem updCell_nonEmptyFront (w : World) (i : Nat) (f : LifeCell → LifeCell) :
    (w.updCell i f).nonEmptyFront = w.nonEmptyFront :=
  (updCell_frame w i f).2.2.2.2.2.2.2.2.1

/-- `updateDescAll` leaves `nonEmptyFront` unchanged. -/
theorem updateDescAll_nonEmptyFront (w : World) (ci : Nat) (cd : LifeCell)
    (old new : Option State) :
    (w.updateDescAll ci cd old new).nonEmptyFront = w.nonEmptyFront :=
  (updateDescAll_frame w ci cd old new).2.2.2.2.2.2.2.2.1

/-- `updCell` leaves `newState` unchanged. -/
theorem updCell_newState (w : World) (i : Nat) (f : LifeCell → LifeCell) :
    (w.updCell i f).newState = w.newState :=
  (updCell_frame w i f).2.2.2.2.2.2.2.2.2.1

/-- `updateDescAll` leaves `newState` unchanged. -/
theorem updateDescAll_newState (w : World) (ci : Nat) (cd : LifeCell)
    (old new : Option State) :
    (w.updateDescAll ci cd old new).newState = w.newState :=
  (updateDescAll_frame w ci cd old new).2.2.2.2.2.2.2.2.2.1

/-- `updCell` leaves `reduceMax` unchanged. -/
theorem updCell_reduceMax (w : World) (i : Nat) (f : LifeCell → LifeCell) :
    (w.updCell i f).reduceMax = w.reduceMax :=
  (updCell_frame w i f).2.2.2.2.2.2.2.2.2.2.1

/-- `updateDescAll` leaves `reduceMax` unchanged. -/
theorem updateDescAll_reduceMax (w : World) (ci : Nat) (cd : LifeCell)
    (old new : Option State) :
    (w.updateDescAll ci cd old new).reduceMax = w.reduceMax :=
  (updateDescAll_frame w ci cd old new).2.2.2.2.2.2.2.2.2.2.1

/-- `updCell` leaves `rule` unchanged. -/
theorem updCell_rule (w : World) (i : Nat) (f : LifeCell → LifeCell) :
    (w.updCell i f).rule = w.rule :=
  (updCell_frame w i f).2.2.2.2.2.2.2.2.2.2.2.1

/-- `updateDescAll` leaves `rule` unchanged. -/
theorem updateDescAll_rule (w : World) (ci : Nat) (cd : LifeCell)
    (old new : Option State) :
    (w.updateDescAll ci cd old new).rule = w.rule :=
  (updateDescAll_frame w ci cd old new).2.2.2.2.2.2.2.2.2.2.2.1

/-- `updCell` leaves `searchList` unchanged. -/
theorem updCell_searchList (w : World) (i : Nat) (f : LifeCell → LifeCell) :
    (w.updCell i f).searchList = w.searchList :=
  (updCell_frame w i f).2.2.2.2.2.2.2.2.2.2.2.2.1

/-- `updateDescAll` leaves `searchList` unchanged. -/
theorem updateDescAll_searchList (w : World) (ci : Nat) (cd : LifeCell)
    (old new : Option State) :
    (w.updateDescAll ci cd old new).searchList = w.searchList :=
  (updateDescAll_frame w ci cd old new).2.2.2.2.2.2.2.2.2.2.2.2.1

/-- `updCell` leaves `width` unchanged. -/
theorem updCell_width (w : World) (i : Nat) (f : LifeCell → LifeCell) :
    (w.updCell i f).width = w.width :=
  (updCell_frame w i f).2.2.2.2.2.2.2.2.2.2.2.2.2.1

/-- `updateDescAll` leaves `width` unchanged. -/
theorem updateDescAll_width (w : World) (ci : Nat) (cd : LifeCell)
    (old new : Option State) :
    (w.updateDescAll ci cd old new).width = w.width :=
  (updateDescAll_frame w ci cd old new).2.2.2.2.2.2.2.2.2.2.2.2.2.1

/-- `updCell` leaves `height` unchanged. -/
theorem updCell_height (w : World) (i : Nat) (f : LifeCell → LifeCell) :
    (w.updCell i f).height = w.height :=
  (updCell_frame w i f).2.2.2.2.2.2.2.2.2.2.2.2.2.2.1

/-- `updateDescAll` leaves `height` unchanged. -/
theorem updateDescAll_height (w : World) (ci : Nat) (cd : LifeCell)
    (old new : Option State) :
    (w.updateDescAll ci cd old new).height = w.height :=
  (updateDescAll_frame w ci cd old new).2.2.2.2.2.2.2.2.2.2.2.2.2.2.1

/-- `updCell` leaves `period` unchanged. -/
theorem updCell_period (w : World) (i : Nat) (f : LifeCell → LifeCell) :
    (w.updCell i f).period = w.period :=
  (updCell_frame w i f).2.2.2.2.2.2.2.2.2.2.2.2.2.2.2

/-- `updateDescAll` leaves `period` unchanged. -/
theorem updateDescAll_period (w : World) (ci : Nat) (cd : LifeCell)
    (old new : Option State) :
    (w.updateDescAll ci cd old new).period = w.period :=
  (updateDescAll_frame w ci cd old new).2.2.2.2.2.2.2.2.2.2.2.2.2.2.2

/-- `stateOf` through `updateDescAll`. -/
theorem stateOf_updateDescAll (w : World) (ci : Nat) (cd : LifeCell)
    (old new : Option State) (j : Nat) :
    stateOf (w.updateDescAll ci cd old new) j = stateOf w j :=
  (projEq_updateDescAll w ci cd old new j).1

/-- `reasonOf` through `updateDescAll`. -/
theorem reasonOf_updateDescAll (w : World) (ci : Nat) (cd : LifeCell)
    (old new : Option State) (j : Nat) :
    reasonOf (w.updateDescAll ci cd old new) j = reasonOf w j :=
  (projEq_updateDescAll w ci cd old new j).2.1

/-- `levelOf` through `updateDescAll`. -/
theorem levelOf_updateDescAll (w : World) (ci : Nat) (cd : LifeCell)
    (old new : Option State) (j : Nat) :
    levelOf (w.updateDescAll ci cd old new) j = levelOf w j :=
  (projEq_updateDescAll w ci cd old new j).2.2.1

/-- `nbhdOf` through `updateDescAll`. -/
theorem nbhdOf_updateDescAll (w : World) (ci : Nat) (cd : LifeCell)
    (old new : Option State) (j : Nat) :
    nbhdOf (w.updateDescAll ci cd old new) j = nbhdOf w j :=
  (projEq_updateDescAll w ci cd old new j).2.2.2

/-- The fields of the world after a push. -/
theorem setCellPush_fields (w : World) (ci : Nat) (cd : LifeCell)
    (s : State) (r : SetReason) :
    (w.setCellPush ci cd s r).setStack = w.setStack ++ [ci] ∧
    (w.setCellPush ci cd s r).checkIndex = w.checkIndex ∧
    (w.setCellPush ci cd s r).searchIndex = w.searchIndex ∧
    (w.setCellPush ci cd s r).level = levelFor w.level r ∧
    (w.setCellPush ci cd s r).conflicts = w.conflicts ∧
    (w.setCellPush ci cd s r).newState = w.newState ∧
    (w.setCellPush ci cd s r).maxCellCount = w.maxCellCount ∧
    (w.setCellPush ci cd s r).nonEmptyFront = w.nonEmptyFront ∧
    (w.setCellPush ci cd s r).reduceMax = w.reduceMax ∧
    (w.setCellPush ci cd s r).rule = w.rule ∧
    (w.setCellPush ci cd s r).searchList = w.searchList ∧
    (w.setCellPush ci cd s r).cellCount =
      (if s = State.alive then incNth w.cellCount cd.gen else w.cellCount) ∧
    (w.setCellPush ci cd s r).frontCellCount =
      (if cd.isFront && s = State.alive then w.frontCellCount + 1
       else w.frontCellCount) := by
  simp only [World.setCellPush]
  refine ⟨?_, ?_, ?_, ?_, ?_, ?_, ?_, ?_, ?_, ?_, ?_, ?_, ?_⟩ <;>
    simp [updateDescAll_setStack, updCell_setStack,
      updateDescAll_checkIndex, updCell_checkIndex,
      updateDescAll_searchIndex, updCell_searchIndex,
      updateDescAll_level, updCell_level,
      updateDescAll_conflicts, updCell_conflicts,
      updateDescAll_newState, updCell_newState,
      updateDescAll_maxCellCount, updCell_maxCellCount,
      updateDescAll_nonEmptyFront, updCell_nonEmptyFront,
      updateDescAll_reduceMax, updCell_reduceMax,
      updateDescAll_rule, updCell_rule,
      updateDescAll_searchList, updCell_searchList,
      updateDescAll_cellCount, updCell_cellCount,
      updateDescAll_frontCellCount, updCell_frontCellCount]

/-- The cell projections after a push, at the pushed cell. -/
theorem setCellPush_self (w : World) (ci : Nat) (cd : LifeCell)
    (s : State) (r : SetReason) (h : w.cells[ci]? = some cd) :
    stateOf (w.setCellPush ci cd s r) ci = some s ∧
    reasonOf (w.setCellPush ci cd s r) ci = some r ∧
    levelOf (w.setCellPush ci cd s r) ci = some (levelFor w.level r) ∧
    nbhdOf (w.setCellPush ci cd s r) ci = nbhdOf w ci := by
  simp only [World.setCellPush]
  rw [stateOf_updateDescAll, reasonOf_updateDescAll, levelOf_updateDescAll,
    nbhdOf_updateDescAll]
  have h' : (({ w with
      level := levelFor w.level r,
      setStack := w.setStack ++ [ci],
      cellCount :=
        if s = State.alive then incNth w.cellCount cd.gen
        else w.cellCount,
      frontCellCount :=
        if cd.isFront && s = State.alive then w.frontCellCount + 1
        else w.frontCellCount } : World)).cells[ci]? = some cd := h
  rw [stateOf, reasonOf, levelOf, nbhdOf, getElem?_updCell_self _ h']
  simp [nbhdOf, h]

/-- The cell projections after a push, away from the pushed cell. -/
theorem setCellPush_ne (w : World) (ci : Nat) (cd : LifeCell)
    (s : State) (r : SetReason) (j : Nat) (hj : j ≠ ci) :
    stateOf (w.setCellPush ci cd s r) j = stateOf w j ∧
    reasonOf (w.setCellPush ci cd s r) j = reasonOf w j ∧
    levelOf (w.setCellPush ci cd s r) j = levelOf w j ∧
    nbhdOf (w.setCellPush ci cd s r) j = nbhdOf w j := by
  simp only [World.setCellPush]
  rw [stateOf_updateDescAll, reasonOf_updateDescAll, levelOf_updateDescAll,
    nbhdOf_updateDescAll]
  rw [stateOf, reasonOf, levelOf, nbhdOf, getElem?_updCell_ne _ hj]
  exact ⟨rfl, rfl, rfl, rfl⟩

/-- A cell with a neighbor list exists as a record. -/
theorem cells_exists_of_nbhdOf {w : World} {i : Nat} {nb : List (Option Nat)}
    (h : nbhdOf w i = some nb) : ∃ cd, w.cells[i]? = some cd ∧ cd.nbhd = nb := by
  unfold nbhdOf at h
  cases hc : w.cells[i]? with
  | none => rw [hc] at h; cases h
  | some cd => rw [hc] at h; exact ⟨cd, rfl, by simpa using h⟩

/-- The fields of the world after `clearCellGo`. -/
theorem clearCellGo_fields (w : World) (ci : Nat) (cd : LifeCell) (s : State) :
    (w.clearCellGo ci cd s).setStack = w.setStack ∧
    (w.clearCellGo ci cd s).checkIndex = w.checkIndex ∧
    (w.clearCellGo ci cd s).searchIndex = w.searchIndex ∧
    (w.clearCellGo ci cd s).level = unbumpLevel w.level cd.reason ∧
    (w.clearCellGo ci cd s).conflicts = w.conflicts ∧
    (w.clearCellGo ci cd s).newState = w.newState ∧
    (w.clearCellGo ci cd s).maxCellCount = w.maxCellCount ∧
    (w.clearCellGo ci cd s).nonEmptyFront = w.nonEmptyFront ∧
    (w.clearCellGo ci cd s).reduceMax = w.reduceMax ∧
    (w.clearCellGo ci cd s).rule = w.rule ∧
    (w.clearCellGo ci cd s).searchList = w.searchList ∧
    (w.clearCellGo ci cd s).cellCount =
      (if s = State.alive then decNth w.cellCount cd.gen else w.cellCount) ∧
    (w.clearCellGo ci cd s).frontCellCount =
      (if cd.isFront && s = State.alive then w.frontCellCount - 1
       else w.frontCellCount) := by
  simp only [World.clearCellGo]
  refine ⟨?_, ?_, ?_, ?_, ?_, ?_, ?_, ?_, ?_, ?_, ?_, ?_, ?_⟩ <;>
    simp [updateDescAll_setStack, updCell_setStack,
      updateDescAll_checkIndex, updCell_checkIndex,
      updateDescAll_searchIndex, updCell_searchIndex,
      updateDescAll_level, updCell_level,
      updateDescAll_conflicts, updCell_conflicts,
      updateDescAll_newState, updCell_newState,
      updateDescAll_maxCellCount, updCell_maxCellCount,
      updateDescAll_nonEmptyFront, updCell_nonEmptyFront,
      updateDescAll_reduceMax, updCell_reduceMax,
      updateDescAll_rule, updCell_rule,
      updateDescAll_searchList, updCell_searchList,
      updateDescAll_cellCount, updCell_cellCount,
      updateDescAll_frontCellCount, updCell_frontCellCount]

/-- The cell projections after `clearCellGo`, at the cleared cell. -/
theorem clearCellGo_self (w : World) (ci : Nat) (cd : LifeCell) (s : State)
    (h : w.cells[ci]? = some cd) :
    stateOf (w.clearCellGo ci cd s) ci = none ∧
    reasonOf (w.clearCellGo ci cd s) ci = none ∧
    levelOf (w.clearCellGo ci cd s) ci = none ∧
    nbhdOf (w.clearCellGo ci cd s) ci = nbhdOf w ci := by
  have hbase : nbhdOf ({ w with
      level := unbumpLevel w.level cd.reason,
      cellCount :=
        if s = State.alive then decNth w.cellCount cd.gen
        else w.cellCount,
      frontCellCount :=
        if cd.isFront && s = State.alive then w.frontCellCount - 1
        else w.frontCellCount } : World) ci = some cd.nbhd := by
    unfold nbhdOf
    have h' : (({ w with
      level := unbumpLevel w.level cd.reason,
      cellCount :=
        if s = State.alive then decNth w.cellCount cd.gen
        else w.cellCount,
      frontCellCount :=
        if cd.isFront && s = State.alive then w.frontCellCount - 1
        else w.frontCellCount } : World)).cells[ci]? = some cd := h
    rw [h']
    rfl
  have hmid : nbhdOf (({ w with
      level := unbumpLevel w.level cd.reason,
      cellCount :=
        if s = State.alive then decNth w.cellCount cd.gen
        else w.cellCount,
      frontCellCount :=
        if cd.isFront && s = State.alive then w.frontCellCount - 1
        else w.frontCellCount } : World).updateDescAll ci cd (some s) none)
      ci = some cd.nbhd :=
    (nbhdOf_updateDescAll _ ci cd (some s) none ci).trans hbase
  obtain ⟨cd', hcd', hnb'⟩ := cells_exists_of_nbhdOf hmid
  simp only [World.clearCellGo]
  rw [stateOf, reasonOf, levelOf, nbhdOf, getElem?_updCell_self _ hcd']
  refine ⟨rfl, rfl, rfl, ?_⟩
  show some cd'.nbhd = nbhdOf w ci
  rw [hnb']
  unfold nbhdOf
  rw [h]
  rfl

/-- The cell projections after `clearCellGo`, away from the cleared
cell. -/
theorem clearCellGo_ne (w : World) (ci : Nat) (cd : LifeCell) (s : State)
    (j : Nat) (hj : j ≠ ci) :
    stateOf (w.clearCellGo ci cd s) j = stateOf w j ∧
    reasonOf (w.clearCellGo ci cd s) j = reasonOf w j ∧
    levelOf (w.clearCellGo ci cd s) j = levelOf w j ∧
    nbhdOf (w.clearCellGo ci cd s) j = nbhdOf w j := by
  simp only [World.clearCellGo]
  rw [stateOf, reasonOf, levelOf, nbhdOf, getElem?_updCell_ne _ hj]
  have h1 := projEq_updateDescAll ({ w with
      level := unbumpLevel w.level cd.reason,
      cellCount :=
        if s = State.alive then decNth w.cellCount cd.gen
        else w.cellCount,
      frontCellCount :=
        if cd.isFront && s = State.alive then w.frontCellCount - 1
        else w.frontCellCount } : World) ci cd (some s) none j
  obtain ⟨ha, hb, hc, hd⟩ := h1
  unfold stateOf at ha
  unfold reasonOf at hb
  unfold levelOf at hc
  unfold nbhdOf at hd
  exact ⟨ha.trans rfl, hb.trans rfl, hc.trans rfl, hd.trans rfl⟩

/-- `clearCell` is a no-op or a `clearCellGo`. -/
theorem clearCell_cases (w : World) (ci : Nat) :
    (w.clearCell ci = w ∧ stateOf w ci = none) ∨
    ∃ cd s, w.cells[ci]? = some cd ∧ cd.state = some s ∧
      w.clearCell ci = w.clearCellGo ci cd s := by
  unfold World.clearCell
  cases hc : w.cells[ci]? with
  | none => exact Or.inl ⟨rfl, by simp [stateOf, hc]⟩
  | some cd =>
    cases hs : cd.state with
    | none =>
      refine Or.inl ⟨?_, by simp [stateOf, hc, hs]⟩
      simp [hs]
    | some s =>
      refine Or.inr ⟨cd, s, rfl, hs, ?_⟩
      simp [hs]

/-- `clearCell` leaves stack, cursors and configuration unchanged. -/
theorem clearCell_frame (w : World) (ci : Nat) :
    (w.clearCell ci).setStack = w.setStack ∧
    (w.clearCell ci).checkIndex = w.checkIndex ∧
    (w.clearCell ci).searchIndex = w.searchIndex ∧
    (w.clearCell ci).newState = w.newState ∧
    (w.clearCell ci).conflicts = w.conflicts ∧
    (w.clearCell ci).maxCellCount = w.maxCellCount ∧
    (w.clearCell ci).nonEmptyFront = w.nonEmptyFront ∧
    (w.clearCell ci).reduceMax = w.reduceMax ∧
    (w.clearCell ci).rule = w.rule ∧
    (w.clearCell ci).searchList = w.searchList := by
  rcases clearCell_cases w ci with ⟨he, _⟩ | ⟨cd, s, _, _, he⟩ <;> rw [he]
  · exact ⟨rfl, rfl, rfl, rfl, rfl, rfl, rfl, rfl, rfl, rfl⟩
  · obtain ⟨h1, h2, h3, _, h5, h6, h7, h8, h9, h10, h11, _⟩ :=
      clearCellGo_fields w ci cd s
    exact ⟨h1, h2, h3, h6, h5, h7, h8, h9, h10, h11⟩

/-- `clearCell` erases the state of the cleared cell. -/
theorem clearCell_stateOf_self (w : World) (ci : Nat) :
    stateOf (w.clearCell ci) ci = none := by
  rcases clearCell_cases w ci with ⟨he, hs⟩ | ⟨cd, s, hc, _, he⟩ <;> rw [he]
  · exact hs
  · exact (clearCellGo_self w ci cd s hc).1

/-- `clearCell` leaves other cells' projections unchanged. -/
theorem clearCell_proj_ne (w : World) (ci j : Nat) (hj : j ≠ ci) :
    stateOf (w.clearCell ci) j = stateOf w j ∧
    reasonOf (w.clearCell ci) j = reasonOf w j ∧
    levelOf (w.clearCell ci) j = levelOf w j ∧
    nbhdOf (w.clearCell ci) j = nbhdOf w j := by
  rcases clearCell_cases w ci with ⟨he, _⟩ | ⟨cd, s, _, _, he⟩ <;> rw [he]
  · exact ⟨rfl, rfl, rfl, rfl⟩
  · exact clearCellGo_ne w ci cd s j hj

/-- The decision level after clearing a cell with a known state. -/
theorem clearCell_level_isSome (w : World) (ci : Nat)
    (h : (stateOf w ci).isSome) :
    (w.clearCell ci).level = unbumpLevel w.level (reasonOf w ci) := by
  rcases clearCell_cases w ci with ⟨he, hs⟩ | ⟨cd, s, hc, _, he⟩
  · rw [hs] at h; cases h
  · rw [he, (clearCellGo_fields w ci cd s).2.2.2.1]
    unfold reasonOf
    rw [hc]
    rfl

/-- The decision level after clearing a non-`Assume` cell. -/
theorem clearCell_level_nonassume (w : World) (ci : Nat)
    (h : isAssumeOpt (reasonOf w ci) = false) :
    (w.clearCell ci).level = w.level := by
  rcases clearCell_cases w ci with ⟨he, _⟩ | ⟨cd, s, hc, _, he⟩
  · rw [he]
  · rw [he, (clearCellGo_fields w ci cd s).2.2.2.1]
    unfold reasonOf at h
    rw [hc] at h
    unfold unbumpLevel
    cases hr : cd.reason with
    | none => rfl
    | some r =>
      cases r <;> simp_all [isAssumeOpt]

/-- The world produced by `setCell` is either untouched or the push. -/
theorem setCell_resWorld (w : World) (ci : Nat) (s : State) (r : SetReason) :
    (w.setCell ci s r).1 = w ∨
    ∃ cd, w.cells[ci]? = some cd ∧ cd.state = none ∧
      (w.setCell ci s r).1 = w.setCellPush ci cd s r := by
  unfold World.setCell
  cases hc : w.cells[ci]? with
  | none => exact Or.inl rfl
  | some cd =>
    cases hs : cd.state with
    | some old =>
      left
      simp only [hs]
      by_cases he : old = s <;> simp [he]
    | none =>
      right
      refine ⟨cd, rfl, hs, ?_⟩
      simp only [hs]
      by_cases h1 : (w.setCellPush ci cd s r).overCapB <;>
        by_cases h2 : ((w.setCellPush ci cd s r).nonEmptyFront &&
          decide ((w.setCellPush ci cd s r).frontCellCount = 0) &&
          (w.setCellPush ci cd s r).frontAllKnown : Bool) = true <;>
        simp [h1, h2]

/-- `setCell` leaves cursors and configuration unchanged. -/
theorem setCell_frame (w : World) (ci : Nat) (s : State) (r : SetReason) :
    (w.setCell ci s r).1.checkIndex = w.checkIndex ∧
    (w.setCell ci s r).1.searchIndex = w.searchIndex ∧
    (w.setCell ci s r).1.newState = w.newState ∧
    (w.setCell ci s r).1.conflicts = w.conflicts ∧
    (w.setCell ci s r).1.maxCellCount = w.maxCellCount ∧
    (w.setCell ci s r).1.nonEmptyFront = w.nonEmptyFront ∧
    (w.setCell ci s r).1.reduceMax = w.reduceMax ∧
    (w.setCell ci s r).1.rule = w.rule ∧
    (w.setCell ci s r).1.searchList = w.searchList := by
  rcases setCell_resWorld w ci s r with he | ⟨cd, _, _, he⟩ <;> rw [he]
  · exact ⟨rfl, rfl, rfl, rfl, rfl, rfl, rfl, rfl, rfl⟩
  · obtain ⟨_, h2, h3, _, h5, h6, h7, h8, h9, h10, h11, _⟩ :=
      setCellPush_fields w ci cd s r
    exact ⟨h2, h3, h6, h5, h7, h8, h9, h10, h11⟩

/-- `setCell` leaves other cells' projections unchanged. -/
theorem setCell_proj_ne (w : World) (ci : Nat) (s : State) (r : SetReason)
    (j : Nat) (hj : j ≠ ci) :
    stateOf (w.setCell ci s r).1 j = stateOf w j ∧
    reasonOf (w.setCell ci s r).1 j = reasonOf w j ∧
    levelOf (w.setCell ci s r).1 j = levelOf w j ∧
    nbhdOf (w.setCell ci s r).1 j = nbhdOf w j := by
  rcases setCell_resWorld w ci s r with he | ⟨cd, _, _, he⟩ <;> rw [he]
  · exact ⟨rfl, rfl, rfl, rfl⟩
  · exact setCellPush_ne w ci cd s r j hj

/-- Generic preservation of a predicate by a left fold. -/
theorem foldlPreserve {α β : Type} (P : α → Prop) (f : α → β → α)
    (h : ∀ a b, P a → P (f a b)) :
    ∀ (l : List β) (a : α), P a → P (l.foldl f a) := by
  intro l
  induction l with
  | nil => intro a ha; exact ha
  | cons hd tl ih => intro a ha; exact ih (f a hd) (h a hd ha)

/-- `setCell` preserves the stack invariant. -/
theorem stackInv_setCell (w : World) (ci : Nat) (s : State) (r : SetReason)
    (h : StackInv w) : StackInv (w.setCell ci s r).1 := by
  rcases setCell_resWorld w ci s r with he | ⟨cd, hc, hs, he⟩
  · rw [he]; exact h
  · rw [he]
    have hsnone : stateOf w ci = none := by simp [stateOf, hc, hs]
    have hnm : ci ∉ w.setStack := by
      intro hmem
      have := (h.2 ci hmem).1
      rw [hsnone] at this
      cases this
    obtain ⟨hstk, _⟩ := setCellPush_fields w ci cd s r
    constructor
    · rw [hstk, List.nodup_append]
      refine ⟨h.1, List.nodup_singleton ci, ?_⟩
      intro a ha hb
      rw [List.mem_singleton] at hb
      subst hb
      exact hnm ha
    · intro cj hj
      rw [hstk, List.mem_append, List.mem_singleton] at hj
      rcases hj with hj | hEq2
      · have hne : cj ≠ ci := fun hEq => hnm (hEq ▸ hj)
        obtain ⟨h1, h2, _, _⟩ := setCellPush_ne w ci cd s r cj hne
        rw [h1, h2]
        exact h.2 cj hj
      · rw [hEq2]
        obtain ⟨h1, h2, _, _⟩ := setCellPush_self w ci cd s r hc
        rw [h1, h2]
        exact ⟨rfl, rfl⟩

/-- `clearCell` on a cell off the stack preserves the invariant. -/
theorem stackInv_clearCell (w : World) (ci : Nat) (hnm : ci ∉ w.setStack)
    (h : StackInv w) : StackInv (w.clearCell ci) := by
  obtain ⟨hstk, _⟩ := clearCell_frame w ci
  constructor
  · rw [hstk]; exact h.1
  · intro cj hj
    rw [hstk] at hj
    have hne : cj ≠ ci := fun hEq => hnm (hEq ▸ hj)
    obtain ⟨h1, h2, _, _⟩ := clearCell_proj_ne w ci cj hne
    rw [h1, h2]
    exact h.2 cj hj

/-- Popping the top of the stack keeps the invariant, and the popped
cell is gone from the rest. -/
theorem stackInv_dropLast (w : World) (ci : Nat)
    (hlast : w.setStack.getLast? = some ci) (h : StackInv w) :
    StackInv { w with setStack := w.setStack.dropLast } ∧
      ci ∉ w.setStack.dropLast := by
  have hne : w.setStack ≠ [] := by
    intro h0
    rw [h0] at hlast
    cases hlast
  have hgl : w.setStack.getLast hne = ci := by
    have := List.getLast?_eq_getLast w.setStack hne
    rw [hlast] at this
    exact (Option.some_injective _ this.symm)
  have hsplit : w.setStack.dropLast ++ [ci] = w.setStack := by
    rw [← hgl]
    exact List.dropLast_append_getLast hne
  have hnodup : (w.setStack.dropLast ++ [ci]).Nodup := by
    rw [hsplit]; exact h.1
  rw [List.nodup_append] at hnodup
  have hnm : ci ∉ w.setStack.dropLast := by
    intro hmem
    exact hnodup.2.2 hmem (List.mem_singleton_self ci)
  refine ⟨⟨hnodup.1, ?_⟩, hnm⟩
  intro cj hj
  have : cj ∈ w.setStack := by
    rw [← hsplit]
    exact List.mem_append_left _ hj
  exact h.2 cj this

/-- `cancel` preserves the stack invariant. -/
theorem stackInv_cancel :
    ∀ (fuel : Nat) (w w' : World) (res : Option (Nat × State)),
      StackInv w → World.cancel fuel w = some (w', res) → StackInv w' := by
  intro fuel
  induction fuel with
  | zero => intro w w' res _ hEq; cases hEq
  | succ fuel ih =>
    intro w w' res h hEq
    unfold World.cancel at hEq
    cases hlast : w.setStack.getLast? with
    | none =>
      rw [hlast] at hEq
      injection hEq with hEq'
      injection hEq' with ha hb
      rw [← ha]
      exact h
    | some ci =>
      rw [hlast] at hEq
      simp only at hEq
      obtain ⟨hinv0, hnm0⟩ := stackInv_dropLast w ci hlast h
      cases hr : reasonOf { w with setStack := w.setStack.dropLast } ci with
      | none => rw [hr] at hEq; cases hEq
      | some sr =>
        rw [hr] at hEq
        cases sr with
        | assume i =>
          cases hs : stateOf { w with setStack := w.setStack.dropLast } ci with
          | none => simp only [hs] at hEq; cases hEq
          | some st =>
            simp only [hs] at hEq
            injection hEq with hEq'
            injection hEq' with ha hb
            rw [← ha]
            exact stackInv_clearCell _ ci hnm0 hinv0
        | init =>
          exact ih _ _ _ (stackInv_clearCell _ ci hnm0 hinv0) hEq
        | rule c =>
          exact ih _ _ _ (stackInv_clearCell _ ci hnm0 hinv0) hEq
        | sym a b =>
          exact ih _ _ _ (stackInv_clearCell _ ci hnm0 hinv0) hEq
        | clause cs =>
          exact ih _ _ _ (stackInv_clearCell _ ci hnm0 hinv0) hEq
        | conflict =>
          exact ih _ _ _ (stackInv_clearCell _ ci hnm0 hinv0) hEq

/-- `backup` preserves the stack invariant. -/
theorem stackInv_backup :
    ∀ (fuel : Nat) {w w' : World} {b : Bool},
      StackInv w → World.backup fuel w = some (w', b) → StackInv w' := by
  intro fuel
  induction fuel with
  | zero => intro w w' b _ hEq; cases hEq
  | succ fuel ih =>
    intro w w' b h hEq
    unfold World.backup at hEq
    cases hc : World.cancel (fuel + 1) w with
    | none => rw [hc] at hEq; cases hEq
    | some p =>
      rw [hc] at hEq
      obtain ⟨w1, res⟩ := p
      have hw1 : StackInv w1 := stackInv_cancel (fuel + 1) w w1 res h hc
      cases res with
      | none =>
        simp only at hEq
        injection hEq with hEq'
        injection hEq' with ha hb
        rw [← ha]
        exact hw1
      | some pr =>
        obtain ⟨ci, st⟩ := pr
        simp only at hEq
        by_cases hok : (w1.setCell ci st.not .conflict).2.isNone
        · rw [if_pos hok] at hEq
          injection hEq with hEq'
          injection hEq' with ha hb
          rw [← ha]
          exact stackInv_setCell w1 ci st.not .conflict hw1
        · rw [if_neg hok] at hEq
          exact ih (stackInv_setCell w1 ci st.not .conflict hw1) hEq

/-- The symmetry pass preserves the stack invariant. -/
theorem stackInv_symPass :
    ∀ (l : List Nat) (w : World) (ci : Nat) (st : State),
      StackInv w → StackInv (w.symPass ci st l).1 := by
  intro l
  induction l with
  | nil => intro w ci st h; exact h
  | cons sy rest ih =>
    intro w ci st h
    unfold World.symPass
    cases hs : stateOf w sy with
    | some old =>
      by_cases hne : st ≠ old
      · simp only [hs, if_pos hne]
        exact h
      · simp only [hs, if_neg hne]
        exact ih w ci st h
    | none =>
      simp only [hs]
      cases hres : (w.setCell sy st (.sym ci sy)).2 with
      | some r =>
        simp only
        exact stackInv_setCell w sy st (.sym ci sy) h
      | none =>
        simp only
        exact ih _ ci st (stackInv_setCell w sy st (.sym ci sy) h)

/-- `consistify` preserves the stack invariant. -/
theorem stackInv_consistify (w : World) (ci : Nat) (h : StackInv w) :
    StackInv (w.consistify ci).1 := by
  simp only [World.consistify]
  cases hc : w.cells[ci]? with
  | none => exact h
  | some cd =>
    dsimp only
    cases hp : w.rule.plan cd.desc cd.state with
    | none => exact h
    | some plan =>
      dsimp only
      refine foldlPreserve
        (fun (acc : World × Option ConflReason) => StackInv acc.1)
        _ ?_ plan (w, none) h
      intro acc ts hacc
      obtain ⟨wa, ra⟩ := acc
      cases ra with
      | some rr => exact hacc
      | none =>
        obtain ⟨t1, t2⟩ := ts
        cases t1 with
        | self => exact stackInv_setCell wa ci t2 (.rule ci) hacc
        | succ =>
          dsimp only
          cases cd.succ with
          | none => exact hacc
          | some t => exact stackInv_setCell wa t t2 (.rule ci) hacc
        | nbhd i =>
          dsimp only
          cases (cd.nbhd[i]?).join with
          | none => exact hacc
          | some t => exact stackInv_setCell wa t t2 (.rule ci) hacc

/-- `consistify10` preserves the stack invariant. -/
theorem stackInv_consistify10 (w : World) (ci : Nat) {w' : World}
    {r : Option ConflReason} (h : StackInv w)
    (hEq : w.consistify10 ci = some (w', r)) : StackInv w' := by
  unfold World.consistify10 at hEq
  cases hc : w.cells[ci]? with
  | none =>
    rw [hc] at hEq
    injection hEq with hEq'
    injection hEq' with ha hb
    rw [← ha]
    exact h
  | some cd =>
    rw [hc] at hEq
    dsimp only at hEq
    have h1 : StackInv (w.consistify ci).1 := stackInv_consistify w ci h
    cases hr1 : (w.consistify ci).2 with
    | some cr =>
      rw [hr1] at hEq
      injection hEq with hEq'
      injection hEq' with ha hb
      rw [← ha]
      exact h1
    | none =>
      rw [hr1] at hEq
      have h2 : StackInv (match cd.pred with
          | some pr => (w.consistify ci).1.consistify pr
          | none => ((w.consistify ci).1, none)).1 := by
        cases cd.pred with
        | some pr => exact stackInv_consistify _ pr h1
        | none => exact h1
      cases hr2 : (match cd.pred with
          | some pr => (w.consistify ci).1.consistify pr
          | none => ((w.consistify ci).1, none)).2 with
      | some cr =>
        rw [hr2] at hEq
        injection hEq with hEq'
        injection hEq' with ha hb
        rw [← ha]
        exact h2
      | none =>
        rw [hr2] at hEq
        have hfold := foldlPreserve
          (fun (acc : Option (World × Option ConflReason)) =>
            ∀ p, acc = some p → StackInv p.1)
          (fun acc slot =>
            match acc with
            | none => none
            | some (wa, some r) => some (wa, some r)
            | some (wa, none) =>
              match slot with
              | none => none
              | some n => some (wa.consistify n))
          ?step cd.nbhd (some ((match cd.pred with
            | some pr => (w.consistify ci).1.consistify pr
            | none => ((w.consistify ci).1, none)).1, none)) ?base
        case step =>
          intro acc slot hacc p hp
          match acc, hp with
          | none, hp => cases hp
          | some (wa, some rr), hp =>
            have : some (wa, some rr) = some p := hp
            injection this with hp'
            rw [← hp']
            exact hacc (wa, some rr) rfl
          | some (wa, none), hp =>
            match slot, hp with
            | none, hp => cases hp
            | some n, hp =>
              have : some (wa.consistify n) = some p := hp
              injection this with hp'
              rw [← hp']
              exact stackInv_consistify wa n (hacc (wa, none) rfl)
        case base =>
          intro p hp
          injection hp with hp'
          rw [← hp']
          exact h2
        exact hfold _ hEq

/-- `proceed` preserves the stack invariant. -/
theorem stackInv_proceed :
    ∀ (fuel : Nat) {w w' : World} {r : Option ConflReason},
      StackInv w → World.proceed fuel w = some (w', r) → StackInv w' := by
  intro fuel
  induction fuel with
  | zero => intro w w' r _ hEq; cases hEq
  | succ fuel ih =>
    intro w w' r h hEq
    unfold World.proceed at hEq
    cases hidx : w.setStack[w.checkIndex]? with
    | none =>
      rw [hidx] at hEq
      injection hEq with hEq'
      injection hEq' with ha hb
      rw [← ha]
      exact h
    | some ci =>
      rw [hidx] at hEq
      dsimp only at hEq
      cases hst : stateOf w ci with
      | none => rw [hst] at hEq; cases hEq
      | some st =>
        rw [hst] at hEq
        dsimp only at hEq
        have hsym : StackInv (match w.cells[ci]? with
            | some cd => w.symPass ci st cd.sym
            | none => (w, none)).1 := by
          cases w.cells[ci]? with
          | some cd => exact stackInv_symPass cd.sym w ci st h
          | none => exact h
        cases hs2 : (match w.cells[ci]? with
            | some cd => w.symPass ci st cd.sym
            | none => (w, none)).2 with
        | some cr =>
          rw [hs2] at hEq
          injection hEq with hEq'
          injection hEq' with ha hb
          rw [← ha]
          exact hsym
        | none =>
          rw [hs2] at hEq
          cases hc10 : (match w.cells[ci]? with
              | some cd => w.symPass ci st cd.sym
              | none => (w, none)).1.consistify10 ci with
          | none => rw [hc10] at hEq; cases hEq
          | some p =>
            rw [hc10] at hEq
            obtain ⟨w2, r2⟩ := p
            have h2 : StackInv w2 := stackInv_consistify10 _ ci hsym hc10
            cases r2 with
            | some cr =>
              injection hEq with hEq'
              injection hEq' with ha hb
              rw [← ha]
              exact h2
            | none =>
              dsimp only at hEq
              refine ih ?_ hEq
              exact h2

/-- `getUnknown` and the rest of `decide` preserve the invariant. -/
theorem stackInv_decide (w : World) (rng : List State)
    {o : Option (Option ConflReason)} {w' : World} {rng' : List State}
    (h : StackInv w) (hEq : w.decide rng = (o, w', rng')) : StackInv w' := by
  unfold World.decide at hEq
  cases hu : w.getUnknown w.searchIndex with
  | none =>
    rw [hu] at hEq
    injection hEq with h1 h2
    injection h2 with h2 h3
    rw [← h2]
    exact h
  | some pr =>
    obtain ⟨i, ci⟩ := pr
    rw [hu] at hEq
    dsimp only at hEq
    injection hEq with h1 h2
    injection h2 with h2 h3
    rw [← h2]
    exact stackInv_setCell _ ci _ (.assume i) h

/-- `cancelWhile` preserves the stack invariant. -/
theorem stackInv_cancelWhile :
    ∀ (fuel : Nat) {w : World} (maxLevel : Nat) {w' : World},
      StackInv w → cancelWhile fuel w maxLevel = some w' → StackInv w' := by
  intro fuel
  induction fuel with
  | zero => intro w ml w' _ hEq; cases hEq
  | succ fuel ih =>
    intro w ml w' h hEq
    unfold cancelWhile at hEq
    by_cases hlt : ml < w.level
    · rw [if_pos hlt] at hEq
      cases hc : World.cancel (fuel + 1) w with
      | none => rw [hc] at hEq; cases hEq
      | some p =>
        rw [hc] at hEq
        exact ih ml (stackInv_cancel (fuel + 1) w p.1 p.2 h hc) hEq
    · rw [if_neg hlt] at hEq
      injection hEq with hEq'
      rw [← hEq']
      exact h

/-- The analysis loop preserves the stack invariant. -/
theorem stackInv_analyzeLoop :
    ∀ (fuel : Nat) {w : World} (rc seen : List Nat) (ml cnt : Nat)
      {w' : World} {b : Bool},
      StackInv w → World.analyzeLoop fuel w rc seen ml cnt = some (w', b) →
      StackInv w' := by
  intro fuel
  induction fuel with
  | zero => intro w rc seen ml cnt w' b _ hEq; cases hEq
  | succ fuel ih =>
    intro w rc seen ml cnt w' b h hEq
    unfold World.analyzeLoop at hEq
    cases hlast : w.setStack.getLast? with
    | none =>
      rw [hlast] at hEq
      injection hEq with hEq'
      injection hEq' with ha hb
      rw [← ha]
      exact h
    | some ci =>
      rw [hlast] at hEq
      dsimp only at hEq
      obtain ⟨hinv0, hnm0⟩ := stackInv_dropLast w ci hlast h
      cases hr : reasonOf { w with setStack := w.setStack.dropLast } ci with
      | none => rw [hr] at hEq; cases hEq
      | some sr =>
        rw [hr] at hEq
        have hclr : StackInv
            (({ w with setStack := w.setStack.dropLast }).clearCell ci) :=
          stackInv_clearCell _ ci hnm0 hinv0
        cases sr with
        | assume i =>
          cases hs : stateOf { w with setStack := w.setStack.dropLast } ci with
          | none => dsimp only at hEq; rw [hs] at hEq; cases hEq
          | some st =>
            dsimp only at hEq
            rw [hs] at hEq
            dsimp only at hEq
            split at hEq
            · injection hEq with hEq'
              injection hEq' with ha hb
              rw [← ha]
              refine stackInv_setCell _ ci st.not .conflict ?_
              refine stackInv_clearCell _ ci ?_ ?_
              · exact hnm0
              · exact hinv0
            · refine stackInv_backup fuel ?_ hEq
              refine stackInv_setCell _ ci st.not .conflict ?_
              refine stackInv_clearCell _ ci ?_ ?_
              · exact hnm0
              · exact hinv0
        | init => exact stackInv_backup fuel hclr hEq
        | conflict => exact stackInv_backup fuel hclr hEq
        | rule c =>
          dsimp only at hEq
          by_cases hseen : ci ∈ (scanLits w rc seen ml cnt).1
          · rw [if_pos hseen] at hEq
            cases hs : stateOf { w with setStack := w.setStack.dropLast } ci with
            | none => rw [hs] at hEq; cases hEq
            | some st =>
              rw [hs] at hEq
              dsimp only at hEq
              by_cases hcnt : (scanLits w rc seen ml cnt).2.2 = 1
              · rw [if_pos hcnt] at hEq
                cases hcw : cancelWhile fuel
                    (({ w with setStack := w.setStack.dropLast
                      }).clearCell ci) (scanLits w rc seen ml cnt).2.1 with
                | none => rw [hcw] at hEq; cases hEq
                | some w2 =>
                  rw [hcw] at hEq
                  dsimp only at hEq
                  have h2 : StackInv w2 :=
                    stackInv_cancelWhile fuel _ hclr hcw
                  have h3 : StackInv (w2.setCell ci st.not .conflict).1 :=
                    stackInv_setCell w2 ci st.not .conflict h2
                  by_cases hok : (w2.setCell ci st.not .conflict).2.isNone
                  · rw [if_pos hok] at hEq
                    injection hEq with hEq'
                    injection hEq' with ha hb
                    rw [← ha]
                    exact h3
                  · rw [if_neg hok] at hEq
                    exact stackInv_backup fuel h3 hEq
              · rw [if_neg hcnt] at hEq
                exact ih _ _ _ _ hclr hEq
          · rw [if_neg hseen] at hEq
            exact ih _ _ _ _ hclr hEq
        | sym a b2 =>
          dsimp only at hEq
          by_cases hseen : ci ∈ (scanLits w rc seen ml cnt).1
          · rw [if_pos hseen] at hEq
            cases hs : stateOf { w with setStack := w.setStack.dropLast } ci with
            | none => rw [hs] at hEq; cases hEq
            | some st =>
              rw [hs] at hEq
              dsimp only at hEq
              by_cases hcnt : (scanLits w rc seen ml cnt).2.2 = 1
              · rw [if_pos hcnt] at hEq
                cases hcw : cancelWhile fuel
                    (({ w with setStack := w.setStack.dropLast
                      }).clearCell ci) (scanLits w rc seen ml cnt).2.1 with
                | none => rw [hcw] at hEq; cases hEq
                | some w2 =>
                  rw [hcw] at hEq
                  dsimp only at hEq
                  have h2 : StackInv w2 :=
                    stackInv_cancelWhile fuel _ hclr hcw
                  have h3 : StackInv (w2.setCell ci st.not .conflict).1 :=
                    stackInv_setCell w2 ci st.not .conflict h2
                  by_cases hok : (w2.setCell ci st.not .conflict).2.isNone
                  · rw [if_pos hok] at hEq
                    injection hEq with hEq'
                    injection hEq' with ha hb
                    rw [← ha]
                    exact h3
                  · rw [if_neg hok] at hEq
                    exact stackInv_backup fuel h3 hEq
              · rw [if_neg hcnt] at hEq
                exact ih _ _ _ _ hclr hEq
          · rw [if_neg hseen] at hEq
            exact ih _ _ _ _ hclr hEq
        | clause cs =>
          dsimp only at hEq
          by_cases hseen : ci ∈ (scanLits w rc seen ml cnt).1
          · rw [if_pos hseen] at hEq
            cases hs : stateOf { w with setStack := w.setStack.dropLast } ci with
            | none => rw [hs] at hEq; cases hEq
            | some st =>
              rw [hs] at hEq
              dsimp only at hEq
              by_cases hcnt : (scanLits w rc seen ml cnt).2.2 = 1
              · rw [if_pos hcnt] at hEq
                cases hcw : cancelWhile fuel
                    (({ w with setStack := w.setStack.dropLast
                      }).clearCell ci) (scanLits w rc seen ml cnt).2.1 with
                | none => rw [hcw] at hEq; cases hEq
                | some w2 =>
                  rw [hcw] at hEq
                  dsimp only at hEq
                  have h2 : StackInv w2 :=
                    stackInv_cancelWhile fuel _ hclr hcw
                  have h3 : StackInv (w2.setCell ci st.not .conflict).1 :=
                    stackInv_setCell w2 ci st.not .conflict h2
                  by_cases hok : (w2.setCell ci st.not .conflict).2.isNone
                  · rw [if_pos hok] at hEq
                    injection hEq with hEq'
                    injection hEq' with ha hb
                    rw [← ha]
                    exact h3
                  · rw [if_neg hok] at hEq
                    exact stackInv_backup fuel h3 hEq
              · rw [if_neg hcnt] at hEq
                exact ih _ _ _ _ hclr hEq
          · rw [if_neg hseen] at hEq
            exact ih _ _ _ _ hclr hEq

/-- `analyze` preserves the stack invariant. -/
theorem stackInv_analyze (fuel : Nat) (w : World) (r : ConflReason)
    {w' : World} {b : Bool} (h : StackInv w)
    (hEq : w.analyze fuel r = some (w', b)) : StackInv w' := by
  unfold World.analyze at hEq
  cases r with
  | conflict => exact stackInv_backup fuel h hEq
  | cellCount => exact stackInv_backup fuel h hEq
  | succeed => exact stackInv_backup fuel h hEq
  | rule c => exact stackInv_analyzeLoop fuel _ _ _ _ h hEq
  | sym c s => exact stackInv_analyzeLoop fuel _ _ _ _ h hEq

/-- `go` preserves the stack invariant. -/
theorem stackInv_go :
    ∀ (fuel : Nat) {w : World} (step : Nat) {w' : World} {b : Bool} {n : Nat},
      StackInv w → World.go fuel w step = some (w', b, n) → StackInv w' := by
  intro fuel
  induction fuel with
  | zero => intro w step w' b n _ hEq; cases hEq
  | succ fuel ih =>
    intro w step w' b n h hEq
    unfold World.go at hEq
    cases hp : World.proceed (fuel + 1) w with
    | none => rw [hp] at hEq; cases hEq
    | some p =>
      rw [hp] at hEq
      obtain ⟨w1, r1⟩ := p
      have h1 : StackInv w1 := stackInv_proceed (fuel + 1) h hp
      cases r1 with
      | none =>
        injection hEq with hEq'
        injection hEq' with ha hb
        rw [← ha]
        exact h1
      | some r =>
        dsimp only at hEq
        cases ha : World.analyze (fuel + 1)
            { w1 with conflicts := w1.conflicts + 1 } r with
        | none => rw [ha] at hEq; cases hEq
        | some q =>
          rw [ha] at hEq
          obtain ⟨w3, b3⟩ := q
          have h3 : StackInv w3 := by
            refine stackInv_analyze (fuel + 1) _ r ?_ ha
            exact h1
          cases b3 with
          | true => exact ih _ h3 hEq
          | false =>
            injection hEq with hEq'
            injection hEq' with ha2 hb2
            rw [← ha2]
            exact h3

/-- The search loop preserves the stack invariant. -/
theorem stackInv_searchLoop :
    ∀ (fuel : Nat) (rng : List State) {w : World} (maxStep : Option Nat)
      (step : Nat) {st : Status} {w' : World},
      StackInv w →
      World.searchLoop fuel rng w maxStep step = some (st, w') →
      StackInv w' := by
  intro fuel
  induction fuel with
  | zero => intro rng w maxStep step st w' _ hEq; cases hEq
  | succ fuel ih =>
    intro rng w maxStep step st w' h hEq
    unfold World.searchLoop at hEq
    cases hg : World.go (fuel + 1) w step with
    | none => rw [hg] at hEq; cases hEq
    | some p =>
      rw [hg] at hEq
      obtain ⟨w1, b1, step1⟩ := p
      have h1 : StackInv w1 := stackInv_go (fuel + 1) step h hg
      cases b1 with
      | false =>
        dsimp only at hEq
        injection hEq with hEq'
        injection hEq' with ha hb
        rw [← hb]
        exact h1
      | true =>
        dsimp only at hEq
        have hdw : StackInv (w1.decide rng).2.1 :=
          stackInv_decide w1 rng h1 rfl
        cases hd : (w1.decide rng).1 with
        | some e =>
          rw [hd] at hEq
          dsimp only at hEq
          by_cases hse : e.isSome
          · rw [if_pos hse] at hEq
            cases hb2 : World.backup (fuel + 1) (w1.decide rng).2.1 with
            | none => rw [hb2] at hEq; cases hEq
            | some q =>
              rw [hb2] at hEq
              obtain ⟨w3, b3⟩ := q
              have h3 : StackInv w3 := stackInv_backup (fuel + 1) hdw hb2
              cases b3 with
              | false =>
                dsimp only at hEq
                injection hEq with hEq'
                injection hEq' with ha hb
                rw [← hb]
                exact h3
              | true =>
                dsimp only at hEq
                by_cases hl : stepLimitHit maxStep step1
                · rw [if_pos hl] at hEq
                  injection hEq with hEq'
                  injection hEq' with ha hb
                  rw [← hb]
                  exact h3
                · rw [if_neg hl] at hEq
                  exact ih _ maxStep step1 h3 hEq
          · rw [if_neg hse] at hEq
            by_cases hl : stepLimitHit maxStep step1
            · rw [if_pos hl] at hEq
              injection hEq with hEq'
              injection hEq' with ha hb
              rw [← hb]
              exact hdw
            · rw [if_neg hl] at hEq
              exact ih _ maxStep step1 hdw hEq
        | none =>
          rw [hd] at hEq
          dsimp only at hEq
          by_cases hnt : (w1.decide rng).2.1.nontrivial
          · rw [if_pos hnt] at hEq
            by_cases hrm : (w1.decide rng).2.1.reduceMax
            · rw [if_pos hrm] at hEq
              cases hmin : (w1.decide rng).2.1.cellCount.min? with
              | none => rw [hmin] at hEq; cases hEq
              | some m =>
                rw [hmin] at hEq
                dsimp only at hEq
                by_cases hz : m = 0
                · rw [if_pos hz] at hEq; cases hEq
                · rw [if_neg hz] at hEq
                  injection hEq with hEq'
                  injection hEq' with ha hb
                  rw [← hb]
                  exact hdw
            · rw [if_neg hrm] at hEq
              injection hEq with hEq'
              injection hEq' with ha hb
              rw [← hb]
              exact hdw
          · rw [if_neg hnt] at hEq
            cases hb2 : World.backup (fuel + 1) (w1.decide rng).2.1 with
            | none => rw [hb2] at hEq; cases hEq
            | some q =>
              rw [hb2] at hEq
              obtain ⟨w3, b3⟩ := q
              have h3 : StackInv w3 := stackInv_backup (fuel + 1) hdw hb2
              cases b3 with
              | false =>
                dsimp only at hEq
                injection hEq with hEq'
                injection hEq' with ha hb
                rw [← hb]
                exact h3
              | true =>
                dsimp only at hEq
                by_cases hl : stepLimitHit maxStep step1
                · rw [if_pos hl] at hEq
                  injection hEq with hEq'
                  injection hEq' with ha hb
                  rw [← hb]
                  exact h3
                · rw [if_neg hl] at hEq
                  exact ih _ maxStep step1 h3 hEq

/-- `search` preserves the stack invariant. -/
theorem stackInv_search (fuel : Nat) (rng : List State) {w : World}
    (maxStep : Option Nat) {st : Status} {w' : World} (h : StackInv w)
    (hEq : World.search fuel rng w maxStep = some (st, w')) :
    StackInv w' := by
  unfold World.search at hEq
  by_cases hu : (w.getUnknown 0).isNone
  · rw [if_pos hu] at hEq
    cases hb : World.backup fuel w with
    | none => rw [hb] at hEq; cases hEq
    | some p =>
      rw [hb] at hEq
      obtain ⟨w1, b1⟩ := p
      have h1 : StackInv w1 := stackInv_backup fuel h hb
      cases b1 with
      | false =>
        dsimp only at hEq
        injection hEq with hEq'
        injection hEq' with ha hb2
        rw [← hb2]
        exact h1
      | true =>
        dsimp only at hEq
        exact stackInv_searchLoop fuel rng maxStep 0 h1 hEq
  · rw [if_neg hu] at hEq
    exact stackInv_searchLoop fuel rng maxStep 0 h hEq

/-- Under the stack invariant the snapshot serializer is total: every
stack entry has a cell record with a known state and a reason, so the
`unwrap` in `SetCell::ser` cannot panic. -/
theorem serStack_isSome (w : World) (h : StackInv w) :
    (w.serStack).isSome := by
  unfold World.serStack
  have haux : ∀ l : List Nat,
      (∀ ci ∈ l, (stateOf w ci).isSome ∧ (reasonOf w ci).isSome) →
      (serStackAux w l).isSome := by
    intro l
    induction l with
    | nil => intro _; rfl
    | cons a tl ih =>
      intro hall
      obtain ⟨hs, hr⟩ := hall a (List.mem_cons_self a tl)
      have htl := ih (fun ci hci => hall ci (List.mem_cons_of_mem a hci))
      cases hc : w.cells[a]? with
      | none => simp [stateOf, hc] at hs
      | some cd =>
        cases hcs : cd.state with
        | none => simp [stateOf, hc, hcs] at hs
        | some s =>
          cases hcr : cd.reason with
          | none => simp [reasonOf, hc, hcr] at hr
          | some r =>
            obtain ⟨v, hv⟩ := Option.isSome_iff_exists.1 htl
            simp [serStackAux, hc, hcs, hcr, hv]
  exact haux w.setStack h.2

/-- C6: in every state of the world reachable by any sequence of the
operations `proceed`, `decide`, `cancel`, `backup`, `analyze` and
`search` from a state satisfying the stack invariant, the propagation
stack `set_stack` contains each cell at most once and every cell on it
has a known state (and a recorded reason); consequently the cell-state
unwraps performed by `proceed`, `cancel`, `analyze` and the snapshot
serializer (`SetCell::ser`) cannot panic — in particular the serializer
succeeds, which is the second conjunct. -/
theorem C6_stack_invariant (w0 w : World) (h0 : StackInv w0)
    (hr : Reachable w0 w) : StackInv w ∧ (w.serStack).isSome := by
  have hinv : StackInv w := by
    induction hr with
    | refl => exact h0
    | tail hsteps hstep ih =>
      rcases hstep with ⟨fuel, r, hEq⟩ | ⟨rng, o, rng', hEq⟩ |
        ⟨fuel, r, hEq⟩ | ⟨fuel, b, hEq⟩ | ⟨fuel, r, b, hEq⟩ |
        ⟨fuel, rng, maxStep, st, hEq⟩
      · exact stackInv_proceed fuel ih hEq
      · exact stackInv_decide _ rng ih hEq
      · exact stackInv_cancel fuel _ _ r ih hEq
      · exact stackInv_backup fuel ih hEq
      · refine stackInv_analyze fuel _ r ?_ hEq
        exact ih
      · exact stackInv_search fuel rng maxStep ih hEq
  exact ⟨hinv, serStack_isSome w hinv⟩

/-- Witness for C6 at a concrete world: `wAssumed` satisfies the
invariant and is trivially reachable from itself. -/
theorem C6_stack_invariant_witness :
    StackInv wAssumed ∧ (wAssumed.serStack).isSome :=
  C6_stack_invariant wAssumed wAssumed
    (by
      constructor
      · decide
      · intro ci hci
        rw [show wAssumed.setStack = [0] from rfl] at hci
        rw [List.mem_singleton] at hci
        subst hci
        exact ⟨rfl, rfl⟩)
    Relation.ReflTransGen.refl

/-- `dropWhile` only depends on the predicate's values on the list. -/
theorem dropWhileCongr {α : Type} {p q : α → Bool} :
    ∀ {l : List α}, (∀ x ∈ l, p x = q x) → l.dropWhile p = l.dropWhile q := by
  intro l
  induction l with
  | nil => intro _; rfl
  | cons a tl ih =>
    intro h
    have ha := h a (List.mem_cons_self a tl)
    rw [List.dropWhile_cons, List.dropWhile_cons, ha]
    by_cases hq : q a = true
    · rw [if_pos hq, if_pos hq]
      exact ih fun x hx => h x (List.mem_cons_of_mem a hx)
    · rw [if_neg hq, if_neg hq]

/-- `takeWhile` only depends on the predicate's values on the list. -/
theorem takeWhileCongr {α : Type} {p q : α → Bool} :
    ∀ {l : List α}, (∀ x ∈ l, p x = q x) → l.takeWhile p = l.takeWhile q := by
  intro l
  induction l with
  | nil => intro _; rfl
  | cons a tl ih =>
    intro h
    have ha := h a (List.mem_cons_self a tl)
    rw [List.takeWhile_cons, List.takeWhile_cons, ha]
    by_cases hq : q a = true
    · rw [if_pos hq, if_pos hq,
        ih fun x hx => h x (List.mem_cons_of_mem a hx)]
    · rw [if_neg hq, if_neg hq]

/-- C5: `cancel` pops cells off `set_stack`, clearing each popped cell
whose reason is not `Assume`, until it pops a cell with reason
`Assume(i)`; at that point it sets `check_index` to the remaining stack
length, `search_index` to `i + 1`, reads the cell's current state,
clears the cell, decrements the decision level, and returns the cell
with that state; if the stack is exhausted before any `Assume` cell is
found it returns `None` (resetting both cursors).  The level decrement
lives in the spec-modelled `clear_cell` (glossary: the decision level
is the number of `Assume` reasons on the stack). -/
theorem C5_cancel_behavior (fuel : Nat) (w : World) (hinv : StackInv w)
    (hfuel : w.setStack.length < fuel) :
    (w.setStack.reverse.dropWhile
        (fun ci => !(isAssumeOpt (reasonOf w ci))) = [] →
      ∃ w', World.cancel fuel w = some (w', none) ∧
        w'.checkIndex = 0 ∧ w'.searchIndex = 0 ∧ w'.setStack = [] ∧
        w'.level = w.level ∧
        (∀ ci ∈ w.setStack, stateOf w' ci = none) ∧
        (∀ j, j ∉ w.setStack →
          stateOf w' j = stateOf w j ∧ reasonOf w' j = reasonOf w j)) ∧
    (∀ a rest, w.setStack.reverse.dropWhile
        (fun ci => !(isAssumeOpt (reasonOf w ci))) = a :: rest →
      ∃ i s w', reasonOf w a = some (SetReason.assume i) ∧
        stateOf w a = some s ∧
        World.cancel fuel w = some (w', some (a, s)) ∧
        w'.setStack = rest.reverse ∧ w'.checkIndex = rest.length ∧
        w'.searchIndex = i + 1 ∧ w'.level = w.level - 1 ∧
        stateOf w' a = none ∧
        (∀ cj ∈ w.setStack.reverse.takeWhile
            (fun ci => !(isAssumeOpt (reasonOf w ci))),
          stateOf w' cj = none) ∧
        (∀ j, j ≠ a →
          j ∉ w.setStack.reverse.takeWhile
            (fun ci => !(isAssumeOpt (reasonOf w ci))) →
          stateOf w' j = stateOf w j ∧ reasonOf w' j = reasonOf w j)) := by
  induction fuel generalizing w with
  | zero => exact absurd hfuel (by omega)
  | succ fuel ih =>
    cases hlast : w.setStack.getLast? with
    | none =>
      have hnil : w.setStack = [] := by
        by_contra hne0
        have h1 : (w.setStack.getLast?).isSome := by
          rw [List.getLast?_isSome]
          exact hne0
        rw [hlast] at h1
        cases h1
      constructor
      · intro _
        refine ⟨{ w with checkIndex := 0, searchIndex := 0 }, ?_, rfl, rfl,
          ?_, rfl, ?_, ?_⟩
        · unfold World.cancel
          rw [hlast]
        · exact hnil
        · intro ci hci
          rw [hnil] at hci
          cases hci
        · intro j _
          exact ⟨rfl, rfl⟩
      · intro a rest hdrop
        rw [hnil] at hdrop
        simp at hdrop
    | some ci =>
      have hne : w.setStack ≠ [] := by
        intro h0
        rw [h0] at hlast
        cases hlast
      have hgl : w.setStack.getLast hne = ci := by
        have := List.getLast?_eq_getLast w.setStack hne
        rw [hlast] at this
        exact (Option.some_injective _ this.symm)
      have hsplit : w.setStack.dropLast ++ [ci] = w.setStack := by
        rw [← hgl]
        exact List.dropLast_append_getLast hne
      have hmem : ci ∈ w.setStack := by
        rw [← hsplit]
        exact List.mem_append_right _ (List.mem_singleton_self ci)
      have hsome_s : (stateOf w ci).isSome := (hinv.2 ci hmem).1
      have hsome_r : (reasonOf w ci).isSome := (hinv.2 ci hmem).2
      obtain ⟨inv0, hnm0⟩ := stackInv_dropLast w ci hlast hinv
      have hrev : w.setStack.reverse = ci :: w.setStack.dropLast.reverse := by
        rw [← hsplit]
        simp
      obtain ⟨r0, hro⟩ := Option.isSome_iff_exists.1 hsome_r
      obtain ⟨s0, hst⟩ := Option.isSome_iff_exists.1 hsome_s
      by_cases hass : isAssumeOpt (reasonOf w ci) = true
      · have hexi : ∃ i, reasonOf w ci = some (SetReason.assume i) := by
          cases r0 with
          | assume i => exact ⟨i, hro⟩
          | init => rw [hro] at hass; simp [isAssumeOpt] at hass
          | rule c => rw [hro] at hass; simp [isAssumeOpt] at hass
          | sym x y => rw [hro] at hass; simp [isAssumeOpt] at hass
          | clause cs => rw [hro] at hass; simp [isAssumeOpt] at hass
          | conflict => rw [hro] at hass; simp [isAssumeOpt] at hass
        obtain ⟨i, hri⟩ := hexi
        have hro0 : reasonOf { w with setStack := w.setStack.dropLast } ci =
            some (SetReason.assume i) := hri
        have hst0 : stateOf { w with setStack := w.setStack.dropLast } ci =
            some s0 := hst
        have hcanc : World.cancel (fuel + 1) w =
            some ((({ w with
                      setStack := w.setStack.dropLast,
                      checkIndex := w.setStack.dropLast.length,
                      searchIndex := i + 1 }).clearCell ci),
              some (ci, s0)) := by
          unfold World.cancel
          rw [hlast]
          dsimp only
          rw [hro0]
          dsimp only
          rw [hst0]
        constructor
        · intro hdrop
          rw [hrev] at hdrop
          rw [List.dropWhile_cons] at hdrop
          simp only [hass] at hdrop
          simp at hdrop
        · intro a rest hdrop
          rw [hrev] at hdrop
          rw [List.dropWhile_cons] at hdrop
          simp only [hass] at hdrop
          simp only [Bool.not_true, if_false] at hdrop
          injection hdrop with h1 h2
          subst h1
          subst h2
          refine ⟨i, s0, _, hri, hst, hcanc, ?_, ?_, ?_, ?_, ?_, ?_, ?_⟩
          · rw [(clearCell_frame _ _).1]
            show w.setStack.dropLast = w.setStack.dropLast.reverse.reverse
            rw [List.reverse_reverse]
          · rw [(clearCell_frame _ _).2.1]
            show w.setStack.dropLast.length = w.setStack.dropLast.reverse.length
            rw [List.length_reverse]
          · rw [(clearCell_frame _ _).2.2.1]
          · have hlev := clearCell_level_isSome
              ({ w with
                 setStack := w.setStack.dropLast,
                 checkIndex := w.setStack.dropLast.length,
                 searchIndex := i + 1 } : World) ci
              (by
                have hst2 : stateOf ({ w with
                    setStack := w.setStack.dropLast,
                    checkIndex := w.setStack.dropLast.length,
                    searchIndex := i + 1 } : World) ci = some s0 := hst
                rw [hst2]
                rfl)
            rw [hlev]
            have hri2 : reasonOf ({ w with
                setStack := w.setStack.dropLast,
                checkIndex := w.setStack.dropLast.length,
                searchIndex := i + 1 } : World) ci =
              some (SetReason.assume i) := hri
            rw [hri2]
            rfl
          · exact clearCell_stateOf_self _ ci
          · intro cj hcj
            rw [hrev] at hcj
            rw [List.takeWhile_cons] at hcj
            simp only [hass] at hcj
            simp at hcj
          · intro j hja hjt
            obtain ⟨p1, p2, _, _⟩ := clearCell_proj_ne
              ({ w with
                 setStack := w.setStack.dropLast,
                 checkIndex := w.setStack.dropLast.length,
                 searchIndex := i + 1 } : World) ci j hja
            exact ⟨p1, p2⟩
      · have hassf : isAssumeOpt (reasonOf w ci) = false := by
          revert hass
          cases isAssumeOpt (reasonOf w ci) <;> simp
        have hro0 : reasonOf { w with setStack := w.setStack.dropLast } ci =
            some r0 := hro
        have hkey : World.cancel (fuel + 1) w = World.cancel fuel
            (({ w with setStack := w.setStack.dropLast }).clearCell ci) := by
          conv_lhs => unfold World.cancel
          rw [hlast]
          dsimp only
          rw [hro0]
          cases r0 with
          | assume i => rw [hro] at hassf; simp [isAssumeOpt] at hassf
          | init => rfl
          | rule c => rfl
          | sym x y => rfl
          | clause cs => rfl
          | conflict => rfl
        have hinv1 : StackInv
            (({ w with setStack := w.setStack.dropLast }).clearCell ci) :=
          stackInv_clearCell _ ci hnm0 inv0
        have hstk1 :
            (({ w with setStack := w.setStack.dropLast }).clearCell ci
              ).setStack = w.setStack.dropLast :=
          (clearCell_frame _ _).1
        have hpos : 0 < w.setStack.length := by
          cases hsz : w.setStack with
          | nil => rw [hsz] at hlast; cases hlast
          | cons x xs => simp
        have hlen1 :
            (({ w with setStack := w.setStack.dropLast }).clearCell ci
              ).setStack.length < fuel := by
          rw [hstk1, List.length_dropLast]
          omega
        obtain ⟨IH1, IH2⟩ := ih
          (({ w with setStack := w.setStack.dropLast }).clearCell ci)
          hinv1 hlen1
        have htrans : ∀ cj ∈ w.setStack.dropLast.reverse,
            (!(isAssumeOpt (reasonOf
              (({ w with setStack := w.setStack.dropLast }).clearCell ci)
              cj))) = (!(isAssumeOpt (reasonOf w cj))) := by
          intro cj hcj
          have hmem1 : cj ∈ w.setStack.dropLast := List.mem_reverse.1 hcj
          have hneci : cj ≠ ci := fun hEq => hnm0 (hEq ▸ hmem1)
          obtain ⟨_, p2, _, _⟩ := clearCell_proj_ne
            ({ w with setStack := w.setStack.dropLast } : World) ci cj hneci
          have p2' : reasonOf
              (({ w with setStack := w.setStack.dropLast }).clearCell ci) cj =
            reasonOf w cj := p2
          rw [p2']
        have hrevtrans :
            (({ w with setStack := w.setStack.dropLast }).clearCell ci
              ).setStack.reverse = w.setStack.dropLast.reverse := by
          rw [hstk1]
        have hlevel1 :
            (({ w with setStack := w.setStack.dropLast }).clearCell ci
              ).level = w.level := by
          have := clearCell_level_nonassume
            ({ w with setStack := w.setStack.dropLast } : World) ci
            (by exact hassf)
          exact this
        constructor
        · intro hdrop
          rw [hrev] at hdrop
          rw [List.dropWhile_cons] at hdrop
          simp only [hassf, Bool.not_false, if_true] at hdrop
          have hdrop1 : (({ w with setStack := w.setStack.dropLast
              }).clearCell ci).setStack.reverse.dropWhile
              (fun cj => !(isAssumeOpt (reasonOf
                (({ w with setStack := w.setStack.dropLast }).clearCell ci)
                cj))) = [] := by
            rw [hrevtrans, dropWhileCongr htrans]
            exact hdrop
          obtain ⟨w', hca, hch, hse, hstk', hlv, hall, hout⟩ := IH1 hdrop1
          have hcinot : ci ∉ (({ w with setStack := w.setStack.dropLast
              }).clearCell ci).setStack := by
            rw [hstk1]
            exact hnm0
          refine ⟨w', by rw [hkey]; exact hca, hch, hse, hstk', ?_, ?_, ?_⟩
          · rw [hlv, hlevel1]
          · intro cj hcj
            rw [← hsplit] at hcj
            rcases List.mem_append.1 hcj with hcj | hcj
            · exact hall cj (by rw [hstk1]; exact hcj)
            · rw [List.mem_singleton] at hcj
              subst hcj
              have := hout cj hcinot
              rw [this.1]
              exact clearCell_stateOf_self _ cj
          · intro j hj
            have hjd : j ∉ w.setStack.dropLast := by
              intro hmem1
              exact hj (by rw [← hsplit]; exact List.mem_append_left _ hmem1)
            have hjci : j ≠ ci := by
              intro hEq
              exact hj (hEq ▸ hmem)
            have hj1 : j ∉ (({ w with setStack := w.setStack.dropLast
                }).clearCell ci).setStack := by
              rw [hstk1]
              exact hjd
            obtain ⟨q1, q2⟩ := hout j hj1
            obtain ⟨p1, p2, _, _⟩ := clearCell_proj_ne
              ({ w with setStack := w.setStack.dropLast } : World) ci j hjci
            exact ⟨q1.trans p1, q2.trans p2⟩
        · intro a rest hdrop
          rw [hrev] at hdrop
          rw [List.dropWhile_cons] at hdrop
          simp only [hassf, Bool.not_false, if_true] at hdrop
          have hdrop1 : (({ w with setStack := w.setStack.dropLast
              }).clearCell ci).setStack.reverse.dropWhile
              (fun cj => !(isAssumeOpt (reasonOf
                (({ w with setStack := w.setStack.dropLast }).clearCell ci)
                cj))) = a :: rest := by
            rw [hrevtrans, dropWhileCongr htrans]
            exact hdrop
          obtain ⟨i, s, w', hreas, hstt, hca, hstk', hch, hse, hlv, hsa,
            htw, hout⟩ := IH2 a rest hdrop1
          have hamem : a ∈ w.setStack.dropLast := by
            have h1 : a ∈ w.setStack.dropLast.reverse.dropWhile
                (fun ci => !(isAssumeOpt (reasonOf w ci))) := by
              rw [hdrop]
              exact List.mem_cons_self a rest
            exact List.mem_reverse.1
              ((List.dropWhile_sublist _).subset h1)
          have haci : a ≠ ci := fun hEq => hnm0 (hEq ▸ hamem)
          obtain ⟨pa1, pa2, _, _⟩ := clearCell_proj_ne
            ({ w with setStack := w.setStack.dropLast } : World) ci a haci
          have hcinot : ci ∉ (({ w with setStack := w.setStack.dropLast
              }).clearCell ci).setStack := by
            rw [hstk1]
            exact hnm0
          have htwtrans : (({ w with setStack := w.setStack.dropLast
              }).clearCell ci).setStack.reverse.takeWhile
              (fun cj => !(isAssumeOpt (reasonOf
                (({ w with setStack := w.setStack.dropLast }).clearCell ci)
                cj))) = w.setStack.dropLast.reverse.takeWhile
              (fun ci => !(isAssumeOpt (reasonOf w ci))) := by
            rw [hrevtrans, takeWhileCongr htrans]
          have htww : w.setStack.reverse.takeWhile
              (fun ci => !(isAssumeOpt (reasonOf w ci))) =
              ci :: w.setStack.dropLast.reverse.takeWhile
                (fun ci => !(isAssumeOpt (reasonOf w ci))) := by
            rw [hrev, List.takeWhile_cons]
            simp only [hassf, Bool.not_false, if_true]
          refine ⟨i, s, w', pa2.symm.trans hreas, pa1.symm.trans hstt,
            by rw [hkey]; exact hca, hstk', hch, hse, ?_, hsa, ?_, ?_⟩
          · rw [hlv, hlevel1]
          · intro cj hcj
            rw [htww] at hcj
            rcases List.mem_cons.1 hcj with hcj | hcj
            · rw [hcj]
              have hcjnot : ci ∉ (({ w with
                  setStack := w.setStack.dropLast }).clearCell ci
                  ).setStack.reverse.takeWhile
                  (fun x => !(isAssumeOpt (reasonOf
                    (({ w with setStack := w.setStack.dropLast
                      }).clearCell ci) x))) := by
                intro hmem1
                exact hcinot (List.mem_reverse.1
                  ((List.takeWhile_sublist _).subset hmem1))
              obtain ⟨q1, _⟩ := hout ci haci.symm hcjnot
              rw [q1]
              exact clearCell_stateOf_self _ ci
            · exact htw cj (by rw [htwtrans]; exact hcj)
          · intro j hja hjt
            rw [htww] at hjt
            have hjci : j ≠ ci := by
              intro hEq
              exact hjt (hEq ▸ List.mem_cons_self ci _)
            have hjt1 : j ∉ (({ w with setStack := w.setStack.dropLast
                }).clearCell ci).setStack.reverse.takeWhile
                (fun x => !(isAssumeOpt (reasonOf
                  (({ w with setStack := w.setStack.dropLast
                    }).clearCell ci) x))) := by
              rw [htwtrans]
              intro hmem1
              exact hjt (List.mem_cons_of_mem ci hmem1)
            obtain ⟨q1, q2⟩ := hout j hja hjt1
            obtain ⟨p1, p2, _, _⟩ := clearCell_proj_ne
              ({ w with setStack := w.setStack.dropLast } : World) ci j hjci
            exact ⟨q1.trans p1, q2.trans p2⟩

/-- Witness for C5: on the concrete world `wAssumed`, whose stack holds
the single assumed cell 0, `cancel` pops it, resets the cursors, clears
it, drops the decision level and returns the cell with its state. -/
theorem C5_cancel_behavior_witness :
    ∃ i s w', reasonOf wAssumed 0 = some (SetReason.assume i) ∧
      stateOf wAssumed 0 = some s ∧
      World.cancel 2 wAssumed = some (w', some (0, s)) ∧
      w'.setStack = List.reverse [] ∧
      w'.checkIndex = List.length ([] : List Nat) ∧
      w'.searchIndex = i + 1 ∧ w'.level = wAssumed.level - 1 ∧
      stateOf w' 0 = none ∧
      (∀ cj ∈ wAssumed.setStack.reverse.takeWhile
          (fun ci => !(isAssumeOpt (reasonOf wAssumed ci))),
        stateOf w' cj = none) ∧
      (∀ j, j ≠ 0 → j ∉ wAssumed.setStack.reverse.takeWhile
          (fun ci => !(isAssumeOpt (reasonOf wAssumed ci))) →
        stateOf w' j = stateOf wAssumed j ∧
          reasonOf w' j = reasonOf wAssumed j) :=
  (C5_cancel_behavior 2 wAssumed
    (by
      refine ⟨by decide, ?_⟩
      intro ci hci
      have hci0 : ci = 0 := by
        have h0 : wAssumed.setStack = [0] := rfl
        rw [h0, List.mem_singleton] at hci
        exact hci
      rw [hci0]
      exact ⟨rfl, rfl⟩)
    (by decide)).2 0 [] (by decide)

/-- C1 (amended): when `analyze` is reached with a premise-carrying
conflict reason (`Rule` or `Sym`) and the cell popped from `set_stack`
has reason `Assume(i)`, then — regardless of the counter — `analyze`
sets `check_index` to the remaining stack length and `search_index` to
`i + 1`, records the cell's current state, clears the cell, and
immediately retries the cell with the opposite state justified by
`SetReason::Conflict`; it performs no backjump and learns no clause,
and it returns `true` if that `set_cell` succeeds, falling back to
`backup` otherwise (`search.rs`, lines 146-159). -/
theorem C1_analyze_assume (fuel : Nat) (w : World) (r : ConflReason)
    (ci i : Nat) (s : State)
    (hprem : r.hasPremises = true)
    (htop : w.setStack.getLast? = some ci)
    (hreas : reasonOf w ci = some (SetReason.assume i))
    (hstate : stateOf w ci = some s) :
    w.analyze (fuel + 1) r =
      (let w1 := ({ w with
          setStack := w.setStack.dropLast,
          checkIndex := w.setStack.dropLast.length,
          searchIndex := i + 1 }).clearCell ci
       let p := w1.setCell ci s.not SetReason.conflict
       if p.2.isNone then some (p.1, true) else World.backup fuel p.1) := by
  have hreas0 : reasonOf { w with setStack := w.setStack.dropLast } ci =
      some (SetReason.assume i) := hreas
  have hstate0 : stateOf { w with setStack := w.setStack.dropLast } ci =
      some s := hstate
  cases r with
  | cellCount => cases hprem
  | conflict => cases hprem
  | succeed => cases hprem
  | rule c =>
    show World.analyzeLoop (fuel + 1) w (toLitsConfl w (.rule c)) [] 0 0 = _
    unfold World.analyzeLoop
    rw [htop]
    dsimp only
    rw [hreas0]
    dsimp only
    rw [hstate0]
  | sym c s2 =>
    show World.analyzeLoop (fuel + 1) w (toLitsConfl w (.sym c s2)) [] 0 0 = _
    unfold World.analyzeLoop
    rw [htop]
    dsimp only
    rw [hreas0]
    dsimp only
    rw [hstate0]

/-- Witness for C1's amended theorem at the concrete world `wAssumed`
and the premise-carrying conflict `Sym(0, 1)`. -/
theorem C1_analyze_assume_witness :
    wAssumed.analyze 2 (ConflReason.sym 0 1) =
      (let w1 := ({ wAssumed with
          setStack := wAssumed.setStack.dropLast,
          checkIndex := wAssumed.setStack.dropLast.length,
          searchIndex := 0 + 1 }).clearCell 0
       let p := w1.setCell 0 State.alive.not SetReason.conflict
       if p.2.isNone then some (p.1, true) else World.backup 1 p.1) :=
  C1_analyze_assume 1 wAssumed (ConflReason.sym 0 1) 0 0 State.alive
    rfl rfl rfl rfl

/-- C1 (counterexample): at the concrete world `wAssumed`, with the
premise-carrying conflict `Sym(0, 1)`, the popped cell has reason
`Assume(0)` and the counter equals 1 (cell 0 is the only literal at the
current decision level), so the claim predicts a retry justified by a
learnt clause `Clause(learnt)`; the code instead records
`SetReason::Conflict` on the retried cell (a different constructor than
any `Clause(...)`), returning `true`. -/
theorem C1_claim_counterexample :
    (wAssumed.analyze 2 (ConflReason.sym 0 1)).map
        (fun p => (p.2, reasonOf p.1 0, stateOf p.1 0)) =
      some (true, some SetReason.conflict, some State.dead) := by
  decide

/-- `cancel` returns the exhausted-stack answer only with an empty stack
and reset cursors. -/
theorem cancel_none_post (fuel : Nat) (w w1 : World)
    (h : World.cancel fuel w = some (w1, none)) :
    w1.setStack = [] ∧ w1.checkIndex = 0 ∧ w1.searchIndex = 0 := by
  induction fuel generalizing w with
  | zero => cases h
  | succ fuel ih =>
    rw [World.cancel] at h
    cases hlast : w.setStack.getLast? with
    | none =>
      rw [hlast] at h
      injection h with h'
      have hw1 : w1 = { w with checkIndex := 0, searchIndex := 0 } := by
        have := congrArg Prod.fst h'
        exact this.symm
      subst hw1
      exact ⟨List.getLast?_eq_none_iff.1 hlast, rfl, rfl⟩
    | some ci =>
      rw [hlast] at h
      dsimp only at h
      cases hreas : reasonOf { w with setStack := w.setStack.dropLast } ci with
      | none => rw [hreas] at h; cases h
      | some r =>
        rw [hreas] at h
        cases r with
        | assume i =>
          dsimp only at h
          cases hst :
              stateOf { w with setStack := w.setStack.dropLast } ci with
          | none => rw [hst] at h; cases h
          | some s =>
            rw [hst] at h
            dsimp only at h
            injection h with h'
            have := congrArg Prod.snd h'
            cases this
        | init => exact ih _ h
        | rule c => exact ih _ h
        | sym a b => exact ih _ h
        | clause cs => exact ih _ h
        | conflict => exact ih _ h

/-- `backup` answers `false` only with an empty stack and reset
cursors. -/
theorem backup_false_post (fuel : Nat) (w w1 : World)
    (h : World.backup fuel w = some (w1, false)) :
    w1.setStack = [] ∧ w1.checkIndex = 0 ∧ w1.searchIndex = 0 := by
  induction fuel generalizing w with
  | zero => cases h
  | succ fuel ih =>
    rw [World.backup] at h
    cases hc : World.cancel (fuel + 1) w with
    | none => rw [hc] at h; cases h
    | some p =>
      rw [hc] at h
      obtain ⟨w2, res⟩ := p
      cases res with
      | none =>
        dsimp only at h
        injection h with h'
        injection h' with h1 h2
        rw [← h1]
        exact cancel_none_post (fuel + 1) w w2 hc
      | some pr =>
        obtain ⟨ci, s⟩ := pr
        dsimp only at h
        by_cases hnone : (w2.setCell ci s.not SetReason.conflict).2.isNone
        · rw [if_pos hnone] at h
          injection h with h'
          have := congrArg Prod.snd h'
          cases this
        · rw [if_neg hnone] at h
          exact ih _ h

/-- A `some` result of the `set_max_cell_count` loop either meets the
bound or has exhausted the stack through a failing `backup`. -/
theorem setMaxCellCountLoop_post (fuel : Nat) (w w' : World) (max : Nat)
    (h : World.setMaxCellCountLoop fuel w max = some w') :
    (∀ mn, w'.cellCount.min? = some mn → mn ≤ max) ∨
      (w'.setStack = [] ∧ w'.checkIndex = 0 ∧ w'.searchIndex = 0) := by
  induction fuel generalizing w with
  | zero => cases h
  | succ fuel ih =>
    rw [World.setMaxCellCountLoop] at h
    cases hmn : w.cellCount.min? with
    | none => rw [hmn] at h; cases h
    | some mn =>
      rw [hmn] at h
      dsimp only at h
      by_cases hgt : mn > max
      · rw [if_pos hgt] at h
        cases hb : World.backup (fuel + 1) w with
        | none => rw [hb] at h; cases h
        | some p =>
          rw [hb] at h
          obtain ⟨w1, ok⟩ := p
          cases ok with
          | false =>
            dsimp only at h
            injection h with h'
            rw [← h']
            exact Or.inr (backup_false_post (fuel + 1) w w1 hb)
          | true => exact ih _ h
      · rw [if_neg hgt] at h
        injection h with h'
        subst h'
        refine Or.inl fun mn' hmn' => ?_
        rw [hmn] at hmn'
        injection hmn' with h''
        omega

/-- C9: after `set_max_cell_count(Some(max))` succeeds, either every
generation count's minimum is at most `max`, or `backup` has answered
`false`, leaving an empty `set_stack` with both cursors reset; the call
with `None` merely replaces the bound and changes nothing else
(`search.rs`, lines 339-348). -/
theorem C9_set_max_cell_count (fuel : Nat) (w w' : World) (max : Nat)
    (h : World.setMaxCellCount fuel w (some max) = some w') :
    ((∀ mn, w'.cellCount.min? = some mn → mn ≤ max) ∨
      (w'.setStack = [] ∧ w'.checkIndex = 0 ∧ w'.searchIndex = 0)) ∧
    World.setMaxCellCount fuel w none =
      some { w with maxCellCount := none } := by
  refine ⟨?_, rfl⟩
  exact setMaxCellCountLoop_post fuel { w with maxCellCount := some max }
    w' max h

/-- Witness for C9 at the concrete world `wAssumed` with bound 5: the
minimum count 1 already meets the bound, so the loop stops at once. -/
theorem C9_set_max_cell_count_witness :
    ((∀ mn, ({ wAssumed with maxCellCount := some 5 } :
        World).cellCount.min? = some mn → mn ≤ 5) ∨
      (({ wAssumed with maxCellCount := some 5 } : World).setStack = [] ∧
        ({ wAssumed with maxCellCount := some 5 } : World).checkIndex = 0 ∧
        ({ wAssumed with maxCellCount := some 5 } :
          World).searchIndex = 0)) ∧
    World.setMaxCellCount 1 wAssumed none =
      some { wAssumed with maxCellCount := none } :=
  C9_set_max_cell_count 1 wAssumed
    { wAssumed with maxCellCount := some 5 } 5 rfl

/-- An optional lookup in a list succeeds exactly in bounds. -/
theorem isSome_getElemQ {α : Type} (l : List α) (i : Nat) :
    (l[i]?).isSome = true ↔ i < l.length := by
  rcases Nat.lt_or_ge i l.length with hl | hl
  · simp only [List.getElem?_eq_getElem hl, Option.isSome_some, true_iff]
    exact hl
  · simp only [List.getElem?_eq_none hl, Option.isSome_none,
      Bool.false_eq_true, false_iff]
    omega

/-- C10: `Search::cell_count(t)` casts the signed generation `t` to
`usize` and indexes the count vector; when the vector has one entry per
generation and the period fits an `isize`, the lookup is in bounds
exactly when `0 ≤ t < period`, and every other `t` in the `isize` range
panics out of bounds (`search.rs`, lines 331-333). -/
theorem C10_cell_count (w : World) (t : Int)
    (hlen : w.cellCount.length = w.period)
    (hper : 1 ≤ w.period) (hper2 : w.period ≤ 2 ^ 63)
    (ht1 : -(2 ^ 63) ≤ t) (ht2 : t < 2 ^ 63) :
    (w.cellCountAt t).isSome ↔ 0 ≤ t ∧ t < (w.period : Int) := by
  unfold World.cellCountAt
  rw [isSome_getElemQ, hlen]
  omega

/-- Witness for C10 at `wAssumed` (period 1, one count entry) and
generation 0: the lookup is in bounds. -/
theorem C10_cell_count_witness :
    (wAssumed.cellCountAt 0).isSome ↔
      (0 : Int) ≤ 0 ∧ (0 : Int) < (wAssumed.period : Int) :=
  C10_cell_count wAssumed 0 (by decide) (by decide) (by decide)
    (by decide) (by decide)

/-- C3 (amended): `Config::set_world` validates nothing but the rule
string — its outcome depends only on `rule_string`, it fails exactly
when both the `Life` parser and the fallback parser reject the string,
and it succeeds for every config whose rule string is a valid `Life`
rule, even one whose transform or symmetry demands a square world while
width ≠ height, or whose width, height or period is non-positive
(`config.rs`, lines 443-450). -/
theorem C3_set_world_errors (ntParse : String → Except String Unit)
    (cfg cfg' : Config) (hrs : cfg.ruleString = cfg'.ruleString) :
    Config.setWorld ntParse cfg = Config.setWorld ntParse cfg' ∧
    (∀ e, Config.setWorld ntParse cfg = Except.error e →
      lifeParses cfg.ruleString = false ∧
      ntParse cfg.ruleString = Except.error e) ∧
    (lifeParses cfg.ruleString = true →
      Config.setWorld ntParse cfg = Except.ok ()) := by
  refine ⟨?_, ?_, ?_⟩
  · unfold Config.setWorld
    rw [hrs]
  · intro e he
    unfold Config.setWorld at he
    by_cases hp : lifeParses cfg.ruleString = true
    · rw [if_pos hp] at he
      cases he
    · rw [if_neg hp] at he
      exact ⟨Bool.eq_false_iff.2 hp, he⟩
  · intro hp
    unfold Config.setWorld
    rw [if_pos hp]

/-- Witness for C3's amended theorem: the two deliberately ill-shaped
configurations share the rule string `B3/S23`, so `set_world` treats
them identically and accepts both. -/
theorem C3_set_world_errors_witness :
    Config.setWorld ntParseNone cfgBadSquare =
        Config.setWorld ntParseNone cfgBadSize ∧
    (∀ e, Config.setWorld ntParseNone cfgBadSquare = Except.error e →
      lifeParses cfgBadSquare.ruleString = false ∧
      ntParseNone cfgBadSquare.ruleString = Except.error e) ∧
    (lifeParses cfgBadSquare.ruleString = true →
      Config.setWorld ntParseNone cfgBadSquare = Except.ok ()) :=
  C3_set_world_errors ntParseNone cfgBadSquare cfgBadSize rfl

/-- C3 (counterexample): `cfgBadSquare` has a square-demanding transform
on a 3 × 4 world and `cfgBadSize` has non-positive width, height and
period, yet `set_world` accepts both because their rule string `B3/S23`
parses — it never checks the geometry, refuting the claim that every
such config is rejected. -/
theorem C3_claim_counterexample :
    cfgBadSquare.transform.squareWorld = true ∧
    cfgBadSquare.width ≠ cfgBadSquare.height ∧
    Config.setWorld ntParseNone cfgBadSquare = Except.ok () ∧
    cfgBadSize.width ≤ 0 ∧ cfgBadSize.height ≤ 0 ∧ cfgBadSize.period ≤ 0 ∧
    Config.setWorld ntParseNone cfgBadSize = Except.ok () := by
  refine ⟨rfl, by decide, ?_, by decide, by decide, by decide, ?_⟩ <;>
    rfl

/-- Replaying a concatenation replays the prefix and continues from its
resulting world. -/
theorem replay_append (w : World) (l1 l2 : List SetCellSer) :
    replay w (l1 ++ l2) =
      match replay w l1 with
      | Except.ok w' => replay w' l2
      | Except.error c => Except.error c := by
  induction l1 generalizing w with
  | nil => rfl
  | cons e rest ih =>
    have h1 : replay w ((e :: rest) ++ l2) =
        (match w.findCell e.coord with
         | none => Except.error e.coord
         | some ci =>
           match stateOf w ci with
           | some old =>
             if old = e.state then replay w (rest ++ l2)
             else Except.error e.coord
           | none =>
             replay (w.setCell ci e.state e.reason).1 (rest ++ l2)) := rfl
    have h2 : replay w (e :: rest) =
        (match w.findCell e.coord with
         | none => Except.error e.coord
         | some ci =>
           match stateOf w ci with
           | some old =>
             if old = e.state then replay w rest
             else Except.error e.coord
           | none =>
             replay (w.setCell ci e.state e.reason).1 rest) := rfl
    rw [h1, h2]
    cases hfc : w.findCell e.coord with
    | none => rfl
    | some ci =>
      dsimp only
      cases hst : stateOf w ci with
      | none => exact ih _
      | some old =>
        dsimp only
        by_cases he : old = e.state
        · rw [if_pos he, if_pos he]
          exact ih _
        · rw [if_neg he, if_neg he]

/-- A replay error comes from a first faulty entry: the saved stack
splits into a successfully replayed prefix and an entry whose coordinate
is missing or whose cell already disagrees. -/
theorem replay_error_split (l : List SetCellSer) (w : World)
    (c : Int × Int × Int) (h : replay w l = Except.error c) :
    ∃ pre e post w1, l = pre ++ e :: post ∧ e.coord = c ∧
      replay w pre = Except.ok w1 ∧
      (w1.findCell e.coord = none ∨
        ∃ ci old, w1.findCell e.coord = some ci ∧
          stateOf w1 ci = some old ∧ old ≠ e.state) := by
  induction l generalizing w with
  | nil => cases h
  | cons e rest ih =>
    unfold replay at h
    cases hfc : w.findCell e.coord with
    | none =>
      rw [hfc] at h
      injection h with h'
      exact ⟨[], e, rest, w, rfl, h', rfl, Or.inl hfc⟩
    | some ci =>
      rw [hfc] at h
      dsimp only at h
      cases hst : stateOf w ci with
      | none =>
        rw [hst] at h
        obtain ⟨pre, e', post, w1, hsplit, hcoord, hpre, hfail⟩ := ih _ h
        refine ⟨e :: pre, e', post, w1, by simp [hsplit], hcoord, ?_, hfail⟩
        show replay w (e :: pre) = Except.ok w1
        unfold replay
        rw [hfc]
        dsimp only
        rw [hst]
        exact hpre
      | some old =>
        rw [hst] at h
        dsimp only at h
        by_cases he : old = e.state
        · rw [if_pos he] at h
          obtain ⟨pre, e', post, w1, hsplit, hcoord, hpre, hfail⟩ := ih _ h
          refine ⟨e :: pre, e', post, w1, by simp [hsplit], hcoord, ?_, hfail⟩
          show replay w (e :: pre) = Except.ok w1
          unfold replay
          rw [hfc]
          dsimp only
          rw [hst]
          dsimp only
          rw [if_pos he]
          exact hpre
        · rw [if_neg he] at h
          injection h with h'
          exact ⟨[], e, rest, w, rfl, h', rfl,
            Or.inr ⟨ci, old, hfc, hst, he⟩⟩

/-- C4: `WorldSer::world_with_rule` replays the saved assignments in
order on a freshly built world; success copies the saved `conflicts`,
`check_index` and `search_index` into the restored world; an error is
`SetCellError(coord)` for an entry whose coordinate is not found or
whose cell already disagrees, after a successfully replayed prefix; and
conversely any such faulty entry after a clean prefix makes restoration
fail with its coordinate (`save.rs`, lines 65-86). -/
theorem C4_worldser_restore (w0 : World) (ser : WorldSer) :
    (∀ w, worldWithRule w0 ser = Except.ok w →
      w.conflicts = ser.conflicts ∧ w.checkIndex = ser.checkIndex ∧
        w.searchIndex = ser.searchIndex) ∧
    (∀ c, worldWithRule w0 ser = Except.error c →
      ∃ pre e post w1, ser.setStack = pre ++ e :: post ∧ e.coord = c ∧
        replay w0 pre = Except.ok w1 ∧
        (w1.findCell e.coord = none ∨
          ∃ ci old, w1.findCell e.coord = some ci ∧
            stateOf w1 ci = some old ∧ old ≠ e.state)) ∧
    (∀ pre e post w1, ser.setStack = pre ++ e :: post →
      replay w0 pre = Except.ok w1 →
      (w1.findCell e.coord = none ∨
        ∃ ci old, w1.findCell e.coord = some ci ∧
          stateOf w1 ci = some old ∧ old ≠ e.state) →
      worldWithRule w0 ser = Except.error e.coord) := by
  refine ⟨?_, ?_, ?_⟩
  · intro w hw
    unfold worldWithRule at hw
    cases hr : replay w0 ser.setStack with
    | error c => rw [hr] at hw; cases hw
    | ok w' =>
      rw [hr] at hw
      injection hw with hw'
      rw [← hw']
      exact ⟨rfl, rfl, rfl⟩
  · intro c hc
    unfold worldWithRule at hc
    cases hr : replay w0 ser.setStack with
    | error c' =>
      rw [hr] at hc
      injection hc with hc'
      rw [hc'] at hr
      exact replay_error_split _ _ _ hr
    | ok w' => rw [hr] at hc; cases hc
  · intro pre e post w1 hsplit hpre hfail
    unfold worldWithRule
    rw [hsplit, replay_append, hpre]
    dsimp only
    have hstep : replay w1 (e :: post) = Except.error e.coord := by
      unfold replay
      rcases hfail with hnone | ⟨ci, old, hci, hst, hne⟩
      · rw [hnone]
      · rw [hci]
        dsimp only
        rw [hst]
        dsimp only
        rw [if_neg hne]
    rw [hstep]
    rfl

/-- Witness for C4 at `wAssumed` and an empty saved stack with counters
(7, 2, 3): the replay is vacuous and the counters are copied. -/
theorem C4_worldser_restore_witness :
    ({ wAssumed with
        conflicts := 7
        checkIndex := 2
        searchIndex := 3 } : World).conflicts =
        (⟨7, [], 2, 3⟩ : WorldSer).conflicts ∧
      ({ wAssumed with
          conflicts := 7
          checkIndex := 2
          searchIndex := 3 } : World).checkIndex =
        (⟨7, [], 2, 3⟩ : WorldSer).checkIndex ∧
      ({ wAssumed with
          conflicts := 7
          checkIndex := 2
          searchIndex := 3 } : World).searchIndex =
        (⟨7, [], 2, 3⟩ : WorldSer).searchIndex :=
  (C4_worldser_restore wAssumed ⟨7, [], 2, 3⟩).1
    { wAssumed with
      conflicts := 7
      checkIndex := 2
      searchIndex := 3 }
    rfl

/-- `setCell` never changes any neighbor list. -/
theorem nbhdOf_setCell (w : World) (ci : Nat) (s : State) (r : SetReason)
    (j : Nat) : nbhdOf (w.setCell ci s r).1 j = nbhdOf w j := by
  rcases setCell_resWorld w ci s r with he | ⟨cd, hc, _, he⟩ <;> rw [he]
  rcases eq_or_ne j ci with rfl | hj
  · exact (setCellPush_self w j cd s r hc).2.2.2
  · exact (setCellPush_ne w ci cd s r j hj).2.2.2

/-- `clearCell` never changes any neighbor list. -/
theorem nbhdOf_clearCell (w : World) (ci : Nat) (j : Nat) :
    nbhdOf (w.clearCell ci) j = nbhdOf w j := by
  rcases clearCell_cases w ci with ⟨he, _⟩ | ⟨cd, s, hc, _, he⟩ <;> rw [he]
  rcases eq_or_ne j ci with rfl | hj
  · exact (clearCellGo_self w j cd s hc).2.2.2
  · exact (clearCellGo_ne w ci cd s j hj).2.2.2

/-- Neighbor fullness only depends on the neighbor lists. -/
theorem nbhdFull_transfer (w w' : World)
    (h : ∀ j, nbhdOf w' j = nbhdOf w j) (hf : NbhdFull w) : NbhdFull w' := by
  intro cd' hcd'
  obtain ⟨i, hi⟩ := List.mem_iff_getElem?.1 hcd'
  have hn' : nbhdOf w' i = some cd'.nbhd := by
    unfold nbhdOf
    rw [hi]
    rfl
  have hn : nbhdOf w i = some cd'.nbhd := (h i).symm.trans hn'
  obtain ⟨cd, hcd, hnb⟩ := cells_exists_of_nbhdOf hn
  rw [← hnb]
  obtain ⟨hlt, hcd'⟩ := List.getElem?_eq_some.1 hcd
  exact hf cd (hcd' ▸ List.getElem_mem hlt)

/-- `setCell` preserves neighbor fullness. -/
theorem nbhdFull_setCell (w : World) (ci : Nat) (s : State) (r : SetReason)
    (hf : NbhdFull w) : NbhdFull (w.setCell ci s r).1 :=
  nbhdFull_transfer w _ (fun j => nbhdOf_setCell w ci s r j) hf

/-- `clearCell` preserves neighbor fullness. -/
theorem nbhdFull_clearCell (w : World) (ci : Nat) (hf : NbhdFull w) :
    NbhdFull (w.clearCell ci) :=
  nbhdFull_transfer w _ (fun j => nbhdOf_clearCell w ci j) hf

/-- The symmetry pass preserves neighbor fullness. -/
theorem nbhdFull_symPass :
    ∀ (l : List Nat) (w : World) (ci : Nat) (st : State),
      NbhdFull w → NbhdFull (w.symPass ci st l).1 := by
  intro l
  induction l with
  | nil => intro w ci st h; exact h
  | cons sy rest ih =>
    intro w ci st h
    unfold World.symPass
    cases hs : stateOf w sy with
    | some old =>
      by_cases hne : st ≠ old
      · simp only [if_pos hne]
        exact h
      · simp only [if_neg hne]
        exact ih w ci st h
    | none =>
      simp only [hs]
      cases hres : (w.setCell sy st (.sym ci sy)).2 with
      | some r =>
        simp only
        exact nbhdFull_setCell w sy st (.sym ci sy) h
      | none =>
        simp only
        exact ih _ ci st (nbhdFull_setCell w sy st (.sym ci sy) h)

/-- `consistify` preserves neighbor fullness. -/
theorem nbhdFull_consistify (w : World) (ci : Nat) (h : NbhdFull w) :
    NbhdFull (w.consistify ci).1 := by
  simp only [World.consistify]
  cases hc : w.cells[ci]? with
  | none => exact h
  | some cd =>
    dsimp only
    cases hp : w.rule.plan cd.desc cd.state with
    | none => exact h
    | some plan =>
      dsimp only
      refine foldlPreserve
        (fun (acc : World × Option ConflReason) => NbhdFull acc.1)
        _ ?_ plan (w, none) h
      intro acc ts hacc
      obtain ⟨wa, ra⟩ := acc
      cases ra with
      | some rr => exact hacc
      | none =>
        obtain ⟨t1, t2⟩ := ts
        cases t1 with
        | self => exact nbhdFull_setCell wa ci t2 (.rule ci) hacc
        | succ =>
          dsimp only
          cases cd.succ with
          | none => exact hacc
          | some t => exact nbhdFull_setCell wa t t2 (.rule ci) hacc
        | nbhd i =>
          dsimp only
          cases (cd.nbhd[i]?).join with
          | none => exact hacc
          | some t => exact nbhdFull_setCell wa t t2 (.rule ci) hacc

/-- `consistify10Spec` preserves neighbor fullness. -/
theorem nbhdFull_consistify10Spec (w : World) (ci : Nat) (h : NbhdFull w) :
    NbhdFull (w.consistify10Spec ci).1 := by
  unfold World.consistify10Spec
  cases hc : w.cells[ci]? with
  | none => exact h
  | some cd =>
    dsimp only
    have h1 : NbhdFull (w.consistify ci).1 := nbhdFull_consistify w ci h
    cases hr1 : (w.consistify ci).2 with
    | some cr => exact h1
    | none =>
      dsimp only
      have h2 : NbhdFull (match cd.pred with
          | some pr => (w.consistify ci).1.consistify pr
          | none => ((w.consistify ci).1, none)).1 := by
        cases cd.pred with
        | some pr => exact nbhdFull_consistify _ pr h1
        | none => exact h1
      cases hr2 : (match cd.pred with
          | some pr => (w.consistify ci).1.consistify pr
          | none => ((w.consistify ci).1, none)).2 with
      | some cr => exact h2
      | none =>
        refine foldlPreserve
          (fun (acc : World × Option ConflReason) => NbhdFull acc.1)
          _ ?_ cd.nbhd _ h2
        intro acc slot hacc
        obtain ⟨wa, ra⟩ := acc
        cases ra with
        | some rr => exact hacc
        | none =>
          cases slot with
          | none => exact hacc
          | some n => exact nbhdFull_consistify wa n hacc

/-- Lifting a fold through `Option` when every element satisfies the
side condition that makes the lifted step succeed. -/
theorem foldl_lift {β γ : Type} (f : Option γ → β → Option γ)
    (g : γ → β → γ) (P : β → Prop)
    (hstep : ∀ p b, P b → f (some p) b = some (g p b)) :
    ∀ (l : List β) (p : γ), (∀ b ∈ l, P b) →
      l.foldl f (some p) = some (l.foldl g p) := by
  intro l
  induction l with
  | nil => intro p _; rfl
  | cons b rest ih =>
    intro p hl
    show rest.foldl f (f (some p) b) = _
    rw [hstep p b (hl b (List.mem_cons_self b rest))]
    exact ih (g p b) fun b' hb' => hl b' (List.mem_cons_of_mem b hb')

/-- With every neighbor slot present, `consistify10` never panics and
computes exactly the sentinel-substituting reading. -/
theorem consistify10_eq_spec (w : World) (ci : Nat) (hf : NbhdFull w) :
    w.consistify10 ci = some (w.consistify10Spec ci) := by
  unfold World.consistify10 World.consistify10Spec
  cases hc : w.cells[ci]? with
  | none => rfl
  | some cd =>
    dsimp only
    cases hr1 : (w.consistify ci).2 with
    | some cr => rfl
    | none =>
      dsimp only
      cases hr2 : (match cd.pred with
          | some pr => (w.consistify ci).1.consistify pr
          | none => ((w.consistify ci).1, none)).2 with
      | some cr => rfl
      | none =>
        have hslots : ∀ o ∈ cd.nbhd, o.isSome = true := by
          obtain ⟨hlt, he⟩ := List.getElem?_eq_some.1 hc
          exact hf cd (he ▸ List.getElem_mem hlt)
        refine foldl_lift _ _ (fun o => o.isSome = true) ?_ cd.nbhd _ hslots
        intro p slot hslot
        obtain ⟨wa, ra⟩ := p
        obtain ⟨n, rfl⟩ := Option.isSome_iff_exists.1 hslot
        cases ra <;> rfl

/-- `setCell` only ever appends to the propagation stack. -/
theorem setCell_stack (w : World) (ci : Nat) (s : State) (r : SetReason) :
    ∃ t, (w.setCell ci s r).1.setStack = w.setStack ++ t := by
  rcases setCell_resWorld w ci s r with he | ⟨cd, hc, _, he⟩
  · exact ⟨[], by rw [he, List.append_nil]⟩
  · exact ⟨[ci], by rw [he, (setCellPush_fields w ci cd s r).1]⟩

/-- The symmetry pass only appends to the stack and fixes the check
cursor. -/
theorem symPass_stack :
    ∀ (l : List Nat) (w : World) (ci : Nat) (st : State),
      ∃ t, (w.symPass ci st l).1.setStack = w.setStack ++ t ∧
        (w.symPass ci st l).1.checkIndex = w.checkIndex := by
  intro l
  induction l with
  | nil =>
    intro w ci st
    refine ⟨[], ?_, rfl⟩
    show w.setStack = w.setStack ++ []
    simp
  | cons sy rest ih =>
    intro w ci st
    unfold World.symPass
    cases hs : stateOf w sy with
    | some old =>
      by_cases hne : st ≠ old
      · simp only [if_pos hne]
        refine ⟨[], ?_, ?_⟩ <;> simp
      · simp only [if_neg hne]
        exact ih w ci st
    | none =>
      simp only [hs]
      obtain ⟨t1, ht1⟩ := setCell_stack w sy st (.sym ci sy)
      have hck : (w.setCell sy st (.sym ci sy)).1.checkIndex =
          w.checkIndex := (setCell_frame w sy st (.sym ci sy)).1
      cases hres : (w.setCell sy st (.sym ci sy)).2 with
      | some r =>
        simp only
        exact ⟨t1, ht1, hck⟩
      | none =>
        simp only
        obtain ⟨t2, ht2, hck2⟩ := ih (w.setCell sy st (.sym ci sy)).1 ci st
        exact ⟨t1 ++ t2,
          by rw [ht2, ht1, List.append_assoc], hck2.trans hck⟩

/-- `consistify` only appends to the stack and fixes the check cursor. -/
theorem consistify_stack (w : World) (ci : Nat) :
    ∃ t, (w.consistify ci).1.setStack = w.setStack ++ t ∧
      (w.consistify ci).1.checkIndex = w.checkIndex := by
  simp only [World.consistify]
  cases hc : w.cells[ci]? with
  | none => exact ⟨[], by simp, rfl⟩
  | some cd =>
    dsimp only
    cases hp : w.rule.plan cd.desc cd.state with
    | none => exact ⟨[], by simp, rfl⟩
    | some plan =>
      dsimp only
      refine foldlPreserve
        (fun (acc : World × Option ConflReason) =>
          ∃ t, acc.1.setStack = w.setStack ++ t ∧
            acc.1.checkIndex = w.checkIndex)
        _ ?_ plan (w, none)
        ⟨[], by simp, rfl⟩
      intro acc ts hacc
      obtain ⟨wa, ra⟩ := acc
      obtain ⟨t1, ht1, hck1⟩ := hacc
      cases ra with
      | some rr => exact ⟨t1, ht1, hck1⟩
      | none =>
        obtain ⟨t1', ht1', hck1'⟩ :
            ∃ t, (wa, (none : Option ConflReason)).1.setStack =
              w.setStack ++ t ∧
            (wa, (none : Option ConflReason)).1.checkIndex = w.checkIndex :=
          ⟨t1, ht1, hck1⟩
        have t2x : ∀ tgt : Option Nat,
            ∃ t, ((match tgt with
              | none => (wa, (none : Option ConflReason))
              | some t => wa.setCell t ts.2 (.rule ci))).1.setStack =
                w.setStack ++ t ∧
              ((match tgt with
                | none => (wa, (none : Option ConflReason))
                | some t => wa.setCell t ts.2 (.rule ci))).1.checkIndex =
                w.checkIndex := by
          intro tgt
          cases tgt with
          | none => exact ⟨t1, ht1, hck1⟩
          | some tg =>
            obtain ⟨t2, ht2⟩ := setCell_stack wa tg ts.2 (.rule ci)
            refine ⟨t1 ++ t2, ?_, ?_⟩
            · rw [ht2, ht1, List.append_assoc]
            · exact ((setCell_frame wa tg ts.2 (.rule ci)).1).trans hck1
        obtain ⟨t1x, t2y⟩ := ts
        cases t1x with
        | self => exact t2x (some ci)
        | succ =>
          dsimp only
          exact t2x cd.succ
        | nbhd i =>
          dsimp only
          exact t2x ((cd.nbhd[i]?).join)

/-- `consistify10Spec` only appends to the stack and fixes the check
cursor. -/
theorem consistify10Spec_stack (w : World) (ci : Nat) :
    ∃ t, (w.consistify10Spec ci).1.setStack = w.setStack ++ t ∧
      (w.consistify10Spec ci).1.checkIndex = w.checkIndex := by
  unfold World.consistify10Spec
  cases hc : w.cells[ci]? with
  | none => exact ⟨[], by simp, rfl⟩
  | some cd =>
    dsimp only
    obtain ⟨t1, ht1, hck1⟩ := consistify_stack w ci
    cases hr1 : (w.consistify ci).2 with
    | some cr => exact ⟨t1, ht1, hck1⟩
    | none =>
      dsimp only
      have h2 : ∃ t, (match cd.pred with
          | some pr => (w.consistify ci).1.consistify pr
          | none => ((w.consistify ci).1, none)).1.setStack =
            w.setStack ++ t ∧
          (match cd.pred with
          | some pr => (w.consistify ci).1.consistify pr
          | none => ((w.consistify ci).1, none)).1.checkIndex =
            w.checkIndex := by
        cases cd.pred with
        | some pr =>
          obtain ⟨t2, ht2, hck2⟩ := consistify_stack (w.consistify ci).1 pr
          exact ⟨t1 ++ t2, by rw [ht2, ht1, List.append_assoc],
            hck2.trans hck1⟩
        | none => exact ⟨t1, ht1, hck1⟩
      obtain ⟨t2, ht2, hck2⟩ := h2
      cases hr2 : (match cd.pred with
          | some pr => (w.consistify ci).1.consistify pr
          | none => ((w.consistify ci).1, none)).2 with
      | some cr => exact ⟨t2, ht2, hck2⟩
      | none =>
        refine foldlPreserve
          (fun (acc : World × Option ConflReason) =>
            ∃ t, acc.1.setStack = w.setStack ++ t ∧
              acc.1.checkIndex = w.checkIndex)
          _ ?_ cd.nbhd _ ⟨t2, ht2, hck2⟩
        intro acc slot hacc
        obtain ⟨wa, ra⟩ := acc
        obtain ⟨t3, ht3, hck3⟩ := hacc
        cases ra with
        | some rr => exact ⟨t3, ht3, hck3⟩
        | none =>
          cases slot with
          | none => exact ⟨t3, ht3, hck3⟩
          | some n =>
            obtain ⟨t4, ht4, hck4⟩ := consistify_stack wa n
            exact ⟨t3 ++ t4, by rw [ht4, ht3, List.append_assoc],
              hck4.trans hck3⟩

/-- On a world whose neighbor slots are all present, `proceed` computes
exactly its sentinel-substituting specification. -/
theorem proceed_eq_spec :
    ∀ (fuel : Nat) (w : World), NbhdFull w →
      World.proceed fuel w = World.proceedSpec fuel w := by
  intro fuel
  induction fuel with
  | zero => intro w _; rfl
  | succ fuel ih =>
    intro w hf
    simp only [World.proceed, World.proceedSpec]
    cases hidx : w.setStack[w.checkIndex]? with
    | none => rfl
    | some ci =>
      dsimp only
      cases hst : stateOf w ci with
      | none => rfl
      | some st =>
        dsimp only
        cases hc : w.cells[ci]? with
        | none =>
          dsimp only
          rw [consistify10_eq_spec w ci hf]
          cases hcs : w.consistify10Spec ci with
          | mk w2 r2 =>
            dsimp only
            cases r2 with
            | some cr => rfl
            | none =>
              have h2 : NbhdFull w2 := by
                have := nbhdFull_consistify10Spec w ci hf
                rw [hcs] at this
                exact this
              have h2' : NbhdFull
                  ({ w2 with checkIndex := w2.checkIndex + 1 } : World) := h2
              exact ih _ h2'
        | some cd =>
          dsimp only
          have hfs : NbhdFull (w.symPass ci st cd.sym).1 :=
            nbhdFull_symPass cd.sym w ci st hf
          cases hs2 : (w.symPass ci st cd.sym).2 with
          | some cr => rfl
          | none =>
            rw [consistify10_eq_spec (w.symPass ci st cd.sym).1 ci hfs]
            cases hcs : (w.symPass ci st cd.sym).1.consistify10Spec ci with
            | mk w2 r2 =>
              dsimp only
              cases r2 with
              | some cr => rfl
              | none =>
                have h2 : NbhdFull w2 := by
                  have := nbhdFull_consistify10Spec
                    (w.symPass ci st cd.sym).1 ci hfs
                  rw [hcs] at this
                  exact this
                have h2' : NbhdFull
                    ({ w2 with checkIndex := w2.checkIndex + 1 } : World) :=
                  h2
                exact ih _ h2'

/-- When the check cursor starts within the stack, a conflict-free
`proceedSpec` drives it exactly to the stack length. -/
theorem proceedSpec_drains :
    ∀ (fuel : Nat) (w w' : World), w.checkIndex ≤ w.setStack.length →
      World.proceedSpec fuel w = some (w', none) →
      w'.checkIndex = w'.setStack.length := by
  intro fuel
  induction fuel with
  | zero => intro w w' _ h; cases h
  | succ fuel ih =>
    intro w w' hle h
    simp only [World.proceedSpec] at h
    cases hidx : w.setStack[w.checkIndex]? with
    | none =>
      rw [hidx] at h
      injection h with h'
      injection h' with ha hb
      rw [← ha]
      have hlen := List.getElem?_eq_none_iff.1 hidx
      omega
    | some ci =>
      rw [hidx] at h
      dsimp only at h
      have hlt : w.checkIndex < w.setStack.length :=
        (List.getElem?_eq_some.1 hidx).1
      cases hst : stateOf w ci with
      | none => rw [hst] at h; cases h
      | some st =>
        rw [hst] at h
        dsimp only at h
        cases hc : w.cells[ci]? with
        | none =>
          rw [hc] at h
          dsimp only at h
          obtain ⟨t2, ht2, hck2⟩ := consistify10Spec_stack w ci
          cases hr2 : (w.consistify10Spec ci).2 with
          | some cr =>
            rw [hr2] at h
            injection h with h'
            injection h' with ha hb
            cases hb
          | none =>
            rw [hr2] at h
            refine ih _ w' ?_ h
            show (w.consistify10Spec ci).1.checkIndex + 1 ≤
              (w.consistify10Spec ci).1.setStack.length
            rw [hck2, ht2, List.length_append]
            omega
        | some cd =>
          rw [hc] at h
          dsimp only at h
          obtain ⟨t1, ht1, hck1⟩ := symPass_stack cd.sym w ci st
          cases hs2 : (w.symPass ci st cd.sym).2 with
          | some cr =>
            rw [hs2] at h
            injection h with h'
            injection h' with ha hb
            cases hb
          | none =>
            rw [hs2] at h
            dsimp only at h
            obtain ⟨t2, ht2, hck2⟩ :=
              consistify10Spec_stack (w.symPass ci st cd.sym).1 ci
            cases hr2 :
                ((w.symPass ci st cd.sym).1.consistify10Spec ci).2 with
            | some cr =>
              rw [hr2] at h
              injection h with h'
              injection h' with ha hb
              cases hb
            | none =>
              rw [hr2] at h
              refine ih _ w' ?_ h
              show ((w.symPass ci st cd.sym).1.consistify10Spec
                  ci).1.checkIndex + 1 ≤
                ((w.symPass ci st cd.sym).1.consistify10Spec
                  ci).1.setStack.length
              rw [hck2, hck1, ht2, ht1]
              rw [List.append_assoc, List.length_append]
              omega

/-- C2: on a world whose neighbor slots are all filled (as the builder
guarantees through the background sentinel), `proceed` computes exactly
its specification — processing `set_stack` from `check_index` upward,
raising `Sym(c, s)` on a disagreeing known partner, setting unknown
partners with a `Sym` reason, then consistifying the cell, its
predecessor when present and its eight neighbors — and a conflict-free
return has driven `check_index` exactly to the stack length
(`search.rs`, lines 44-53 and 58-80). -/
theorem C2_proceed (fuel : Nat) (w : World) (hf : NbhdFull w)
    (hle : w.checkIndex ≤ w.setStack.length) :
    World.proceed fuel w = World.proceedSpec fuel w ∧
    ∀ w', World.proceed fuel w = some (w', none) →
      w'.checkIndex = w'.setStack.length := by
  have heq := proceed_eq_spec fuel w hf
  refine ⟨heq, ?_⟩
  intro w' h
  rw [heq] at h
  exact proceedSpec_drains fuel w w' hle h

/-- Witness for C2 on the concrete world `wLoop`, whose single cell is
fully wired to itself: `proceed` drains the one-cell stack. -/
theorem C2_proceed_witness :
    World.proceed 2 wLoop = World.proceedSpec 2 wLoop ∧
    ({ wLoop with checkIndex := 1 } : World).checkIndex =
      ({ wLoop with checkIndex := 1 } : World).setStack.length :=
  ⟨(C2_proceed 2 wLoop
      (by
        have hb : wLoop.cells.all
            (fun cd => cd.nbhd.all (fun o => o.isSome)) = true := by decide
        intro cd hcd o ho
        exact List.all_eq_true.1 (List.all_eq_true.1 hb cd hcd) o ho)
      (by decide)).1,
    (C2_proceed 2 wLoop
      (by
        have hb : wLoop.cells.all
            (fun cd => cd.nbhd.all (fun o => o.isSome)) = true := by decide
        intro cd hcd o ho
        exact List.all_eq_true.1 (List.all_eq_true.1 hb cd hcd) o ho)
      (by decide)).2
      { wLoop with checkIndex := 1 } rfl⟩

/-- `setCell` never changes the state-choice policy. -/
theorem newState_setCell (w : World) (ci : Nat) (s : State) (r : SetReason) :
    (w.setCell ci s r).1.newState = w.newState :=
  (setCell_frame w ci s r).2.2.1

/-- `clearCell` never changes the state-choice policy. -/
theorem newState_clearCell (w : World) (ci : Nat) :
    (w.clearCell ci).newState = w.newState :=
  (clearCell_frame w ci).2.2.2.1

/-- `cancel` never changes the state-choice policy. -/
theorem newState_cancel :
    ∀ (fuel : Nat) (w w' : World) (res : Option (Nat × State)),
      World.cancel fuel w = some (w', res) → w'.newState = w.newState := by
  intro fuel
  induction fuel with
  | zero => intro w w' res hEq; cases hEq
  | succ fuel ih =>
    intro w w' res hEq
    unfold World.cancel at hEq
    cases hlast : w.setStack.getLast? with
    | none =>
      rw [hlast] at hEq
      injection hEq with hEq'
      injection hEq' with ha hb
      rw [← ha]
    | some ci =>
      rw [hlast] at hEq
      simp only at hEq
      cases hr : reasonOf { w with setStack := w.setStack.dropLast } ci with
      | none => rw [hr] at hEq; cases hEq
      | some sr =>
        rw [hr] at hEq
        cases sr with
        | assume i =>
          cases hs : stateOf { w with setStack := w.setStack.dropLast } ci with
          | none => simp only [hs] at hEq; cases hEq
          | some st =>
            simp only [hs] at hEq
            injection hEq with hEq'
            injection hEq' with ha hb
            rw [← ha]
            exact newState_clearCell _ ci
        | init => exact (ih _ _ _ hEq).trans (newState_clearCell _ ci)
        | rule c => exact (ih _ _ _ hEq).trans (newState_clearCell _ ci)
        | sym a b => exact (ih _ _ _ hEq).trans (newState_clearCell _ ci)
        | clause cs => exact (ih _ _ _ hEq).trans (newState_clearCell _ ci)
        | conflict => exact (ih _ _ _ hEq).trans (newState_clearCell _ ci)

/-- `backup` never changes the state-choice policy. -/
theorem newState_backup :
    ∀ (fuel : Nat) (w w' : World) (b : Bool),
      World.backup fuel w = some (w', b) → w'.newState = w.newState := by
  intro fuel
  induction fuel with
  | zero => intro w w' b hEq; cases hEq
  | succ fuel ih =>
    intro w w' b hEq
    unfold World.backup at hEq
    cases hc : World.cancel (fuel + 1) w with
    | none => rw [hc] at hEq; cases hEq
    | some p =>
      rw [hc] at hEq
      obtain ⟨w1, res⟩ := p
      have hw1 : w1.newState = w.newState :=
        newState_cancel (fuel + 1) w w1 res hc
      cases res with
      | none =>
        simp only at hEq
        injection hEq with hEq'
        injection hEq' with ha hb
        rw [← ha]
        exact hw1
      | some pr =>
        obtain ⟨ci, st⟩ := pr
        simp only at hEq
        by_cases hok : (w1.setCell ci st.not .conflict).2.isNone
        · rw [if_pos hok] at hEq
          injection hEq with hEq'
          injection hEq' with ha hb
          rw [← ha]
          exact (newState_setCell w1 ci st.not .conflict).trans hw1
        · rw [if_neg hok] at hEq
          exact (ih _ _ _ hEq).trans
            ((newState_setCell w1 ci st.not .conflict).trans hw1)

/-- The symmetry pass never changes the state-choice policy. -/
theorem newState_symPass :
    ∀ (l : List Nat) (w : World) (ci : Nat) (st : State),
      (w.symPass ci st l).1.newState = w.newState := by
  intro l
  induction l with
  | nil => intro w ci st; rfl
  | cons sy rest ih =>
    intro w ci st
    unfold World.symPass
    cases hs : stateOf w sy with
    | some old =>
      by_cases hne : st ≠ old
      · simp only [if_pos hne]
      · simp only [if_neg hne]
        exact ih w ci st
    | none =>
      simp only [hs]
      cases hres : (w.setCell sy st (.sym ci sy)).2 with
      | some r =>
        simp only
        exact newState_setCell w sy st (.sym ci sy)
      | none =>
        simp only
        exact (ih _ ci st).trans (newState_setCell w sy st (.sym ci sy))

/-- `consistify` never changes the state-choice policy. -/
theorem newState_consistify (w : World) (ci : Nat) :
    (w.consistify ci).1.newState = w.newState := by
  simp only [World.consistify]
  cases hc : w.cells[ci]? with
  | none => rfl
  | some cd =>
    dsimp only
    cases hp : w.rule.plan cd.desc cd.state with
    | none => rfl
    | some plan =>
      dsimp only
      refine foldlPreserve
        (fun (acc : World × Option ConflReason) =>
          acc.1.newState = w.newState)
        _ ?_ plan (w, none) rfl
      intro acc ts hacc
      obtain ⟨wa, ra⟩ := acc
      cases ra with
      | some rr => exact hacc
      | none =>
        obtain ⟨t1, t2⟩ := ts
        cases t1 with
        | self => exact (newState_setCell wa ci t2 (.rule ci)).trans hacc
        | succ =>
          dsimp only
          cases cd.succ with
          | none => exact hacc
          | some t => exact (newState_setCell wa t t2 (.rule ci)).trans hacc
        | nbhd i =>
          dsimp only
          cases (cd.nbhd[i]?).join with
          | none => exact hacc
          | some t => exact (newState_setCell wa t t2 (.rule ci)).trans hacc

/-- `consistify10` never changes the state-choice policy. -/
theorem newState_consistify10 (w : World) (ci : Nat) {w' : World}
    {r : Option ConflReason} (hEq : w.consistify10 ci = some (w', r)) :
    w'.newState = w.newState := by
  unfold World.consistify10 at hEq
  cases hc : w.cells[ci]? with
  | none =>
    rw [hc] at hEq
    injection hEq with hEq'
    injection hEq' with ha hb
    rw [← ha]
  | some cd =>
    rw [hc] at hEq
    dsimp only at hEq
    have h1 : (w.consistify ci).1.newState = w.newState :=
      newState_consistify w ci
    cases hr1 : (w.consistify ci).2 with
    | some cr =>
      rw [hr1] at hEq
      injection hEq with hEq'
      injection hEq' with ha hb
      rw [← ha]
      exact h1
    | none =>
      rw [hr1] at hEq
      have h2 : (match cd.pred with
          | some pr => (w.consistify ci).1.consistify pr
          | none => ((w.consistify ci).1, none)).1.newState =
          w.newState := by
        cases cd.pred with
        | some pr => exact (newState_consistify _ pr).trans h1
        | none => exact h1
      cases hr2 : (match cd.pred with
          | some pr => (w.consistify ci).1.consistify pr
          | none => ((w.consistify ci).1, none)).2 with
      | some cr =>
        rw [hr2] at hEq
        injection hEq with hEq'
        injection hEq' with ha hb
        rw [← ha]
        exact h2
      | none =>
        rw [hr2] at hEq
        have hfold := foldlPreserve
          (fun (acc : Option (World × Option ConflReason)) =>
            ∀ p, acc = some p → p.1.newState = w.newState)
          (fun acc slot =>
            match acc with
            | none => none
            | some (wa, some r) => some (wa, some r)
            | some (wa, none) =>
              match slot with
              | none => none
              | some n => some (wa.consistify n))
          ?step cd.nbhd (some ((match cd.pred with
            | some pr => (w.consistify ci).1.consistify pr
            | none => ((w.consistify ci).1, none)).1, none)) ?base
        case step =>
          intro acc slot hacc p hp
          match acc, hp with
          | none, hp => cases hp
          | some (wa, some rr), hp =>
            have : some (wa, some rr) = some p := hp
            injection this with hp'
            rw [← hp']
            exact hacc (wa, some rr) rfl
          | some (wa, none), hp =>
            match slot, hp with
            | none, hp => cases hp
            | some n, hp =>
              have : some (wa.consistify n) = some p := hp
              injection this with hp'
              rw [← hp']
              exact (newState_consistify wa n).trans (hacc (wa, none) rfl)
        case base =>
          intro p hp
          injection hp with hp'
          rw [← hp']
          exact h2
        exact hfold _ hEq

/-- `proceed` never changes the state-choice policy. -/
theorem newState_proceed :
    ∀ (fuel : Nat) {w w' : World} {r : Option ConflReason},
      World.proceed fuel w = some (w', r) → w'.newState = w.newState := by
  intro fuel
  induction fuel with
  | zero => intro w w' r hEq; cases hEq
  | succ fuel ih =>
    intro w w' r hEq
    unfold World.proceed at hEq
    cases hidx : w.setStack[w.checkIndex]? with
    | none =>
      rw [hidx] at hEq
      injection hEq with hEq'
      injection hEq' with ha hb
      rw [← ha]
    | some ci =>
      rw [hidx] at hEq
      dsimp only at hEq
      cases hst : stateOf w ci with
      | none => rw [hst] at hEq; cases hEq
      | some st =>
        rw [hst] at hEq
        dsimp only at hEq
        have hsym : (match w.cells[ci]? with
            | some cd => w.symPass ci st cd.sym
            | none => (w, none)).1.newState = w.newState := by
          cases w.cells[ci]? with
          | some cd => exact newState_symPass cd.sym w ci st
          | none => rfl
        cases hs2 : (match w.cells[ci]? with
            | some cd => w.symPass ci st cd.sym
            | none => (w, none)).2 with
        | some cr =>
          rw [hs2] at hEq
          injection hEq with hEq'
          injection hEq' with ha hb
          rw [← ha]
          exact hsym
        | none =>
          rw [hs2] at hEq
          cases hc10 : (match w.cells[ci]? with
              | some cd => w.symPass ci st cd.sym
              | none => (w, none)).1.consistify10 ci with
          | none => rw [hc10] at hEq; cases hEq
          | some q =>
            rw [hc10] at hEq
            obtain ⟨w2, r2⟩ := q
            have h2 : w2.newState = w.newState :=
              (newState_consistify10 _ ci hc10).trans hsym
            cases r2 with
            | some cr =>
              dsimp only at hEq
              injection hEq with hEq'
              injection hEq' with ha hb
              rw [← ha]
              exact h2
            | none =>
              dsimp only at hEq
              exact (ih hEq).trans h2

/-- `decide` never changes the state-choice policy. -/
theorem newState_decide (w : World) (rng : List State) :
    (w.decide rng).2.1.newState = w.newState := by
  unfold World.decide
  cases hu : w.getUnknown w.searchIndex with
  | none => rfl
  | some pr =>
    obtain ⟨i, ci⟩ := pr
    dsimp only
    exact (setCell_frame _ ci _ (.assume i)).2.2.1

/-- `cancelWhile` never changes the state-choice policy. -/
theorem newState_cancelWhile :
    ∀ (fuel : Nat) {w : World} (maxLevel : Nat) {w' : World},
      cancelWhile fuel w maxLevel = some w' → w'.newState = w.newState := by
  intro fuel
  induction fuel with
  | zero => intro w ml w' hEq; cases hEq
  | succ fuel ih =>
    intro w ml w' hEq
    unfold cancelWhile at hEq
    by_cases hlt : ml < w.level
    · rw [if_pos hlt] at hEq
      cases hc : World.cancel (fuel + 1) w with
      | none => rw [hc] at hEq; cases hEq
      | some p =>
        rw [hc] at hEq
        exact (ih ml hEq).trans (newState_cancel (fuel + 1) w p.1 p.2 hc)
    · rw [if_neg hlt] at hEq
      injection hEq with hEq'
      rw [← hEq']

/-- The analysis loop never changes the state-choice policy. -/
theorem newState_analyzeLoop :
    ∀ (fuel : Nat) {w : World} (rc seen : List Nat) (ml cnt : Nat)
      {w' : World} {b : Bool},
      World.analyzeLoop fuel w rc seen ml cnt = some (w', b) →
      w'.newState = w.newState := by
  intro fuel
  induction fuel with
  | zero => intro w rc seen ml cnt w' b hEq; cases hEq
  | succ fuel ih =>
    intro w rc seen ml cnt w' b hEq
    unfold World.analyzeLoop at hEq
    cases hlast : w.setStack.getLast? with
    | none =>
      rw [hlast] at hEq
      injection hEq with hEq'
      injection hEq' with ha hb
      rw [← ha]
    | some ci =>
      rw [hlast] at hEq
      dsimp only at hEq
      cases hr : reasonOf { w with setStack := w.setStack.dropLast } ci with
      | none => rw [hr] at hEq; cases hEq
      | some sr =>
        rw [hr] at hEq
        cases sr with
        | assume i =>
          cases hs : stateOf { w with setStack := w.setStack.dropLast } ci with
          | none => dsimp only at hEq; rw [hs] at hEq; cases hEq
          | some st =>
            dsimp only at hEq
            rw [hs] at hEq
            dsimp only at hEq
            split at hEq
            · injection hEq with hEq'
              injection hEq' with ha hb
              rw [← ha]
              exact (newState_setCell _ ci st.not .conflict).trans
                (newState_clearCell _ ci)
            · exact (newState_backup fuel _ _ _ hEq).trans
                ((newState_setCell _ ci st.not .conflict).trans
                  (newState_clearCell _ ci))
        | init =>
          exact (newState_backup fuel _ _ _ hEq).trans
            (newState_clearCell _ ci)
        | conflict =>
          exact (newState_backup fuel _ _ _ hEq).trans
            (newState_clearCell _ ci)
        | rule c =>
          dsimp only at hEq
          by_cases hseen : ci ∈ (scanLits w rc seen ml cnt).1
          · rw [if_pos hseen] at hEq
            cases hs : stateOf { w with setStack := w.setStack.dropLast } ci with
            | none => rw [hs] at hEq; cases hEq
            | some st =>
              rw [hs] at hEq
              dsimp only at hEq
              by_cases hcnt : (scanLits w rc seen ml cnt).2.2 = 1
              · rw [if_pos hcnt] at hEq
                cases hcw : cancelWhile fuel
                    (({ w with setStack := w.setStack.dropLast
                      }).clearCell ci) (scanLits w rc seen ml cnt).2.1 with
                | none => rw [hcw] at hEq; cases hEq
                | some w2 =>
                  rw [hcw] at hEq
                  dsimp only at hEq
                  have h2 : w2.newState = w.newState :=
                    (newState_cancelWhile fuel _ hcw).trans
                      (newState_clearCell _ ci)
                  have h3 : (w2.setCell ci st.not .conflict).1.newState =
                      w.newState :=
                    (newState_setCell w2 ci st.not .conflict).trans h2
                  by_cases hok : (w2.setCell ci st.not .conflict).2.isNone
                  · rw [if_pos hok] at hEq
                    injection hEq with hEq'
                    injection hEq' with ha hb
                    rw [← ha]
                    exact h3
                  · rw [if_neg hok] at hEq
                    exact (newState_backup fuel _ _ _ hEq).trans h3
              · rw [if_neg hcnt] at hEq
                exact (ih _ _ _ _ hEq).trans (newState_clearCell _ ci)
          · rw [if_neg hseen] at hEq
            exact (ih _ _ _ _ hEq).trans (newState_clearCell _ ci)
        | sym a b2 =>
          dsimp only at hEq
          by_cases hseen : ci ∈ (scanLits w rc seen ml cnt).1
          · rw [if_pos hseen] at hEq
            cases hs : stateOf { w with setStack := w.setStack.dropLast } ci with
            | none => rw [hs] at hEq; cases hEq
            | some st =>
              rw [hs] at hEq
              dsimp only at hEq
              by_cases hcnt : (scanLits w rc seen ml cnt).2.2 = 1
              · rw [if_pos hcnt] at hEq
                cases hcw : cancelWhile fuel
                    (({ w with setStack := w.setStack.dropLast
                      }).clearCell ci) (scanLits w rc seen ml cnt).2.1 with
                | none => rw [hcw] at hEq; cases hEq
                | some w2 =>
                  rw [hcw] at hEq
                  dsimp only at hEq
                  have h2 : w2.newState = w.newState :=
                    (newState_cancelWhile fuel _ hcw).trans
                      (newState_clearCell _ ci)
                  have h3 : (w2.setCell ci st.not .conflict).1.newState =
                      w.newState :=
                    (newState_setCell w2 ci st.not .conflict).trans h2
                  by_cases hok : (w2.setCell ci st.not .conflict).2.isNone
                  · rw [if_pos hok] at hEq
                    injection hEq with hEq'
                    injection hEq' with ha hb
                    rw [← ha]
                    exact h3
                  · rw [if_neg hok] at hEq
                    exact (newState_backup fuel _ _ _ hEq).trans h3
              · rw [if_neg hcnt] at hEq
                exact (ih _ _ _ _ hEq).trans (newState_clearCell _ ci)
          · rw [if_neg hseen] at hEq
            exact (ih _ _ _ _ hEq).trans (newState_clearCell _ ci)
        | clause cs =>
          dsimp only at hEq
          by_cases hseen : ci ∈ (scanLits w rc seen ml cnt).1
          · rw [if_pos hseen] at hEq
            cases hs : stateOf { w with setStack := w.setStack.dropLast } ci with
            | none => rw [hs] at hEq; cases hEq
            | some st =>
              rw [hs] at hEq
              dsimp only at hEq
              by_cases hcnt : (scanLits w rc seen ml cnt).2.2 = 1
              · rw [if_pos hcnt] at hEq
                cases hcw : cancelWhile fuel
                    (({ w with setStack := w.setStack.dropLast
                      }).clearCell ci) (scanLits w rc seen ml cnt).2.1 with
                | none => rw [hcw] at hEq; cases hEq
                | some w2 =>
                  rw [hcw] at hEq
                  dsimp only at hEq
                  have h2 : w2.newState = w.newState :=
                    (newState_cancelWhile fuel _ hcw).trans
                      (newState_clearCell _ ci)
                  have h3 : (w2.setCell ci st.not .conflict).1.newState =
                      w.newState :=
                    (newState_setCell w2 ci st.not .conflict).trans h2
                  by_cases hok : (w2.setCell ci st.not .conflict).2.isNone
                  · rw [if_pos hok] at hEq
                    injection hEq with hEq'
                    injection hEq' with ha hb
                    rw [← ha]
                    exact h3
                  · rw [if_neg hok] at hEq
                    exact (newState_backup fuel _ _ _ hEq).trans h3
              · rw [if_neg hcnt] at hEq
                exact (ih _ _ _ _ hEq).trans (newState_clearCell _ ci)
          · rw [if_neg hseen] at hEq
            exact (ih _ _ _ _ hEq).trans (newState_clearCell _ ci)

/-- `analyze` never changes the state-choice policy. -/
theorem newState_analyze (fuel : Nat) (w : World) (r : ConflReason)
    {w' : World} {b : Bool} (hEq : w.analyze fuel r = some (w', b)) :
    w'.newState = w.newState := by
  unfold World.analyze at hEq
  cases r with
  | conflict => exact newState_backup fuel _ _ _ hEq
  | cellCount => exact newState_backup fuel _ _ _ hEq
  | succeed => exact newState_backup fuel _ _ _ hEq
  | rule c => exact newState_analyzeLoop fuel _ _ _ _ hEq
  | sym c s => exact newState_analyzeLoop fuel _ _ _ _ hEq

/-- `go` never changes the state-choice policy. -/
theorem newState_go :
    ∀ (fuel : Nat) {w : World} (step : Nat) {w' : World} {b : Bool} {n : Nat},
      World.go fuel w step = some (w', b, n) → w'.newState = w.newState := by
  intro fuel
  induction fuel with
  | zero => intro w step w' b n hEq; cases hEq
  | succ fuel ih =>
    intro w step w' b n hEq
    unfold World.go at hEq
    cases hp : World.proceed (fuel + 1) w with
    | none => rw [hp] at hEq; cases hEq
    | some p =>
      rw [hp] at hEq
      obtain ⟨w1, r1⟩ := p
      have h1 : w1.newState = w.newState := newState_proceed (fuel + 1) hp
      cases r1 with
      | none =>
        injection hEq with hEq'
        injection hEq' with ha hb
        rw [← ha]
        exact h1
      | some r =>
        dsimp only at hEq
        cases ha : World.analyze (fuel + 1)
            { w1 with conflicts := w1.conflicts + 1 } r with
        | none => rw [ha] at hEq; cases hEq
        | some q =>
          rw [ha] at hEq
          obtain ⟨w3, b3⟩ := q
          have h3 : w3.newState = w.newState :=
            (newState_analyze (fuel + 1) _ r ha).trans h1
          cases b3 with
          | true => exact (ih _ hEq).trans h3
          | false =>
            injection hEq with hEq'
            injection hEq' with ha2 hb2
            rw [← ha2]
            exact h3

/-- Under a `Choose` policy, `decide` ignores the oracle stream: the
outcome and the resulting world do not depend on it, and the stream is
returned unread. -/
theorem decide_choose (w : World) (s : State)
    (h : w.newState = NewState.choose s) (rng1 rng2 : List State) :
    (w.decide rng1).1 = (w.decide rng2).1 ∧
    (w.decide rng1).2.1 = (w.decide rng2).2.1 ∧
    (w.decide rng1).2.2 = rng1 := by
  unfold World.decide
  cases hu : w.getUnknown w.searchIndex with
  | none => exact ⟨rfl, rfl, rfl⟩
  | some pr =>
    obtain ⟨i, ci⟩ := pr
    dsimp only
    have h0 : ({ w with searchIndex := i + 1 } : World).newState =
        NewState.choose s := h
    rw [h0]
    cases s <;> exact ⟨rfl, rfl, rfl⟩

/-- Under a `Choose` policy the search loop never reads the oracle
stream. -/
theorem searchLoop_rng_irrel :
    ∀ (fuel : Nat) {w : World} (s : State) (rng1 rng2 : List State)
      (maxStep : Option Nat) (step : Nat),
      w.newState = NewState.choose s →
      World.searchLoop fuel rng1 w maxStep step =
        World.searchLoop fuel rng2 w maxStep step := by
  intro fuel
  induction fuel with
  | zero => intro w s rng1 rng2 maxStep step _; rfl
  | succ fuel ih =>
    intro w s rng1 rng2 maxStep step h
    simp only [World.searchLoop]
    cases hg : World.go (fuel + 1) w step with
    | none => rfl
    | some p =>
      obtain ⟨w1, b1, step1⟩ := p
      cases b1 with
      | false => rfl
      | true =>
        dsimp only
        have hw1 : w1.newState = NewState.choose s :=
          (newState_go (fuel + 1) step hg).trans h
        obtain ⟨hd1, hd2, hd3⟩ := decide_choose w1 s hw1 rng1 rng2
        have hd3' : (w1.decide rng2).2.2 = rng2 :=
          (decide_choose w1 s hw1 rng2 rng1).2.2
        rw [← hd1, ← hd2, hd3, hd3']
        have hwd : (w1.decide rng1).2.1.newState = NewState.choose s :=
          (newState_decide w1 rng1).trans hw1
        cases hd : (w1.decide rng1).1 with
        | some e =>
          dsimp only
          by_cases hse : e.isSome
          · simp only [if_pos hse]
            cases hb2 : World.backup (fuel + 1) (w1.decide rng1).2.1 with
            | none => rfl
            | some q =>
              obtain ⟨w3, b3⟩ := q
              cases b3 with
              | false => rfl
              | true =>
                dsimp only
                have h3 : w3.newState = NewState.choose s :=
                  (newState_backup (fuel + 1) _ _ _ hb2).trans hwd
                by_cases hl : stepLimitHit maxStep step1
                · simp only [if_pos hl]
                · simp only [if_neg hl]
                  exact ih s rng1 rng2 maxStep step1 h3
          · simp only [if_neg hse]
            by_cases hl : stepLimitHit maxStep step1
            · simp only [if_pos hl]
            · simp only [if_neg hl]
              exact ih s rng1 rng2 maxStep step1 hwd
        | none =>
          dsimp only
          by_cases hnt : (w1.decide rng1).2.1.nontrivial
          · simp only [if_pos hnt]
          · simp only [if_neg hnt]
            cases hb2 : World.backup (fuel + 1) (w1.decide rng1).2.1 with
            | none => rfl
            | some q =>
              obtain ⟨w3, b3⟩ := q
              cases b3 with
              | false => rfl
              | true =>
                dsimp only
                have h3 : w3.newState = NewState.choose s :=
                  (newState_backup (fuel + 1) _ _ _ hb2).trans hwd
                by_cases hl : stepLimitHit maxStep step1
                · simp only [if_pos hl]
                · simp only [if_neg hl]
                  exact ih s rng1 rng2 maxStep step1 h3

/-- Under a `Choose` policy `search` never reads the oracle stream. -/
theorem search_rng_irrel (fuel : Nat) (w : World) (s : State)
    (rng1 rng2 : List State) (maxStep : Option Nat)
    (h : w.newState = NewState.choose s) :
    World.search fuel rng1 w maxStep = World.search fuel rng2 w maxStep := by
  unfold World.search
  by_cases hu : (w.getUnknown 0).isNone
  · simp only [if_pos hu]
    cases hb : World.backup fuel w with
    | none => rfl
    | some p =>
      obtain ⟨w1, b1⟩ := p
      cases b1 with
      | false => rfl
      | true =>
        dsimp only
        exact searchLoop_rng_irrel fuel s rng1 rng2 maxStep 0
          ((newState_backup fuel _ _ _ hb).trans h)
  · simp only [if_neg hu]
    exact searchLoop_rng_irrel fuel s rng1 rng2 maxStep 0 h

/-- C7: with a `Choose(...)` state policy the search is deterministic.
`rand::random()` in `decide` (`search.rs`, line 238) is the program's
only nondeterminism source; it is modelled as an explicit oracle stream
threaded through `search`, and under a `Choose` policy `decide` never
reads it (`decide_choose`).  The `newState` preservation ladder shows
every operation of the run keeps the policy, so `searchLoop_rng_irrel`
makes two runs with arbitrary streams literally equal: same status
(`Found` / `None` / `Searching`), and on success the very same world,
hence `display_gen(t)` agrees for every generation `t` (`search.rs`,
lines 232-244 and 252-279; building the `World` from a `Config` —
`world.rs`, missing from the tree — is deterministic Rust code with no
random input, so identical configs start identical runs). -/
theorem C7_search_deterministic (fuel : Nat) (w : World) (s : State)
    (rng1 rng2 : List State) (maxStep : Option Nat)
    (h : w.newState = NewState.choose s) :
    World.search fuel rng1 w maxStep = World.search fuel rng2 w maxStep ∧
    ∀ st1 w1 st2 w2,
      World.search fuel rng1 w maxStep = some (st1, w1) →
      World.search fuel rng2 w maxStep = some (st2, w2) →
      st1 = st2 ∧ ∀ t, w1.displayGen t = w2.displayGen t := by
  have he := search_rng_irrel fuel w s rng1 rng2 maxStep h
  refine ⟨he, ?_⟩
  intro st1 w1 st2 w2 h1 h2
  rw [he, h2] at h1
  injection h1 with h1'
  injection h1' with ha hb
  refine ⟨ha.symm, fun t => ?_⟩
  rw [hb]

/-- Witness for C7 at the concrete world `wAssumed` (policy
`Choose(Alive)`) with two different oracle streams: both runs complete
— concretely with status `None` — and the theorem makes them equal. -/
theorem C7_search_deterministic_witness :
    (World.search 4 [] wAssumed none).map (fun p => p.1) =
        some Status.none ∧
    (World.search 4 [State.dead, State.alive] wAssumed none).map
        (fun p => p.1) = some Status.none ∧
    World.search 4 [] wAssumed none =
      World.search 4 [State.dead, State.alive] wAssumed none :=
  ⟨by decide, by decide,
    (C7_search_deterministic 4 wAssumed State.alive []
      [State.dead, State.alive] none rfl).1⟩
